import Mathlib

/-!
# GrokTrader relay servers: a shallow embedding

The per-token trades relay (`src/api/WebSockets/trades/server.js`) is embedded as
explicit state passing: every handler of `TradesWebSocketServer` is a function
from the fields reachable from `this` to the new fields and the list of
observable effects (frames written to the upstream socket and to the clients,
timers armed).  JavaScript `Map` and `Set` are insertion-ordered lists without
repetition.  `console.log` calls and the `timestamp: Date.now()` field of the
envelopes are left out.

Of the other programs of the repository the file embeds the reconnect policy that
the four feed relays share, the replay loop and the method `determineBuyAction` of
the wallet tracker (`src/api/WebSockets/walletTracker/server.js`), the method
`broadcast` of the relays that keep a single set of clients, and the function
`validateAmount` of the trade endpoints (`src/api/trading/server.js`,
`src/api/server.js`).  The built-in `parseFloat` is a parameter of the functions that
call it; a model of it that reads the exact decimal value serves for the examples.
-/

namespace GrokTrader

/-! ## JavaScript collections -/

/-- JavaScript `Set`, as the list of its members in insertion order. -/
abbrev JSSet (α : Type) := List α

/-- JavaScript `Map`, as the list of its entries in insertion order. -/
abbrev JSMap (κ ν : Type) := List (κ × ν)

namespace JSSet

variable {α : Type} [DecidableEq α]

/-- The method `Set.prototype.add`: a member already present keeps its place. -/
def add (s : JSSet α) (x : α) : JSSet α :=
  if x ∈ s then s else s ++ [x]

/-- The method `Set.prototype.delete`. -/
def delete (s : JSSet α) (x : α) : JSSet α :=
  s.filter (fun y => decide (y ≠ x))

/-- The property `Set.prototype.size`. -/
def size (s : JSSet α) : Nat := s.length

end JSSet

namespace JSMap

variable {κ ν : Type} [DecidableEq κ]

/-- The method `Map.prototype.get`; `none` stands for `undefined`. -/
def get : JSMap κ ν → κ → Option ν
  | [], _ => none
  | (k, v) :: m, x => if k = x then some v else get m x

/-- The method `Map.prototype.has`. -/
def has (m : JSMap κ ν) (x : κ) : Bool := (get m x).isSome

/-- The method `Map.prototype.set`: an existing key keeps its place and takes the
new value, a new key goes last. -/
def set : JSMap κ ν → κ → ν → JSMap κ ν
  | [], x, v => [(x, v)]
  | (k, w) :: m, x, v => if k = x then (k, v) :: m else (k, w) :: set m x v

/-- The method `Map.prototype.delete`. -/
def delete (m : JSMap κ ν) (x : κ) : JSMap κ ν :=
  m.filter (fun e => decide (e.1 ≠ x))

/-- The keys in iteration order: `Array.from(map.keys())`. -/
def keys (m : JSMap κ ν) : List κ := m.map Prod.fst

end JSMap

/-! ## The reconnect policy shared by the relays -/

/-- The delay `Math.min(1000 * Math.pow(2, this.reconnectAttempts), 30000)`. -/
def reconnectDelay (attempts : Nat) : Nat :=
  min (1000 * 2 ^ attempts) 30000

/-- The body of the upstream `close` handler, the same text in the four relays with an
upstream feed (trades lines 160-167, walletTracker 168-175, newTokens 116-123,
migratingTokens 118-125): the new value of `reconnectAttempts` and the delay
given to `setTimeout`, if a reconnect is scheduled. -/
def closeHandler (reconnectAttempts maxReconnectAttempts : Nat) : Nat × Option Nat :=
  if reconnectAttempts < maxReconnectAttempts then
    (reconnectAttempts + 1, some (reconnectDelay (reconnectAttempts + 1)))
  else (reconnectAttempts, none)

/-- The delays scheduled by `n` upstream closes in a row, with no `open` in between,
starting with the counter at `attempts`. -/
def closeDelays (maxReconnectAttempts : Nat) : Nat → Nat → List Nat
  | _, 0 => []
  | attempts, n + 1 =>
    match closeHandler attempts maxReconnectAttempts with
    | (attempts1, some delay) => delay :: closeDelays maxReconnectAttempts attempts1 n
    | (attempts1, none) => closeDelays maxReconnectAttempts attempts1 n

/-! ## Data model of the trades relay -/

/-- A downstream socket object `ws`; the number is the order of its creation. -/
abbrev Client := Nat

/-- A token address, the key of `tokenSubscriptions`. -/
abbrev Topic := String

/-- The `readyState` of a `ws` socket. -/
inductive ReadyState
  | CONNECTING
  | OPEN
  | CLOSING
  | CLOSED
  deriving DecidableEq, Repr

/-- A JavaScript value as far as the relay looks at it: objects and arrays are
kept by reference only, numbers are the integers. -/
inductive JSValue
  | undefined
  | null
  | bool (b : Bool)
  | number (n : Int)
  | string (s : String)
  | object (ref : Nat)
  deriving DecidableEq, Repr

/-- JavaScript truthiness, as used by `||` and `if`. -/
def JSValue.truthy : JSValue → Bool
  | .undefined => false
  | .null => false
  | .bool b => b
  | .number n => decide (n ≠ 0)
  | .string s => decide (s ≠ "")
  | .object _ => true

/-- The JavaScript operator `a || b`. -/
def JSValue.or (a b : JSValue) : JSValue :=
  if a.truthy then a else b

/-- The value `JSON.parse` returns for an upstream frame.  Of an object only the
three properties the handler reads are kept, the rest is a `payload` number. -/
inductive Message
  | null
  | scalar (payload : Nat)
  | object (mint token address : JSValue) (payload : Nat)
  deriving DecidableEq, Repr

/-- An upstream frame: text that `JSON.parse` rejects, or JSON text. -/
inductive Frame
  | malformed
  | json (message : Message)
  deriving DecidableEq, Repr

/-- The call `JSON.parse(data.toString())`, which throws on malformed text. -/
def JSONparse : Frame → Except String Message
  | .malformed => .error "SyntaxError"
  | .json m => .ok m

/-- Line 136, `message.mint || message.token || message.address`.  Reading a property
of `null` throws; a number, string, boolean or array has none of the three. -/
def tokenAddressOf : Message → Except String JSValue
  | .null => .error "TypeError"
  | .scalar _ => .ok ((JSValue.undefined.or JSValue.undefined).or JSValue.undefined)
  | .object mint token address _ => .ok ((mint.or token).or address)

/-- The values of the candidate fields `mint`, `token`, `address` of a parsed message,
in their priority order; a message that is not an object has none. -/
def Message.candidates : Message → List JSValue
  | .object mint token address _ => [mint, token, address]
  | _ => []

/-- The resolved topic in the words of the specification: the first non-empty value
among the candidate fields, if there is one.  Non-empty is JavaScript truthiness:
for a string it means not `""`, and `undefined` and `null` are empty. -/
def resolvedTopic (message : Message) : Option JSValue :=
  message.candidates.find? JSValue.truthy

/-- The envelopes the relay writes to its clients (without `timestamp`). -/
inductive Envelope
  | error
  | connection (token : Topic)
  | trade (token : JSValue) (data : Message)
  deriving DecidableEq, Repr

/-- The observable actions of a handler, in the order they happen. -/
inductive Effect
  | upstreamSend (method : String) (keys : List Topic)
  | send (ws : Client) (message : Envelope)
  | close (ws : Client) (code : Nat)
  | terminate (ws : Client)
  | ping (ws : Client)
  | setTimeout (delay : Nat)
  deriving DecidableEq, Repr

/-- A member of `wss.clients`: the socket, its `isAlive` property (`none` while it
is `undefined`) and whether the `close`, `error` and `pong` handlers of lines
53-65 are attached to it. -/
structure Socket where
  ws : Client
  isAlive : Option Bool
  handlers : Bool
  deriving DecidableEq, Repr

/-- The fields of a `TradesWebSocketServer` instance: `pumpPortalWs` is the
`readyState` of the current upstream socket, `none` for `null`; `wssClients` is
`this.wss.clients`. -/
structure TradesWebSocketServer where
  clients : JSMap Client (JSSet Topic)
  tokenSubscriptions : JSMap Topic (JSSet Client)
  wssClients : List Socket
  pumpPortalWs : Option ReadyState
  reconnectAttempts : Nat
  maxReconnectAttempts : Nat
  deriving DecidableEq, Repr

/-- What the relay finds when it writes to a client during one handler run:
the sockets whose `readyState` is not `OPEN` and those whose `send` throws. -/
structure ClientEnv where
  notOpen : List Client
  sendThrows : List Client
  deriving DecidableEq, Repr

/-- Whether `client.readyState === WebSocket.OPEN` and `client.send` returns. -/
def ClientEnv.delivers (env : ClientEnv) (c : Client) : Bool :=
  decide (c ∉ env.notOpen) && decide (c ∉ env.sendThrows)

/-- The value `params.token` of line 30, as `url.parse(req.url, true).query` gives it:
`undefined` for a query without a `token` parameter, the string for a single one,
and the array of the values for a parameter that occurs more than once. -/
inductive TokenParam
  | undefined
  | string (value : String)
  | array (values : List String)
  deriving DecidableEq, Repr

namespace TokenParam

/-- The property `token` of the parsed query, from the values the `token` parameters of
the URL have, in order. -/
def ofValues : List String → TokenParam
  | [] => .undefined
  | [value] => .string value
  | values => .array values

/-- JavaScript truthiness: an array is truthy whatever it holds. -/
def truthy : TokenParam → Bool
  | .undefined => false
  | .string value => decide (value ≠ "")
  | .array _ => true

/-- The test `!tokenAddress` of line 32: whether the handler takes the rejection of
lines 33-39. -/
def rejected (tokenAddress : TokenParam) : Bool :=
  !tokenAddress.truthy

end TokenParam

namespace TradesWebSocketServer

/-- The guard `this.pumpPortalWs && this.pumpPortalWs.readyState === WebSocket.OPEN`. -/
def upstreamOpen (s : TradesWebSocketServer) : Bool :=
  decide (s.pumpPortalWs = some ReadyState.OPEN)

/-- Method `subscribeToToken` (lines 171-180). -/
def subscribeToToken (s : TradesWebSocketServer) (tokenAddress : Topic) : List Effect :=
  if s.upstreamOpen then [Effect.upstreamSend "subscribeTokenTrade" [tokenAddress]] else []

/-- Method `subscribeToTokens` (lines 182-191). -/
def subscribeToTokens (s : TradesWebSocketServer) (tokenAddresses : List Topic) : List Effect :=
  if s.upstreamOpen then [Effect.upstreamSend "subscribeTokenTrade" tokenAddresses] else []

/-- Method `unsubscribeFromToken` (lines 193-202). -/
def unsubscribeFromToken (s : TradesWebSocketServer) (tokenAddress : Topic) : List Effect :=
  if s.upstreamOpen then [Effect.upstreamSend "unsubscribeTokenTrade" [tokenAddress]] else []

/-- One turn of the `tokens.forEach` loop of `removeClient` (lines 100-110). -/
def removeInterest (ws : Client) (acc : TradesWebSocketServer × List Effect) (token : Topic) :
    TradesWebSocketServer × List Effect :=
  match JSMap.get acc.1.tokenSubscriptions token with
  | none => acc
  | some subscribers =>
    let subscribers1 := JSSet.delete subscribers ws
    let s1 := { acc.1 with
      tokenSubscriptions := JSMap.set acc.1.tokenSubscriptions token subscribers1 }
    if JSSet.size subscribers1 = 0 then
      ({ s1 with tokenSubscriptions := JSMap.delete s1.tokenSubscriptions token },
        acc.2 ++ unsubscribeFromToken s1 token)
    else (s1, acc.2)

/-- Method `removeClient` (lines 97-113). -/
def removeClient (s : TradesWebSocketServer) (ws : Client) :
    TradesWebSocketServer × List Effect :=
  let r := match JSMap.get s.clients ws with
    | none => (s, [])
    | some tokens => tokens.foldl (removeInterest ws) (s, [])
  ({ r.1 with clients := JSMap.delete r.1.clients ws }, r.2)

/-- Replaces the `isAlive` property of the socket object `ws`. -/
def setIsAlive (cs : List Socket) (ws : Client) (b : Bool) : List Socket :=
  cs.map (fun c => if c.ws = ws then { c with isAlive := some b } else c)

/-- Records that the handlers of lines 53-65 are attached to the socket `ws`. -/
def attachHandlers (cs : List Socket) (ws : Client) : List Socket :=
  cs.map (fun c => if c.ws = ws then { c with handlers := true } else c)

/-- The rejection of lines 33-39.  The `send` of line 33 is outside any `try`, so a
throwing `ws.send` makes the handler throw. -/
def rejectConnection (s : TradesWebSocketServer) (ws : Client) (sendThrows : Bool) :
    Except String (TradesWebSocketServer × List Effect) :=
  if sendThrows then .error "send"
  else .ok (s, [Effect.send ws Envelope.error, Effect.close ws 1008])

/-- The state of lines 44-48: `isAlive` set, `ws` recorded in `clients`, and an empty
entry made for a token that has none.  The client is not yet in the token's set. -/
def bindClient (s : TradesWebSocketServer) (ws : Client) (t : Topic) : TradesWebSocketServer :=
  let s1 := { s with
    wssClients := setIsAlive s.wssClients ws true
    clients := JSMap.set s.clients ws [t] }
  if JSMap.has s1.tokenSubscriptions t then s1
  else { s1 with tokenSubscriptions := JSMap.set s1.tokenSubscriptions t [] }

/-- The acceptance of lines 44-77: the subscribe of line 49 is issued in the state
`bindClient` (only for a token without entry), then the client is added (line 51),
the handlers are attached and the `connection` envelope is written inside a `try`. -/
def acceptConnection (s : TradesWebSocketServer) (ws : Client) (t : Topic)
    (sendThrows : Bool) : TradesWebSocketServer × List Effect :=
  let s2 := bindClient s ws t
  let e2 := if JSMap.has s.tokenSubscriptions t then [] else subscribeToToken s2 t
  let subscribers := (JSMap.get s2.tokenSubscriptions t).getD []
  let s3 := { s2 with
    tokenSubscriptions := JSMap.set s2.tokenSubscriptions t (JSSet.add subscribers ws)
    wssClients := attachHandlers s2.wssClients ws }
  (s3, e2 ++ (if sendThrows then [] else [Effect.send ws (Envelope.connection t)]))

/-- The `connection` handler (lines 28-78) for a query with at most one `token`
parameter: `token` is `params.token`, `none` when the query has no such parameter;
`sendThrows` says whether `ws.send` throws.  A query that repeats the parameter gives
an array (`TokenParam.array`), which passes the test of line 32 and becomes a key
compared by reference; the registries here hold string keys only. -/
def onConnection (s : TradesWebSocketServer) (ws : Client) (token : Option String)
    (sendThrows : Bool) : Except String (TradesWebSocketServer × List Effect) :=
  match token with
  | none => rejectConnection s ws sendThrows
  | some t =>
    if (JSValue.string t).truthy then .ok (acceptConnection s ws t sendThrows)
    else rejectConnection s ws sendThrows

/-- One turn of the `wss.clients.forEach` loop of the liveness sweep (lines 81-89).
Each socket is met once and no other turn touches its `isAlive`, so the value
read is the one the socket had when the sweep began. -/
def sweepOne (acc : TradesWebSocketServer × List Effect) (c : Socket) :
    TradesWebSocketServer × List Effect :=
  if c.isAlive = some false then
    ((removeClient acc.1 c.ws).1, acc.2 ++ Effect.terminate c.ws :: (removeClient acc.1 c.ws).2)
  else
    ({ acc.1 with wssClients := setIsAlive acc.1.wssClients c.ws false },
      acc.2 ++ [Effect.ping c.ws])

/-- The liveness sweep run by `setInterval` (lines 80-90). -/
def sweep (s : TradesWebSocketServer) : TradesWebSocketServer × List Effect :=
  s.wssClients.foldl sweepOne (s, [])

/-- The upstream `open` handler (lines 122-130). -/
def onPumpPortalOpen (s : TradesWebSocketServer) : TradesWebSocketServer × List Effect :=
  let s1 := { s with reconnectAttempts := 0 }
  let tokens := JSMap.keys s1.tokenSubscriptions
  if tokens.length > 0 then (s1, subscribeToTokens s1 tokens) else (s1, [])

/-- Map lookup `this.tokenSubscriptions.get(tokenAddress)`: the keys are strings,
so any other value finds nothing. -/
def getSubscribers (s : TradesWebSocketServer) : JSValue → Option (JSSet Client)
  | .string t => JSMap.get s.tokenSubscriptions t
  | _ => none

/-- Removal of the dead clients, `deadClients.forEach(client => this.removeClient(client))`. -/
def removeClients (s : TradesWebSocketServer) (deadClients : List Client) :
    TradesWebSocketServer × List Effect :=
  deadClients.foldl (fun acc c => ((removeClient acc.1 c).1, acc.2 ++ (removeClient acc.1 c).2))
    (s, [])

/-- Method `broadcastToToken` (lines 204-230). -/
def broadcastToToken (s : TradesWebSocketServer) (env : ClientEnv) (tokenAddress : JSValue)
    (message : Envelope) : TradesWebSocketServer × List Effect :=
  match getSubscribers s tokenAddress with
  | none => (s, [])
  | some subscribers =>
    if JSSet.size subscribers = 0 then (s, [])
    else
      let sent := (subscribers.filter (fun c => env.delivers c)).map
        (fun c => Effect.send c message)
      let deadClients := subscribers.filter (fun c => !env.delivers c)
      let r := removeClients s deadClients
      (r.1, sent ++ r.2)

/-- The body of the `try` block of the upstream `message` handler (lines 134-147). -/
def onPumpPortalMessageTry (s : TradesWebSocketServer) (env : ClientEnv) (data : Frame) :
    Except String (TradesWebSocketServer × List Effect) :=
  match JSONparse data with
  | .error e => .error e
  | .ok message =>
    match tokenAddressOf message with
    | .error e => .error e
    | .ok tokenAddress =>
      if tokenAddress.truthy then
        .ok (broadcastToToken s env tokenAddress (Envelope.trade tokenAddress message))
      else .ok (s, [])

/-- The upstream `message` handler (lines 132-151): the `catch` only logs, and a
throw can only come before the first change of state. -/
def onPumpPortalMessage (s : TradesWebSocketServer) (env : ClientEnv) (data : Frame) :
    Except String (TradesWebSocketServer × List Effect) :=
  match onPumpPortalMessageTry s env data with
  | .ok r => .ok r
  | .error _ => .ok (s, [])

/-- The upstream `close` handler (lines 157-168). -/
def onPumpPortalClose (s : TradesWebSocketServer) : TradesWebSocketServer × List Effect :=
  match closeHandler s.reconnectAttempts s.maxReconnectAttempts with
  | (attempts, some delay) => ({ s with reconnectAttempts := attempts }, [Effect.setTimeout delay])
  | (attempts, none) => ({ s with reconnectAttempts := attempts }, [])

/-- Method `connectToPumpPortal` (lines 115-169): a new upstream socket, not yet open. -/
def connectToPumpPortal (s : TradesWebSocketServer) : TradesWebSocketServer :=
  { s with pumpPortalWs := some ReadyState.CONNECTING }

/-- The instance right after the constructor (lines 6-18) has run. -/
def init : TradesWebSocketServer :=
  connectToPumpPortal
    { clients := [], tokenSubscriptions := [], wssClients := [], pumpPortalWs := none,
      reconnectAttempts := 0, maxReconnectAttempts := 10 }

end TradesWebSocketServer

/-! ## Upstream control frames -/


/-- Whether an effect is a frame written to the upstream socket. -/
def Effect.isUpstream : Effect → Bool
  | .upstreamSend _ _ => true
  | _ => false

/-- The delay of the last timer armed among the effects, if any. -/
def armedTimer : List Effect → Option Nat
  | [] => none
  | .setTimeout d :: es => (armedTimer es).orElse (fun _ => some d)
  | _ :: es => armedTimer es

/-- What one control frame does to the set of topics the feed has subscribed for
the connection it arrives on. -/
def applyCommand (active : JSSet Topic) : Effect → JSSet Topic
  | .upstreamSend method keys =>
    if method = "subscribeTokenTrade" then keys.foldl JSSet.add active
    else if method = "unsubscribeTokenTrade" then active.filter (fun t => decide (t ∉ keys))
    else active
  | _ => active

/-- The topics with an active upstream subscription: the keys subscribed minus the
keys unsubscribed by the frames written to the current upstream connection. -/
def activeSubscriptions (log : List Effect) : JSSet Topic :=
  log.foldl applyCommand []

/-! ## Reading the registries -/

namespace TradesWebSocketServer

/-- The topics the client `c` is bound to: `this.clients.get(c)`, empty when absent. -/
def topicsOf (s : TradesWebSocketServer) (c : Client) : JSSet Topic :=
  (JSMap.get s.clients c).getD []

/-- The clients bound to the topic `t`: `this.tokenSubscriptions.get(t)`, empty when
absent. -/
def subscribersOf (s : TradesWebSocketServer) (t : Topic) : JSSet Client :=
  (JSMap.get s.tokenSubscriptions t).getD []

/-- What the loop body of `removeClient` leaves of the entry of a topic: the set
without `ws`, or no entry when that set is empty. -/
def prune (ws : Client) : Option (JSSet Client) → Option (JSSet Client)
  | none => none
  | some subscribers =>
    if JSSet.size (JSSet.delete subscribers ws) = 0 then none
    else some (JSSet.delete subscribers ws)

/-- The two registries agree with each other and are well formed as `Map`s of `Set`s:
keys occur once, every client is bound to the one topic it connected with, every
topic entry is a non-empty set, and `c` is bound to `t` exactly when `t` lists `c`. -/
structure Consistent (s : TradesWebSocketServer) : Prop where
  clientKeys : (JSMap.keys s.clients).Nodup
  topicKeys : (JSMap.keys s.tokenSubscriptions).Nodup
  single : ∀ c ts, JSMap.get s.clients c = some ts → ∃ t, ts = [t]
  members : ∀ t cs, JSMap.get s.tokenSubscriptions t = some cs → cs.Nodup ∧ cs ≠ []
  bound : ∀ c t, t ∈ s.topicsOf c ↔ c ∈ s.subscribersOf t

/-- The bookkeeping of a handler that started with the upstream in state `ups` and the
feed holding the subscriptions `active`: the upstream socket is the same, nothing
is written to it unless it is open, and if it is open the subscriptions the feed
holds after the frames written so far are the keys of `tokenSubscriptions`. -/
structure Tracks (active : JSSet Topic) (ups : Option ReadyState)
    (acc : TradesWebSocketServer × List Effect) : Prop where
  same : acc.1.pumpPortalWs = ups
  quiet : ups ≠ some ReadyState.OPEN → ∀ e ∈ acc.2, Effect.isUpstream e = false
  synced : ups = some ReadyState.OPEN →
    ∀ t, t ∈ acc.2.foldl applyCommand active ↔ t ∈ JSMap.keys acc.1.tokenSubscriptions

/-- What every handler keeps true of its accumulated result: consistent registries,
upstream bookkeeping as in `Tracks`, and no client handle at or beyond `next`. -/
structure Sound (active : JSSet Topic) (ups : Option ReadyState) (next : Client)
    (acc : TradesWebSocketServer × List Effect) : Prop where
  consistent : acc.1.Consistent
  tracks : Tracks active ups acc
  fresh : ∀ c ∈ JSMap.keys acc.1.clients, c < next

end TradesWebSocketServer

/-! ## The relay in its environment -/

/-- The relay together with what surrounds it: the number of downstream sockets
created so far, the control frames written to the current upstream socket, and
the delay of the pending reconnect timer. -/
structure World where
  server : TradesWebSocketServer
  nextWs : Client
  upstreamLog : List Effect
  timer : Option Nat
  deriving DecidableEq, Repr

/-- What can happen to the relay. -/
inductive Event
  | connection (token : Option String) (sendThrows : Bool)
  | clientClose (ws : Client)
  | clientError (ws : Client)
  | pong (ws : Client)
  | sweep
  | upstreamOpen
  | upstreamMessage (data : Frame) (env : ClientEnv)
  | upstreamError
  | upstreamClosing
  | upstreamClose
  | reconnectTimer
  deriving DecidableEq, Repr

namespace World

/-- The world right after `new TradesWebSocketServer(4001)`. -/
def init : World :=
  { server := TradesWebSocketServer.init, nextWs := 0, upstreamLog := [], timer := none }

/-- Takes over the result of a handler: its frames for the upstream go to the log. -/
def commit (w : World) (r : TradesWebSocketServer × List Effect) : World × List Effect :=
  ({ w with server := r.1, upstreamLog := w.upstreamLog ++ r.2.filter Effect.isUpstream }, r.2)

/-- The member of `wss.clients` for the socket `ws`, if it is still there. -/
def socket (w : World) (ws : Client) : Option Socket :=
  w.server.wssClients.find? (fun c => decide (c.ws = ws))

/-- One event.  An event the environment cannot produce in the state at hand (a
`pong` of a socket without handlers, an `open` of a socket that is not
connecting, a timer that was not armed) changes nothing. -/
def step (w : World) : Event → World × List Effect
  | .connection token sendThrows =>
    let ws := w.nextWs
    let s0 := { w.server with
      wssClients := w.server.wssClients ++ [{ ws := ws, isAlive := none, handlers := false }] }
    let w0 := { w with server := s0, nextWs := ws + 1 }
    match TradesWebSocketServer.onConnection s0 ws token sendThrows with
    | .ok r => commit w0 r
    | .error _ => (w0, [])
  | .clientClose ws =>
    match w.socket ws with
    | none => (w, [])
    | some c =>
      let s0 := { w.server with
        wssClients := w.server.wssClients.filter (fun d => decide (d.ws ≠ ws)) }
      if c.handlers then commit w (TradesWebSocketServer.removeClient s0 ws)
      else ({ w with server := s0 }, [])
  | .clientError ws =>
    match w.socket ws with
    | none => (w, [])
    | some c =>
      if c.handlers then commit w (TradesWebSocketServer.removeClient w.server ws)
      else (w, [])
  | .pong ws =>
    match w.socket ws with
    | none => (w, [])
    | some c =>
      if c.handlers then
        ({ w with server := { w.server with
          wssClients := TradesWebSocketServer.setIsAlive w.server.wssClients ws true } }, [])
      else (w, [])
  | .sweep => commit w (TradesWebSocketServer.sweep w.server)
  | .upstreamOpen =>
    if w.server.pumpPortalWs = some ReadyState.CONNECTING then
      commit w (TradesWebSocketServer.onPumpPortalOpen
        { w.server with pumpPortalWs := some ReadyState.OPEN })
    else (w, [])
  | .upstreamMessage data env =>
    match TradesWebSocketServer.onPumpPortalMessage w.server env data with
    | .ok r => commit w r
    | .error _ => (w, [])
  | .upstreamError => (w, [])
  | .upstreamClosing =>
    if w.server.pumpPortalWs = some ReadyState.CONNECTING
        ∨ w.server.pumpPortalWs = some ReadyState.OPEN then
      ({ w with server := { w.server with pumpPortalWs := some ReadyState.CLOSING } }, [])
    else (w, [])
  | .upstreamClose =>
    if w.server.pumpPortalWs = none ∨ w.server.pumpPortalWs = some ReadyState.CLOSED then (w, [])
    else
      let r := TradesWebSocketServer.onPumpPortalClose
        { w.server with pumpPortalWs := some ReadyState.CLOSED }
      ({ w with server := r.1, timer := armedTimer r.2 }, r.2)
  | .reconnectTimer =>
    match w.timer with
    | none => (w, [])
    | some _ =>
      ({ w with server := TradesWebSocketServer.connectToPumpPortal w.server,
                upstreamLog := [], timer := none }, [])

/-- The world after a sequence of events. -/
def run (w : World) : List Event → World
  | [] => w
  | e :: es => run (w.step e).1 es

/-- The effects of a sequence of events, in order. -/
def effects (w : World) : List Event → List Effect
  | [] => []
  | e :: es => (w.step e).2 ++ effects (w.step e).1 es

/-- The states the relay can be in: those some sequence of events leads to. -/
def Reachable (w : World) : Prop :=
  ∃ es : List Event, run init es = w

/-- The invariant of the relay: consistent registries, client handles below the next
one to be handed out, the feed subscribed to exactly the keys of
`tokenSubscriptions` while the upstream socket is open, and nothing written yet
to an upstream socket that is still connecting. -/
structure Inv (w : World) : Prop where
  consistent : w.server.Consistent
  fresh : ∀ c ∈ JSMap.keys w.server.clients, c < w.nextWs
  synced : w.server.pumpPortalWs = some ReadyState.OPEN →
    ∀ t, t ∈ activeSubscriptions w.upstreamLog ↔ t ∈ JSMap.keys w.server.tokenSubscriptions
  unused : w.server.pumpPortalWs = some ReadyState.CONNECTING → w.upstreamLog = []

end World

end GrokTrader

namespace GrokTrader

/-! ## What holds of the sockets and of the attempt counter -/

namespace World

/-- The sockets of `wss.clients` and the clients registry: each socket object occurs once,
its handle was handed out before, and every key of `clients` is a socket that is still
in `wss.clients` with its handlers attached. -/
structure Sockets (w : World) : Prop where
  unique : (w.server.wssClients.map Socket.ws).Nodup
  below : ∀ d ∈ w.server.wssClients, d.ws < w.nextWs
  live : ∀ c ∈ JSMap.keys w.server.clients,
    ∃ d ∈ w.server.wssClients, d.ws = c ∧ d.handlers = true

/-- The attempt counter stays within its bound, which is the constant of line 14, and
no reconnect timer is pending unless the upstream socket is closed. -/
structure Bounded (w : World) : Prop where
  bound : w.server.maxReconnectAttempts = 10
  counter : w.server.reconnectAttempts ≤ 10
  idle : w.server.pumpPortalWs ≠ some ReadyState.CLOSED → w.timer = none

end World

/-- A run of `n` upstream closes in a row with no `open` in between: after each close the
reconnect timer, if one was armed, fires and the new socket closes in its turn. -/
def reconnectCycles : Nat → List Event
  | 0 => []
  | n + 1 => Event.upstreamClose :: Event.reconnectTimer :: reconnectCycles n

/-- The first `n` of a family of distinct token addresses: "a", "aa", "aaa", ... -/
def manyTokens (n : Nat) : List Topic :=
  (List.range n).map (fun i => String.mk (List.replicate (i + 1) 'a'))

/-- One client connecting for each of the first `n` token addresses of `manyTokens`. -/
def manyConnections (n : Nat) : List Event :=
  (manyTokens n).map (fun t => Event.connection (some t) false)

/-! ## The wallet tracker relay: replay of the wallet subscriptions -/

/-- An entry of `kols.json` as far as the relay reads it. -/
structure Kol where
  name : String
  x_link : String
  wallet : String
  deriving DecidableEq, Repr

/-- The fields of a `WalletTrackerWebSocketServer` instance the upstream handlers use
(`src/api/WebSockets/walletTracker/server.js`, lines 7-16). -/
structure WalletTrackerWebSocketServer where
  clients : JSSet Client
  kols : List Kol
  pumpPortalWs : Option ReadyState
  reconnectAttempts : Nat
  maxReconnectAttempts : Nat
  deriving DecidableEq, Repr

namespace WalletTrackerWebSocketServer

/-- The constant `batchSize` of line 115. -/
def batchSize : Nat := 100

/-- The loop of lines 118-127, from the index `i` on: one `subscribeAccountTrade` frame
for `walletAddresses.slice(i, i + batchSize)`, then on with `i + batchSize`. -/
def subscribeLoop (walletAddresses : List String) (i : Nat) : List Effect :=
  if i < walletAddresses.length then
    Effect.upstreamSend "subscribeAccountTrade" ((walletAddresses.drop i).take batchSize)
      :: subscribeLoop walletAddresses (i + batchSize)
  else []
termination_by walletAddresses.length - i
decreasing_by
  simp only [batchSize]
  omega

/-- The upstream `open` handler of the wallet tracker (lines 109-130). -/
def onPumpPortalOpen (s : WalletTrackerWebSocketServer) :
    WalletTrackerWebSocketServer × List Effect :=
  ({ s with reconnectAttempts := 0 }, subscribeLoop (s.kols.map Kol.wallet) 0)

/-- The keys a control frame carries. -/
def keysOf : Effect → List Topic
  | .upstreamSend _ keys => keys
  | _ => []

end WalletTrackerWebSocketServer

/-! ## The trade endpoints: validation of the amount -/

/-- A JavaScript number as far as comparisons see it: `NaN`, the two infinities, or a
finite value (every finite double is a rational, and `-0` compares as `0`). -/
inductive JSNumber
  | nan
  | negInfinity
  | finite (q : ℚ)
  | posInfinity
  deriving DecidableEq

namespace JSNumber

/-- The comparison `x <= k`, false whenever `x` is `NaN`. -/
def le (x : JSNumber) (k : ℚ) : Bool :=
  match x with
  | nan => false
  | negInfinity => true
  | finite q => decide (q ≤ k)
  | posInfinity => false

/-- The comparison `x > k`, false whenever `x` is `NaN`. -/
def gt (x : JSNumber) (k : ℚ) : Bool :=
  match x with
  | nan => false
  | negInfinity => false
  | finite q => decide (k < q)
  | posInfinity => true

/-- The function `isNaN` on a number. -/
def isNaN (x : JSNumber) : Bool :=
  match x with
  | nan => true
  | _ => false

end JSNumber

/-- The argument of `validateAmount`, by its `typeof`: a number, a string, or anything
else. -/
inductive Amount
  | number (amount : JSNumber)
  | string (amount : String)
  | other
  deriving DecidableEq

/-- The object `validateAmount` returns: `isValid`, and `error` when there is one. -/
structure Validation where
  isValid : Bool
  error : Option String
  deriving DecidableEq, Repr

/-- The characters `String.prototype.trim` removes: WhiteSpace and LineTerminator of the
language specification. -/
def isJSWhiteSpace (c : Char) : Bool :=
  c.toNat = 0x09 || c.toNat = 0x0A || c.toNat = 0x0B || c.toNat = 0x0C || c.toNat = 0x0D
    || c.toNat = 0x20 || c.toNat = 0xA0 || c.toNat = 0x1680
    || (0x2000 ≤ c.toNat && c.toNat ≤ 0x200A)
    || c.toNat = 0x2028 || c.toNat = 0x2029 || c.toNat = 0x202F || c.toNat = 0x205F
    || c.toNat = 0x3000 || c.toNat = 0xFEFF

/-- The method `String.prototype.trim`. -/
def jsTrim (s : String) : String :=
  String.mk ((s.toList.dropWhile isJSWhiteSpace).reverse.dropWhile isJSWhiteSpace).reverse

/-- The test `trimmed.endsWith('%')`. -/
def endsWithPercent (s : String) : Bool :=
  s.toList.getLast? = some '%'

/-- The call `trimmed.slice(0, -1)`. -/
def sliceOffLast (s : String) : String :=
  String.mk s.toList.dropLast

/-- The function `validateAmount` (`src/api/trading/server.js` lines 23-58 and, with the
same body, `src/api/server.js` lines 31-55).  The built-in `parseFloat` is a
parameter. -/
def validateAmount (parseFloat : String → JSNumber) : Amount → Validation
  | .number amount =>
    if amount.le 0 then { isValid := false, error := some "Amount must be greater than 0" }
    else { isValid := true, error := none }
  | .string amount =>
    let trimmed := jsTrim amount
    if endsWithPercent trimmed then
      let percentValue := parseFloat (sliceOffLast trimmed)
      if percentValue.isNaN then { isValid := false, error := some "Invalid percentage format" }
      else if percentValue.le 0 || percentValue.gt 100 then
        { isValid := false, error := some "Percentage must be between 0 and 100" }
      else { isValid := true, error := none }
    else
      { isValid := false,
        error := some "Amount must be a number or percentage (e.g., 1000 or \"50%\")" }
  | .other => { isValid := false, error := some "Invalid amount type" }

/-! ## The built-in `parseFloat` -/

namespace JSNumber

/-- The comparison `x < k`, false whenever `x` is `NaN`. -/
def lt (x : JSNumber) (k : ℚ) : Bool :=
  match x with
  | nan => false
  | negInfinity => true
  | finite q => decide (q < k)
  | posInfinity => false

/-- The conversion of a number to a boolean: `NaN` and zero are falsy. -/
def truthy (x : JSNumber) : Bool :=
  match x with
  | nan => false
  | finite q => decide (q ≠ 0)
  | _ => true

/-- Unary minus. -/
def neg (x : JSNumber) : JSNumber :=
  match x with
  | nan => nan
  | negInfinity => posInfinity
  | finite q => finite (-q)
  | posInfinity => negInfinity

end JSNumber

/-- A decimal digit, `0` to `9`. -/
def isDecimalDigit (c : Char) : Bool :=
  decide (48 ≤ c.toNat) && decide (c.toNat ≤ 57)

/-- The value of a run of decimal digits, read from the left. -/
def digitsValue (ds : List Char) : Nat :=
  ds.foldl (fun n c => 10 * n + (c.toNat - 48)) 0

/-- An optional sign: whether it is a minus, and the characters after it. -/
def readSign : List Char → Bool × List Char
  | [] => (false, [])
  | c :: r => if c = '-' then (true, r) else if c = '+' then (false, r) else (false, c :: r)

/-- An optional exponent part, `e` or `E`, an optional sign and at least one digit: its
value and the characters after it.  Without a digit nothing is read. -/
def readExponent : List Char → Int × List Char
  | [] => (0, [])
  | c :: r =>
    if c = 'e' ∨ c = 'E' then
      if (readSign r).2.takeWhile isDecimalDigit = [] then (0, c :: r)
      else
        (if (readSign r).1 then - (digitsValue ((readSign r).2.takeWhile isDecimalDigit) : Int)
          else (digitsValue ((readSign r).2.takeWhile isDecimalDigit) : Int),
         (readSign r).2.dropWhile isDecimalDigit)
    else (0, c :: r)

/-- The number `n * 10 ^ e`. -/
def scaleByTen (n : Nat) (e : Int) : ℚ :=
  if 0 ≤ e then ((n * 10 ^ e.toNat : Nat) : ℚ) else mkRat n (10 ^ (-e).toNat)

/-- The fraction digits after the integer digits, if a point follows them. -/
def fractionDigits : List Char → List Char
  | [] => []
  | c :: r => if c = '.' then r.takeWhile isDecimalDigit else []

/-- The characters after the integer digits and the fraction. -/
def afterFraction : List Char → List Char
  | [] => []
  | c :: r => if c = '.' then r.dropWhile isDecimalDigit else c :: r

/-- The longest unsigned decimal literal the characters start with (`Infinity`, or digits
with an optional fraction and an optional exponent, at least one digit before the
exponent), with the characters after it; `none` if they start with no literal. -/
def readUnsigned (cs : List Char) : Option (JSNumber × List Char) :=
  if cs.take 8 = "Infinity".toList then some (JSNumber.posInfinity, cs.drop 8)
  else
    let integer := cs.takeWhile isDecimalDigit
    let fraction := fractionDigits (cs.dropWhile isDecimalDigit)
    if integer = [] ∧ fraction = [] then none
    else
      let exponent := readExponent (afterFraction (cs.dropWhile isDecimalDigit))
      some (JSNumber.finite
        (scaleByTen (digitsValue (integer ++ fraction)) (exponent.1 - fraction.length)),
        exponent.2)

/-- The longest signed decimal literal the characters start with: its value, `NaN` if
there is none, and the characters after it. -/
def readFloat (cs : List Char) : JSNumber × List Char :=
  match readUnsigned (readSign cs).2 with
  | none => (JSNumber.nan, cs)
  | some r => (if (readSign cs).1 then r.1.neg else r.1, r.2)

/-- The built-in `parseFloat` on a string: leading white space is skipped, the longest
decimal literal at the start is read and whatever follows it is ignored; the
result is `NaN` if there is no such literal.  The value is the exact decimal value;
the built-in rounds it to the nearest double, so the two differ on a text whose value
is not a double, such as `1e-400` (zero for the built-in) or `100.00000000000000001`
(100 for the built-in). -/
def parseFloat (s : String) : JSNumber :=
  (readFloat (s.toList.dropWhile isJSWhiteSpace)).1

/-- Whether a text, white space at its ends apart, is a decimal literal as a whole: the
reading of "the text is a number" under which nothing may follow the literal. -/
def isNumeral (s : String) : Bool :=
  !(readFloat (jsTrim s).toList).1.isNaN && decide ((readFloat (jsTrim s).toList).2 = [])

/-! ## The wallet tracker relay: the buy/sell heuristic -/

/-- A value of a field of an upstream message of the wallet tracker, which comes out of
`JSON.parse`: an array or object is kept as the text its conversion to a string
gives, which is all `parseFloat` sees of it, and as `none` when that conversion throws
a `TypeError`, as it does for an object with an own property `toString` that is not a
function, such as `{"toString": null}`. -/
inductive JSField
  | undefined
  | null
  | bool (b : Bool)
  | number (x : JSNumber)
  | string (s : String)
  | object (text : Option String)
  deriving DecidableEq

namespace JSField

/-- JavaScript truthiness of a field, as `if (message.solAmount)` tests it. -/
def truthy : JSField → Bool
  | .undefined => false
  | .null => false
  | .bool b => b
  | .number x => x.truthy
  | .string s => decide (s ≠ "")
  | .object _ => true

/-- The call `parseFloat(value)`: the argument is converted to a string first, which
throws for an object without a text, and a number's text reads back as that number. -/
def parseFloatOf (parseFloat : String → JSNumber) : JSField → Except String JSNumber
  | .undefined => .ok (parseFloat "undefined")
  | .null => .ok (parseFloat "null")
  | .bool b => .ok (parseFloat (if b then "true" else "false"))
  | .number x => .ok x
  | .string s => .ok (parseFloat s)
  | .object (some text) => .ok (parseFloat text)
  | .object none => .error "TypeError"

end JSField

/-- The fields of an upstream message `determineBuyAction` reads; a field the message does
not have is `undefined`. -/
structure WalletMessage where
  txType : JSField
  type : JSField
  action : JSField
  isBuy : JSField
  is_buy : JSField
  solAmount : JSField
  deriving DecidableEq

namespace WalletTrackerWebSocketServer

/-- Method `determineBuyAction` (`src/api/WebSockets/walletTracker/server.js`, lines
179-203).  The built-in `parseFloat` is a parameter; the method throws when the
conversion of `message.solAmount` to a string does. -/
def determineBuyAction (parseFloat : String → JSNumber) (message : WalletMessage) :
    Except String Bool :=
  if message.txType = .string "sell" ∨ message.type = .string "sell"
      ∨ message.action = .string "sell" then .ok false
  else if message.isBuy = .bool false ∨ message.is_buy = .bool false then .ok false
  else if message.txType = .string "buy" ∨ message.type = .string "buy"
      ∨ message.action = .string "buy" then .ok true
  else if message.isBuy = .bool true ∨ message.is_buy = .bool true then .ok true
  else if message.solAmount.truthy then
    match message.solAmount.parseFloatOf parseFloat with
    | .error e => .error e
    | .ok solAmount =>
      if solAmount.lt 0 then .ok true
      else if solAmount.gt 0 then .ok false
      else .ok false
  else .ok false

end WalletTrackerWebSocketServer

/-! ## The relays without topics: `broadcast` -/

/-- One turn of `this.clients.forEach` in `broadcast`: the texts sent so far and
`deadClients`, after the turn for `client`. -/
def broadcastOne (env : ClientEnv) (messageStr : String)
    (acc : List (Client × String) × List Client) (client : Client) :
    List (Client × String) × List Client :=
  if client ∉ env.notOpen then
    if client ∈ env.sendThrows then (acc.1, acc.2 ++ [client])
    else (acc.1 ++ [(client, messageStr)], acc.2)
  else (acc.1, acc.2 ++ [client])

/-- Method `broadcast` of the relays that keep one set of clients, the same text in
`newTokens/server.js` (lines 127-149), `migratingTokens/server.js` (129-151),
`walletTracker/server.js` (205-222) and `chart/server.js` (142-164): the new value of
`this.clients` and the texts handed to `client.send` that were sent, in order.
`messageStr` is `JSON.stringify(message)`. -/
def broadcast (clients : JSSet Client) (env : ClientEnv) (messageStr : String) :
    JSSet Client × List (Client × String) :=
  let r := clients.foldl (broadcastOne env messageStr) ([], [])
  (r.2.foldl JSSet.delete clients, r.1)

/-! ## What a liveness sweep leaves of a client -/

namespace World

/-- The sweep that starts in `w` neither terminates nor unbinds the client `c`: `c` is a
key of `clients` after it exactly if it was one before, it is bound to the same topics
and listed by the same topic sets, no `terminate` is issued for it, and it is pinged
if it is a client. -/
def Spared (w : World) (c : Client) : Prop :=
  (c ∈ JSMap.keys (w.step Event.sweep).1.server.clients ↔ c ∈ JSMap.keys w.server.clients)
    ∧ (w.step Event.sweep).1.server.topicsOf c = w.server.topicsOf c
    ∧ (∀ t, c ∈ (w.step Event.sweep).1.server.subscribersOf t ↔ c ∈ w.server.subscribersOf t)
    ∧ Effect.terminate c ∉ (w.step Event.sweep).2
    ∧ (c ∈ JSMap.keys w.server.clients → Effect.ping c ∈ (w.step Event.sweep).2)

end World

end GrokTrader

/-! # Properties

## Lemmas on the collections, the registries and the upstream bookkeeping -/

namespace GrokTrader

namespace JSSet
variable {α : Type} [DecidableEq α]

theorem mem_add (s : JSSet α) (x y : α) : y ∈ add s x ↔ y = x ∨ y ∈ s := by
  unfold add
  split
  · constructor
    · intro h; exact Or.inr h
    · rintro (h | h)
      · subst h; assumption
      · exact h
  · simp [or_comm]

theorem mem_delete (s : JSSet α) (x y : α) : y ∈ delete s x ↔ y ∈ s ∧ y ≠ x := by
  simp [delete]

theorem nodup_add (s : JSSet α) (x : α) (h : s.Nodup) : (add s x).Nodup := by
  unfold add
  split
  · exact h
  · rename_i hx
    exact List.Nodup.append h (List.nodup_singleton x) (by simpa using hx)

theorem nodup_delete (s : JSSet α) (x : α) (h : s.Nodup) : (delete s x).Nodup :=
  List.Nodup.filter _ h

theorem delete_delete (s : JSSet α) (x : α) : delete (delete s x) x = delete s x := by
  simp [delete, List.filter_filter]

end JSSet

namespace JSMap
variable {κ ν : Type} [DecidableEq κ]

theorem get_set (m : JSMap κ ν) (k x : κ) (v : ν) :
    get (set m k v) x = if k = x then some v else get m x := by
  induction m with
  | nil => simp [set, get]
  | cons e m ih =>
    obtain ⟨a, b⟩ := e
    by_cases hak : a = k
    · subst hak
      by_cases hax : a = x <;> simp [set, get, hax]
    · by_cases hax : a = x
      · subst hax
        have : ¬ k = a := fun h => hak h.symm
        simp [set, get, hak, this]
      · simp [set, get, hak, hax, ih]

theorem get_delete (m : JSMap κ ν) (k x : κ) :
    get (delete m k) x = if k = x then none else get m x := by
  induction m with
  | nil => simp [delete, get]
  | cons e m ih =>
    obtain ⟨a, b⟩ := e
    by_cases hak : a = k
    · subst hak
      have h1 : delete ((a, b) :: m) a = delete m a := by simp [delete]
      rw [h1, ih]
      by_cases hax : a = x <;> simp [get, hax]
    · have h1 : delete ((a, b) :: m) k = (a, b) :: delete m k := by simp [delete, hak]
      rw [h1]
      by_cases hax : a = x
      · subst hax
        have : ¬ k = a := fun h => hak h.symm
        simp [get, this]
      · simp [get, hax, ih]

theorem mem_keys_iff (m : JSMap κ ν) (x : κ) : x ∈ keys m ↔ ∃ v, get m x = some v := by
  induction m with
  | nil => simp [keys, get]
  | cons e m ih =>
    obtain ⟨a, b⟩ := e
    by_cases hax : a = x
    · subst hax; simp [keys, get]
    · have : ¬ x = a := fun h => hax h.symm
      have ih2 : x ∈ List.map Prod.fst m ↔ ∃ v, get m x = some v := ih
      simp [keys, get, hax, this, ih2]

theorem not_mem_keys_iff (m : JSMap κ ν) (x : κ) : x ∉ keys m ↔ get m x = none := by
  rw [mem_keys_iff]
  cases get m x <;> simp

theorem has_iff (m : JSMap κ ν) (x : κ) : has m x = true ↔ x ∈ keys m := by
  rw [mem_keys_iff, has, Option.isSome_iff_exists]

theorem keys_set_of_mem (m : JSMap κ ν) (k : κ) (v : ν) (h : k ∈ keys m) :
    keys (set m k v) = keys m := by
  induction m with
  | nil => simp [keys] at h
  | cons e m ih =>
    obtain ⟨a, b⟩ := e
    by_cases hak : a = k
    · simp [set, keys, hak]
    · have hk : k ∈ keys m := by
        have : ¬ k = a := fun h => hak h.symm
        simpa [keys, this] using h
      have := ih hk
      simp only [keys] at this ⊢
      simp [set, hak, this]

theorem keys_set_of_not_mem (m : JSMap κ ν) (k : κ) (v : ν) (h : k ∉ keys m) :
    keys (set m k v) = keys m ++ [k] := by
  induction m with
  | nil => simp [keys, set]
  | cons e m ih =>
    obtain ⟨a, b⟩ := e
    have hak : ¬ a = k := by
      intro hh; apply h; simp [keys, hh]
    have hk : k ∉ keys m := by
      intro hh; apply h; simp only [keys] at hh ⊢; simp [hh]
    have := ih hk
    simp only [keys] at this ⊢
    simp [set, hak, this]

theorem keys_delete (m : JSMap κ ν) (k : κ) :
    keys (delete m k) = (keys m).filter (fun x => decide (x ≠ k)) := by
  unfold keys delete
  rw [List.filter_map]
  rfl

theorem nodup_keys_set (m : JSMap κ ν) (k : κ) (v : ν) (h : (keys m).Nodup) :
    (keys (set m k v)).Nodup := by
  by_cases hk : k ∈ keys m
  · rw [keys_set_of_mem m k v hk]; exact h
  · rw [keys_set_of_not_mem m k v hk]
    exact List.Nodup.append h (List.nodup_singleton k) (by simpa using hk)

theorem nodup_keys_delete (m : JSMap κ ν) (k : κ) (h : (keys m).Nodup) :
    (keys (delete m k)).Nodup := by
  rw [keys_delete]; exact List.Nodup.filter _ h

theorem get_eq_some_of_mem (m : JSMap κ ν) (h : (keys m).Nodup) (k : κ) (v : ν)
    (hm : (k, v) ∈ m) : get m k = some v := by
  induction m with
  | nil => simp at hm
  | cons e m ih =>
    obtain ⟨a, b⟩ := e
    have hnd : a ∉ keys m ∧ (keys m).Nodup := by simpa [keys] using h
    rcases List.mem_cons.mp hm with heq | hin
    · cases heq; simp [get]
    · have hak : ¬ a = k := by
        intro hh; subst hh
        exact hnd.1 (by simp only [keys]; exact List.mem_map_of_mem Prod.fst hin)
      simp [get, hak, ih hnd.2 hin]

theorem mem_of_get_eq_some (m : JSMap κ ν) (k : κ) (v : ν) (h : get m k = some v) :
    (k, v) ∈ m := by
  induction m with
  | nil => simp [get] at h
  | cons e m ih =>
    obtain ⟨a, b⟩ := e
    by_cases hak : a = k
    · subst hak; simp [get] at h; simp [h]
    · simp [get, hak] at h; simp [ih h]

end JSMap
namespace TradesWebSocketServer

theorem prune_prune (ws : Client) (o : Option (JSSet Client)) :
    prune ws (prune ws o) = prune ws o := by
  cases o with
  | none => rfl
  | some subs =>
    by_cases hz : JSSet.size (JSSet.delete subs ws) = 0
    · simp [prune, hz]
    · simp [prune, hz, JSSet.delete_delete]

theorem removeInterest_clients (ws : Client) (acc : TradesWebSocketServer × List Effect)
    (token : Topic) :
    (removeInterest ws acc token).1.clients = acc.1.clients
      ∧ (removeInterest ws acc token).1.wssClients = acc.1.wssClients
      ∧ (removeInterest ws acc token).1.pumpPortalWs = acc.1.pumpPortalWs
      ∧ (removeInterest ws acc token).1.reconnectAttempts = acc.1.reconnectAttempts
      ∧ (removeInterest ws acc token).1.maxReconnectAttempts = acc.1.maxReconnectAttempts := by
  unfold removeInterest
  cases JSMap.get acc.1.tokenSubscriptions token with
  | none => simp
  | some subs =>
    simp only
    split <;> simp

theorem removeInterest_get (ws : Client) (acc : TradesWebSocketServer × List Effect)
    (token t : Topic) :
    JSMap.get (removeInterest ws acc token).1.tokenSubscriptions t
      = if token = t then prune ws (JSMap.get acc.1.tokenSubscriptions t)
        else JSMap.get acc.1.tokenSubscriptions t := by
  unfold removeInterest
  cases h : JSMap.get acc.1.tokenSubscriptions token with
  | none =>
    by_cases htt : token = t
    · subst htt; simp [h, prune]
    · simp [htt]
  | some subs =>
    simp only
    by_cases htt : token = t
    · subst htt
      by_cases hz : JSSet.size (JSSet.delete subs ws) = 0
      · simp [hz, h, prune, JSMap.get_delete]
      · simp [hz, h, prune, JSMap.get_set]
    · by_cases hz : JSSet.size (JSSet.delete subs ws) = 0
      · simp [hz, htt, JSMap.get_delete, JSMap.get_set]
      · simp [hz, htt, JSMap.get_set]

theorem removeInterest_nodup (ws : Client) (acc : TradesWebSocketServer × List Effect)
    (token : Topic) (h : (JSMap.keys acc.1.tokenSubscriptions).Nodup) :
    (JSMap.keys (removeInterest ws acc token).1.tokenSubscriptions).Nodup := by
  unfold removeInterest
  cases JSMap.get acc.1.tokenSubscriptions token with
  | none => exact h
  | some subs =>
    simp only
    split
    · exact JSMap.nodup_keys_delete _ _ (JSMap.nodup_keys_set _ _ _ h)
    · exact JSMap.nodup_keys_set _ _ _ h

theorem foldl_removeInterest_clients (ws : Client) (tokens : List Topic)
    (acc : TradesWebSocketServer × List Effect) :
    (tokens.foldl (removeInterest ws) acc).1.clients = acc.1.clients
      ∧ (tokens.foldl (removeInterest ws) acc).1.wssClients = acc.1.wssClients
      ∧ (tokens.foldl (removeInterest ws) acc).1.pumpPortalWs = acc.1.pumpPortalWs
      ∧ (tokens.foldl (removeInterest ws) acc).1.reconnectAttempts = acc.1.reconnectAttempts
      ∧ (tokens.foldl (removeInterest ws) acc).1.maxReconnectAttempts
          = acc.1.maxReconnectAttempts := by
  induction tokens generalizing acc with
  | nil => simp
  | cons token tokens ih =>
    simp only [List.foldl_cons]
    have h1 := ih (removeInterest ws acc token)
    have h2 := removeInterest_clients ws acc token
    refine ⟨h1.1.trans h2.1, h1.2.1.trans h2.2.1, h1.2.2.1.trans h2.2.2.1,
      h1.2.2.2.1.trans h2.2.2.2.1, h1.2.2.2.2.trans h2.2.2.2.2⟩

theorem foldl_removeInterest_get (ws : Client) (tokens : List Topic)
    (acc : TradesWebSocketServer × List Effect) (t : Topic) :
    JSMap.get (tokens.foldl (removeInterest ws) acc).1.tokenSubscriptions t
      = if t ∈ tokens then prune ws (JSMap.get acc.1.tokenSubscriptions t)
        else JSMap.get acc.1.tokenSubscriptions t := by
  induction tokens generalizing acc with
  | nil => simp
  | cons token tokens ih =>
    simp only [List.foldl_cons]
    rw [ih, removeInterest_get]
    by_cases htt : token = t
    · subst htt
      by_cases hin : token ∈ tokens
      · simp [hin, prune_prune]
      · simp [hin]
    · have htt2 : ¬ t = token := fun h => htt h.symm
      simp [htt, htt2]

theorem foldl_removeInterest_nodup (ws : Client) (tokens : List Topic)
    (acc : TradesWebSocketServer × List Effect)
    (h : (JSMap.keys acc.1.tokenSubscriptions).Nodup) :
    (JSMap.keys (tokens.foldl (removeInterest ws) acc).1.tokenSubscriptions).Nodup := by
  induction tokens generalizing acc with
  | nil => exact h
  | cons token tokens ih =>
    simp only [List.foldl_cons]
    exact ih _ (removeInterest_nodup ws acc token h)

/-- The registries after `removeClient`. -/
theorem removeClient_get_clients (s : TradesWebSocketServer) (ws c : Client) :
    JSMap.get (removeClient s ws).1.clients c
      = if ws = c then none else JSMap.get s.clients c := by
  unfold removeClient
  simp only
  rw [JSMap.get_delete]
  cases JSMap.get s.clients ws with
  | none => rfl
  | some tokens => simp only [(foldl_removeInterest_clients ws tokens (s, [])).1]

theorem removeClient_get_subs (s : TradesWebSocketServer) (ws : Client) (t : Topic) :
    JSMap.get (removeClient s ws).1.tokenSubscriptions t
      = if t ∈ s.topicsOf ws then prune ws (JSMap.get s.tokenSubscriptions t)
        else JSMap.get s.tokenSubscriptions t := by
  unfold removeClient topicsOf
  simp only
  cases JSMap.get s.clients ws with
  | none => simp
  | some tokens => simp [foldl_removeInterest_get]

theorem removeClient_fields (s : TradesWebSocketServer) (ws : Client) :
    (removeClient s ws).1.wssClients = s.wssClients
      ∧ (removeClient s ws).1.pumpPortalWs = s.pumpPortalWs
      ∧ (removeClient s ws).1.reconnectAttempts = s.reconnectAttempts
      ∧ (removeClient s ws).1.maxReconnectAttempts = s.maxReconnectAttempts := by
  unfold removeClient
  simp only
  cases JSMap.get s.clients ws with
  | none => simp
  | some tokens =>
    have h := foldl_removeInterest_clients ws tokens (s, [])
    exact ⟨h.2.1, h.2.2.1, h.2.2.2.1, h.2.2.2.2⟩

theorem removeClient_keys (s : TradesWebSocketServer) (ws : Client) :
    JSMap.keys (removeClient s ws).1.clients
      = (JSMap.keys s.clients).filter (fun c => decide (c ≠ ws)) := by
  unfold removeClient
  simp only
  rw [JSMap.keys_delete]
  cases JSMap.get s.clients ws with
  | none => rfl
  | some tokens => simp only [(foldl_removeInterest_clients ws tokens (s, [])).1]

theorem removeClient_nodup (s : TradesWebSocketServer) (ws : Client)
    (h : (JSMap.keys s.tokenSubscriptions).Nodup) :
    (JSMap.keys (removeClient s ws).1.tokenSubscriptions).Nodup := by
  unfold removeClient
  simp only
  cases JSMap.get s.clients ws with
  | none => exact h
  | some tokens => exact foldl_removeInterest_nodup ws tokens (s, []) h

theorem mem_prune (ws c : Client) (o : Option (JSSet Client)) :
    c ∈ (prune ws o).getD [] ↔ c ∈ o.getD [] ∧ c ≠ ws := by
  cases o with
  | none => simp [prune]
  | some subs =>
    simp only [prune]
    split
    · rename_i hz
      have hnil : JSSet.delete subs ws = [] := List.length_eq_zero.mp hz
      have := JSSet.mem_delete subs ws c
      rw [hnil] at this
      simpa using this
    · simpa using JSSet.mem_delete subs ws c

theorem removeClient_consistent (s : TradesWebSocketServer) (ws : Client)
    (h : s.Consistent) : (removeClient s ws).1.Consistent := by
  constructor
  · rw [removeClient_keys]; exact List.Nodup.filter _ h.clientKeys
  · exact removeClient_nodup s ws h.topicKeys
  · intro c ts hget
    rw [removeClient_get_clients] at hget
    by_cases hc : ws = c
    · simp [hc] at hget
    · simp only [hc, if_false] at hget
      exact h.single c ts hget
  · intro t cs hget
    rw [removeClient_get_subs] at hget
    by_cases ht : t ∈ s.topicsOf ws
    · simp only [ht, if_true] at hget
      cases hs : JSMap.get s.tokenSubscriptions t with
      | none => simp [hs, prune] at hget
      | some subs =>
        rw [hs] at hget
        simp only [prune] at hget
        split at hget
        · simp at hget
        · rename_i hz
          injection hget with hget
          subst hget
          refine ⟨JSSet.nodup_delete _ _ (h.members t subs hs).1, ?_⟩
          intro hnil
          exact hz (by simp [JSSet.size, hnil])
    · simp only [ht, if_false] at hget
      exact h.members t cs hget
  · intro c t
    unfold topicsOf subscribersOf
    rw [removeClient_get_clients, removeClient_get_subs]
    have hb := h.bound c t
    have hbw := h.bound ws t
    unfold topicsOf subscribersOf at hb hbw
    by_cases hc : ws = c
    · subst hc
      by_cases ht : t ∈ s.topicsOf ws
      · simp [ht, mem_prune]
      · have ht2 := ht
        unfold topicsOf at ht2
        simp only [ht, if_false, if_true]
        simp only [Option.getD_none, List.not_mem_nil, false_iff]
        exact fun hh => ht2 (hbw.mpr hh)
    · have hc2 : ¬ c = ws := fun hh => hc hh.symm
      by_cases ht : t ∈ s.topicsOf ws
      · simp only [hc, ht, if_false, if_true, mem_prune]
        rw [hb]
        simp [hc2]
      · simp only [hc, ht, if_false]
        exact hb

/-! ### The registries after an accepted connection -/

theorem bindClient_get_subs (s : TradesWebSocketServer) (ws : Client) (t x : Topic) :
    JSMap.get (bindClient s ws t).tokenSubscriptions x
      = if t = x then some (s.subscribersOf t) else JSMap.get s.tokenSubscriptions x := by
  unfold bindClient subscribersOf
  simp only [JSMap.has]
  cases h : JSMap.get s.tokenSubscriptions t with
  | none =>
    simp only [Option.isSome_none, Bool.false_eq_true, if_false, JSMap.get_set, Option.getD_none]
  | some subs =>
    by_cases htx : t = x
    · subst htx; simp [h]
    · simp [htx]

theorem bindClient_fields (s : TradesWebSocketServer) (ws : Client) (t : Topic) :
    (bindClient s ws t).clients = JSMap.set s.clients ws [t]
      ∧ (bindClient s ws t).pumpPortalWs = s.pumpPortalWs
      ∧ (bindClient s ws t).reconnectAttempts = s.reconnectAttempts
      ∧ (bindClient s ws t).maxReconnectAttempts = s.maxReconnectAttempts := by
  unfold bindClient
  simp only
  split <;> simp

theorem bindClient_keys (s : TradesWebSocketServer) (ws : Client) (t : Topic) :
    JSMap.keys (bindClient s ws t).tokenSubscriptions
      = if t ∈ JSMap.keys s.tokenSubscriptions then JSMap.keys s.tokenSubscriptions
        else JSMap.keys s.tokenSubscriptions ++ [t] := by
  unfold bindClient
  simp only
  by_cases h : t ∈ JSMap.keys s.tokenSubscriptions
  · have hh : JSMap.has s.tokenSubscriptions t = true := (JSMap.has_iff _ _).mpr h
    simp [hh, h]
  · have hh : ¬ JSMap.has s.tokenSubscriptions t = true := fun hh => h ((JSMap.has_iff _ _).mp hh)
    simp [hh, h, JSMap.keys_set_of_not_mem]

theorem mem_keys_bindClient (s : TradesWebSocketServer) (ws : Client) (t : Topic) :
    t ∈ JSMap.keys (bindClient s ws t).tokenSubscriptions := by
  rw [bindClient_keys]
  split
  · assumption
  · simp

theorem acceptConnection_get_subs (s : TradesWebSocketServer) (ws : Client) (t x : Topic)
    (thr : Bool) :
    JSMap.get (acceptConnection s ws t thr).1.tokenSubscriptions x
      = if t = x then some (JSSet.add (s.subscribersOf t) ws)
        else JSMap.get s.tokenSubscriptions x := by
  unfold acceptConnection
  simp only [JSMap.get_set, bindClient_get_subs]
  by_cases htx : t = x <;> simp [htx]

theorem acceptConnection_fields (s : TradesWebSocketServer) (ws : Client) (t : Topic)
    (thr : Bool) :
    (acceptConnection s ws t thr).1.clients = JSMap.set s.clients ws [t]
      ∧ (acceptConnection s ws t thr).1.pumpPortalWs = s.pumpPortalWs
      ∧ (acceptConnection s ws t thr).1.reconnectAttempts = s.reconnectAttempts
      ∧ (acceptConnection s ws t thr).1.maxReconnectAttempts = s.maxReconnectAttempts := by
  unfold acceptConnection
  exact bindClient_fields s ws t

theorem acceptConnection_keys (s : TradesWebSocketServer) (ws : Client) (t : Topic)
    (thr : Bool) :
    JSMap.keys (acceptConnection s ws t thr).1.tokenSubscriptions
      = if t ∈ JSMap.keys s.tokenSubscriptions then JSMap.keys s.tokenSubscriptions
        else JSMap.keys s.tokenSubscriptions ++ [t] := by
  unfold acceptConnection
  simp only
  rw [JSMap.keys_set_of_mem _ _ _ (mem_keys_bindClient s ws t), bindClient_keys]

theorem acceptConnection_consistent (s : TradesWebSocketServer) (ws : Client) (t : Topic)
    (thr : Bool) (h : s.Consistent) (hfresh : JSMap.get s.clients ws = none) :
    (acceptConnection s ws t thr).1.Consistent := by
  have hf := acceptConnection_fields s ws t thr
  constructor
  · rw [hf.1]; exact JSMap.nodup_keys_set _ _ _ h.clientKeys
  · rw [acceptConnection_keys]
    split
    · exact h.topicKeys
    · rename_i hk
      exact List.Nodup.append h.topicKeys (List.nodup_singleton t) (by simpa using hk)
  · intro c ts hget
    rw [hf.1, JSMap.get_set] at hget
    by_cases hc : ws = c
    · simp only [hc, if_true] at hget
      exact ⟨t, by injection hget with hget; exact hget.symm⟩
    · simp only [hc, if_false] at hget
      exact h.single c ts hget
  · intro x cs hget
    rw [acceptConnection_get_subs] at hget
    by_cases htx : t = x
    · simp only [htx, if_true] at hget
      injection hget with hget
      subst hget
      constructor
      · apply JSSet.nodup_add
        unfold subscribersOf
        cases hs : JSMap.get s.tokenSubscriptions x with
        | none => simp
        | some subs => exact (h.members x subs hs).1
      · intro hnil
        have : ws ∈ JSSet.add (s.subscribersOf x) ws := (JSSet.mem_add _ _ _).mpr (Or.inl rfl)
        rw [hnil] at this
        simp at this
    · simp only [htx, if_false] at hget
      exact h.members x cs hget
  · intro c x
    have hb := h.bound c x
    have hbw := h.bound ws x
    unfold topicsOf subscribersOf at hb hbw ⊢
    rw [hf.1, JSMap.get_set, acceptConnection_get_subs]
    rw [hfresh] at hbw
    by_cases hc : ws = c
    · subst hc
      by_cases htx : t = x
      · subst htx
        simp [JSSet.mem_add]
      · have htx2 : ¬ x = t := fun hh => htx hh.symm
        simp only [htx, if_true, if_false, Option.getD_some, List.mem_singleton]
        constructor
        · intro hh; exact absurd hh htx2
        · intro hh; exact absurd (hbw.mpr hh) (by simp)
    · have hc2 : ¬ c = ws := fun hh => hc hh.symm
      by_cases htx : t = x
      · subst htx
        simp only [hc, if_true, if_false, Option.getD_some, JSSet.mem_add, hc2, false_or]
        exact hb
      · simp only [hc, htx, if_false]
        exact hb

end TradesWebSocketServer
theorem foldl_applyCommand_of_quiet (es : List Effect) (active : JSSet Topic)
    (h : ∀ e ∈ es, Effect.isUpstream e = false) : es.foldl applyCommand active = active := by
  induction es generalizing active with
  | nil => rfl
  | cons e es ih =>
    have he : Effect.isUpstream e = false := h e (List.mem_cons_self _ _)
    have hstep : applyCommand active e = active := by
      cases e <;> simp [Effect.isUpstream] at he <;> rfl
    simp only [List.foldl_cons, hstep]
    exact ih active (fun e1 h1 => h e1 (List.mem_cons_of_mem _ h1))

theorem foldl_applyCommand_filter (es : List Effect) (active : JSSet Topic) :
    (es.filter Effect.isUpstream).foldl applyCommand active = es.foldl applyCommand active := by
  induction es generalizing active with
  | nil => rfl
  | cons e es ih =>
    cases e <;> simp [List.filter_cons, Effect.isUpstream, applyCommand, ih]

theorem mem_applyCommand_subscribe (active : JSSet Topic) (k t : Topic) :
    t ∈ applyCommand active (Effect.upstreamSend "subscribeTokenTrade" [k])
      ↔ t = k ∨ t ∈ active := by
  simp [applyCommand, JSSet.mem_add]

theorem mem_applyCommand_unsubscribe (active : JSSet Topic) (k t : Topic) :
    t ∈ applyCommand active (Effect.upstreamSend "unsubscribeTokenTrade" [k])
      ↔ t ∈ active ∧ t ≠ k := by
  have hne : ¬ ("unsubscribeTokenTrade" = "subscribeTokenTrade") := by decide
  simp [applyCommand, hne]

theorem mem_foldl_add (keys : List Topic) (active : JSSet Topic) (t : Topic) :
    t ∈ keys.foldl JSSet.add active ↔ t ∈ active ∨ t ∈ keys := by
  induction keys generalizing active with
  | nil => simp
  | cons k keys ih =>
    simp only [List.foldl_cons, ih, JSSet.mem_add, List.mem_cons]
    tauto

namespace TradesWebSocketServer

theorem tracks_restart {active : JSSet Topic} {ups : Option ReadyState}
    {s : TradesWebSocketServer} {e0 : List Effect} (h : Tracks active ups (s, e0)) :
    Tracks (e0.foldl applyCommand active) ups (s, []) :=
  ⟨h.same, fun _ e he => by simp at he, fun ho t => by simpa using h.synced ho t⟩

theorem tracks_append {active : JSSet Topic} {ups : Option ReadyState}
    {s : TradesWebSocketServer} {e0 : List Effect} (h : Tracks active ups (s, e0))
    {r : TradesWebSocketServer × List Effect}
    (hr : Tracks (e0.foldl applyCommand active) ups r) :
    Tracks active ups (r.1, e0 ++ r.2) := by
  refine ⟨hr.same, ?_, ?_⟩
  · intro hn e he
    rcases List.mem_append.mp he with h1 | h1
    · exact h.quiet hn e h1
    · exact hr.quiet hn e h1
  · intro ho t
    simp only [List.foldl_append]
    exact hr.synced ho t

theorem tracks_note {active : JSSet Topic} {ups : Option ReadyState}
    {acc : TradesWebSocketServer × List Effect} (h : Tracks active ups acc)
    (s1 : TradesWebSocketServer) (e1 : List Effect)
    (hu : s1.pumpPortalWs = acc.1.pumpPortalWs)
    (ht : s1.tokenSubscriptions = acc.1.tokenSubscriptions)
    (he : ∀ e ∈ e1, Effect.isUpstream e = false) :
    Tracks active ups (s1, acc.2 ++ e1) := by
  refine ⟨hu.trans h.same, ?_, ?_⟩
  · intro hn e hin
    rcases List.mem_append.mp hin with h1 | h1
    · exact h.quiet hn e h1
    · exact he e h1
  · intro ho t
    simp only [List.foldl_append, foldl_applyCommand_of_quiet e1 _ he, ht]
    exact h.synced ho t

theorem removeInterest_tracks (ws : Client) (token : Topic) {active : JSSet Topic}
    {ups : Option ReadyState} {acc : TradesWebSocketServer × List Effect}
    (h : Tracks active ups acc) : Tracks active ups (removeInterest ws acc token) := by
  unfold removeInterest
  cases hg : JSMap.get acc.1.tokenSubscriptions token with
  | none => exact h
  | some subs =>
    have hmem : token ∈ JSMap.keys acc.1.tokenSubscriptions :=
      (JSMap.mem_keys_iff _ _).mpr ⟨subs, hg⟩
    simp only
    by_cases hz : JSSet.size (JSSet.delete subs ws) = 0
    · simp only [hz, if_true]
      by_cases ho : ups = some ReadyState.OPEN
      · have hopen : acc.1.pumpPortalWs = some ReadyState.OPEN := h.same.trans ho
        refine ⟨h.same, fun hn => absurd ho hn, ?_⟩
        intro _ t
        simp only [unsubscribeFromToken, upstreamOpen, hopen, decide_True, if_true,
          List.foldl_append, List.foldl_cons, List.foldl_nil, mem_applyCommand_unsubscribe,
          JSMap.keys_delete, JSMap.keys_set_of_mem _ _ _ hmem, List.mem_filter,
          decide_eq_true_eq]
        rw [h.synced ho t]
      · have hclosed : ¬ acc.1.pumpPortalWs = some ReadyState.OPEN := fun hh => ho (h.same ▸ hh)
        refine ⟨h.same, ?_, fun hh => absurd hh ho⟩
        intro _ e he
        simp only [unsubscribeFromToken, upstreamOpen, hclosed, decide_False,
          Bool.false_eq_true, if_false, List.append_nil] at he
        exact h.quiet ho e he
    · simp only [hz, if_false]
      refine ⟨h.same, h.quiet, ?_⟩
      intro ho t
      simp only [JSMap.keys_set_of_mem _ _ _ hmem]
      exact h.synced ho t

theorem foldl_removeInterest_tracks (ws : Client) (tokens : List Topic) {active : JSSet Topic}
    {ups : Option ReadyState} {acc : TradesWebSocketServer × List Effect}
    (h : Tracks active ups acc) : Tracks active ups (tokens.foldl (removeInterest ws) acc) := by
  induction tokens generalizing acc with
  | nil => exact h
  | cons token tokens ih => exact ih (removeInterest_tracks ws token h)

theorem removeClient_tracks (s : TradesWebSocketServer) (ws : Client) {active : JSSet Topic}
    {ups : Option ReadyState} (h : Tracks active ups (s, [])) :
    Tracks active ups (removeClient s ws) := by
  have key : ∀ r : TradesWebSocketServer × List Effect, Tracks active ups r →
      Tracks active ups ({ r.1 with clients := JSMap.delete r.1.clients ws }, r.2) :=
    fun r hr => ⟨hr.same, hr.quiet, hr.synced⟩
  unfold removeClient
  cases JSMap.get s.clients ws with
  | none => exact key _ h
  | some tokens => exact key _ (foldl_removeInterest_tracks ws tokens h)

theorem removeClient_tracks_acc (s : TradesWebSocketServer) (ws : Client) {active : JSSet Topic}
    {ups : Option ReadyState} {e0 : List Effect} (h : Tracks active ups (s, e0)) :
    Tracks active ups ((removeClient s ws).1, e0 ++ (removeClient s ws).2) :=
  tracks_append h (removeClient_tracks s ws (tracks_restart h))

theorem acceptConnection_tracks (s : TradesWebSocketServer) (ws : Client) (t : Topic)
    (thr : Bool) {active : JSSet Topic} {ups : Option ReadyState}
    (h : Tracks active ups (s, [])) : Tracks active ups (acceptConnection s ws t thr) := by
  have hf := acceptConnection_fields s ws t thr
  have hsame : s.pumpPortalWs = ups := h.same
  have hb := bindClient_fields s ws t
  have hsend : ∀ e ∈ (if thr then [] else [Effect.send ws (Envelope.connection t)]),
      Effect.isUpstream e = false := by
    intro e he
    split at he
    · simp at he
    · simp at he; subst he; rfl
  refine ⟨hf.2.1.trans hsame, ?_, ?_⟩
  · intro hn e he
    unfold acceptConnection at he
    simp only [List.mem_append] at he
    rcases he with he | he
    · have hclosed : ¬ (bindClient s ws t).pumpPortalWs = some ReadyState.OPEN := by
        rw [hb.2.1, hsame]; exact hn
      simp [subscribeToToken, upstreamOpen, hclosed] at he
    · exact hsend e he
  · intro ho x
    have hopen : (bindClient s ws t).pumpPortalWs = some ReadyState.OPEN := by
      rw [hb.2.1, hsame]; exact ho
    have hs := h.synced ho
    simp only [List.foldl_nil] at hs
    rw [acceptConnection_keys]
    unfold acceptConnection
    simp only [List.foldl_append, foldl_applyCommand_of_quiet _ _ hsend]
    by_cases hk : t ∈ JSMap.keys s.tokenSubscriptions
    · have hh : JSMap.has s.tokenSubscriptions t = true := (JSMap.has_iff _ _).mpr hk
      simp only [hh, hk, if_true, List.foldl_nil]
      exact hs x
    · have hh : JSMap.has s.tokenSubscriptions t = false := by
        cases hv : JSMap.has s.tokenSubscriptions t with
        | false => rfl
        | true => exact absurd ((JSMap.has_iff _ _).mp hv) hk
      simp only [hh, hk, Bool.false_eq_true, if_false, subscribeToToken, upstreamOpen, hopen,
        decide_True, if_true, List.foldl_cons, List.foldl_nil, mem_applyCommand_subscribe,
        List.mem_append, List.mem_singleton, hs x]
      tauto

theorem Consistent.of_eq {s s1 : TradesWebSocketServer} (h : s.Consistent)
    (hc : s1.clients = s.clients) (ht : s1.tokenSubscriptions = s.tokenSubscriptions) :
    s1.Consistent := by
  constructor
  · rw [hc]; exact h.clientKeys
  · rw [ht]; exact h.topicKeys
  · intro c ts hg; rw [hc] at hg; exact h.single c ts hg
  · intro t cs hg; rw [ht] at hg; exact h.members t cs hg
  · intro c t
    have hb := h.bound c t
    unfold topicsOf subscribersOf at hb ⊢
    rw [hc, ht]; exact hb

theorem sound_restart {active : JSSet Topic} {ups : Option ReadyState} {next : Client}
    {s : TradesWebSocketServer} {e0 : List Effect} (h : Sound active ups next (s, e0)) :
    Sound (e0.foldl applyCommand active) ups next (s, []) :=
  ⟨h.consistent, tracks_restart h.tracks, h.fresh⟩

theorem sound_append {active : JSSet Topic} {ups : Option ReadyState} {next : Client}
    {s : TradesWebSocketServer} {e0 : List Effect} (h : Sound active ups next (s, e0))
    {r : TradesWebSocketServer × List Effect}
    (hr : Sound (e0.foldl applyCommand active) ups next r) :
    Sound active ups next (r.1, e0 ++ r.2) :=
  ⟨hr.consistent, tracks_append h.tracks hr.tracks, hr.fresh⟩

theorem sound_note {active : JSSet Topic} {ups : Option ReadyState} {next : Client}
    {acc : TradesWebSocketServer × List Effect} (h : Sound active ups next acc)
    (s1 : TradesWebSocketServer) (e1 : List Effect)
    (hu : s1.pumpPortalWs = acc.1.pumpPortalWs) (hc : s1.clients = acc.1.clients)
    (ht : s1.tokenSubscriptions = acc.1.tokenSubscriptions)
    (he : ∀ e ∈ e1, Effect.isUpstream e = false) :
    Sound active ups next (s1, acc.2 ++ e1) :=
  ⟨h.consistent.of_eq hc ht, tracks_note h.tracks s1 e1 hu ht he, by
    intro c hcm
    have hcm2 : c ∈ JSMap.keys s1.clients := hcm
    rw [hc] at hcm2
    exact h.fresh c hcm2⟩

theorem sound_of_fields {active : JSSet Topic} {ups : Option ReadyState} {next : Client}
    {s s1 : TradesWebSocketServer} (h : Sound active ups next (s, []))
    (hu : s1.pumpPortalWs = s.pumpPortalWs) (hc : s1.clients = s.clients)
    (ht : s1.tokenSubscriptions = s.tokenSubscriptions) : Sound active ups next (s1, []) := by
  have := sound_note h s1 [] hu hc ht (by intro e he; simp at he)
  simpa using this

theorem sound_weaken {active : JSSet Topic} {ups : Option ReadyState} {next : Client}
    {r : TradesWebSocketServer × List Effect} (h : Sound active ups next r) :
    Sound active ups (next + 1) r :=
  ⟨h.consistent, h.tracks, fun c hc => Nat.lt_succ_of_lt (h.fresh c hc)⟩

theorem removeClient_sound (s : TradesWebSocketServer) (ws : Client) {active : JSSet Topic}
    {ups : Option ReadyState} {next : Client} (h : Sound active ups next (s, [])) :
    Sound active ups next (removeClient s ws) := by
  refine ⟨removeClient_consistent s ws h.consistent, removeClient_tracks s ws h.tracks, ?_⟩
  intro c hc
  rw [removeClient_keys] at hc
  exact h.fresh c (List.mem_filter.mp hc).1

theorem removeClient_sound_acc (s : TradesWebSocketServer) (ws : Client) {active : JSSet Topic}
    {ups : Option ReadyState} {next : Client} {e0 : List Effect}
    (h : Sound active ups next (s, e0)) :
    Sound active ups next ((removeClient s ws).1, e0 ++ (removeClient s ws).2) :=
  sound_append h (removeClient_sound s ws (sound_restart h))

theorem foldl_removeClient_sound (dead : List Client) {active : JSSet Topic}
    {ups : Option ReadyState} {next : Client} (acc : TradesWebSocketServer × List Effect)
    (h : Sound active ups next acc) :
    Sound active ups next (dead.foldl
      (fun acc c => ((removeClient acc.1 c).1, acc.2 ++ (removeClient acc.1 c).2)) acc) := by
  induction dead generalizing acc with
  | nil => exact h
  | cons c dead ih =>
    simp only [List.foldl_cons]
    exact ih _ (removeClient_sound_acc acc.1 c h)

theorem removeClients_sound (s : TradesWebSocketServer) (dead : List Client)
    {active : JSSet Topic} {ups : Option ReadyState} {next : Client}
    (h : Sound active ups next (s, [])) : Sound active ups next (removeClients s dead) :=
  foldl_removeClient_sound dead (s, []) h

theorem sweepOne_sound (c : Socket) {active : JSSet Topic} {ups : Option ReadyState}
    {next : Client} (acc : TradesWebSocketServer × List Effect)
    (h : Sound active ups next acc) : Sound active ups next (sweepOne acc c) := by
  unfold sweepOne
  split
  · have h1 : Sound active ups next (acc.1, acc.2 ++ [Effect.terminate c.ws]) :=
      sound_note h acc.1 _ rfl rfl rfl (by intro e he; simp at he; subst he; rfl)
    have h2 := removeClient_sound_acc acc.1 c.ws h1
    simpa [List.append_assoc] using h2
  · exact sound_note h _ _ rfl rfl rfl (by intro e he; simp at he; subst he; rfl)

theorem sweep_sound (s : TradesWebSocketServer) {active : JSSet Topic}
    {ups : Option ReadyState} {next : Client} (h : Sound active ups next (s, [])) :
    Sound active ups next (sweep s) := by
  unfold sweep
  generalize s.wssClients = cs
  generalize (s, ([] : List Effect)) = acc at h
  induction cs generalizing acc with
  | nil => exact h
  | cons c cs ih => exact ih _ (sweepOne_sound c acc h)

theorem broadcastToToken_sound (s : TradesWebSocketServer) (env : ClientEnv)
    (tokenAddress : JSValue) (message : Envelope) {active : JSSet Topic}
    {ups : Option ReadyState} {next : Client} (h : Sound active ups next (s, [])) :
    Sound active ups next (broadcastToToken s env tokenAddress message) := by
  unfold broadcastToToken
  cases getSubscribers s tokenAddress with
  | none => exact h
  | some subscribers =>
    simp only
    split
    · exact h
    · have hq : ∀ e ∈ (subscribers.filter (fun c => env.delivers c)).map
          (fun c => Effect.send c message), Effect.isUpstream e = false := by
        intro e he
        obtain ⟨c, _, rfl⟩ := List.mem_map.mp he
        rfl
      have h1 := sound_note h s _ rfl rfl rfl hq
      simp only [List.nil_append] at h1
      exact sound_append h1 (removeClients_sound s _ (sound_restart h1))

theorem onPumpPortalMessage_ok (s : TradesWebSocketServer) (env : ClientEnv) (data : Frame) :
    ∃ r, onPumpPortalMessage s env data = .ok r := by
  unfold onPumpPortalMessage
  cases onPumpPortalMessageTry s env data with
  | ok r => exact ⟨r, rfl⟩
  | error e => exact ⟨(s, []), rfl⟩

theorem onPumpPortalMessage_sound (s : TradesWebSocketServer) (env : ClientEnv) (data : Frame)
    {active : JSSet Topic} {ups : Option ReadyState} {next : Client}
    (h : Sound active ups next (s, [])) (r : TradesWebSocketServer × List Effect)
    (hr : onPumpPortalMessage s env data = .ok r) : Sound active ups next r := by
  unfold onPumpPortalMessage at hr
  cases ht : onPumpPortalMessageTry s env data with
  | error e =>
    rw [ht] at hr
    injection hr with hr
    subst hr; exact h
  | ok r1 =>
    rw [ht] at hr
    injection hr with hr
    subst hr
    unfold onPumpPortalMessageTry at ht
    cases hp : JSONparse data with
    | error e => rw [hp] at ht; simp at ht
    | ok message =>
      rw [hp] at ht
      simp only at ht
      cases hta : tokenAddressOf message with
      | error e => rw [hta] at ht; simp at ht
      | ok tokenAddress =>
        rw [hta] at ht
        simp only at ht
        split at ht
        · injection ht with ht; subst ht
          exact broadcastToToken_sound s env _ _ h
        · injection ht with ht; subst ht; exact h

theorem acceptConnection_sound (s : TradesWebSocketServer) (ws : Client) (t : Topic)
    (thr : Bool) {active : JSSet Topic} {ups : Option ReadyState}
    (h : Sound active ups ws (s, [])) :
    Sound active ups (ws + 1) (acceptConnection s ws t thr) := by
  have hfresh : JSMap.get s.clients ws = none := by
    rw [← JSMap.not_mem_keys_iff]
    intro hin
    exact Nat.lt_irrefl ws (h.fresh ws hin)
  refine ⟨acceptConnection_consistent s ws t thr h.consistent hfresh,
    acceptConnection_tracks s ws t thr h.tracks, ?_⟩
  intro c hc
  rw [(acceptConnection_fields s ws t thr).1,
    JSMap.keys_set_of_not_mem _ _ _ ((JSMap.not_mem_keys_iff _ _).mpr hfresh)] at hc
  rcases List.mem_append.mp hc with h1 | h1
  · exact Nat.lt_succ_of_lt (h.fresh c h1)
  · simp at h1; subst h1; exact Nat.lt_succ_self _

end TradesWebSocketServer
namespace World

open TradesWebSocketServer

theorem activeSubscriptions_append (log es : List Effect) :
    activeSubscriptions (log ++ es.filter Effect.isUpstream)
      = es.foldl applyCommand (activeSubscriptions log) := by
  unfold activeSubscriptions
  rw [List.foldl_append, foldl_applyCommand_filter]

theorem Inv.sound {w : World} (h : Inv w) :
    Sound (activeSubscriptions w.upstreamLog) w.server.pumpPortalWs w.nextWs (w.server, []) :=
  ⟨h.consistent, ⟨rfl, fun _ e he => by simp at he, fun ho t => by simpa using h.synced ho t⟩,
    h.fresh⟩

/-- A handler result that is `Sound` for the log of `w` gives a world satisfying the
invariant once it is taken over. -/
theorem inv_of_sound (w : World) (r : TradesWebSocketServer × List Effect) (next : Client)
    (timer : Option Nat)
    (hr : Sound (activeSubscriptions w.upstreamLog) w.server.pumpPortalWs next r)
    (hu : w.server.pumpPortalWs = some ReadyState.CONNECTING → w.upstreamLog = []) :
    Inv { server := r.1, nextWs := next,
          upstreamLog := w.upstreamLog ++ r.2.filter Effect.isUpstream, timer := timer } := by
  constructor
  · exact hr.consistent
  · exact hr.fresh
  · intro ho t
    have ho2 : w.server.pumpPortalWs = some ReadyState.OPEN := hr.tracks.same.symm.trans ho
    simp only [activeSubscriptions_append]
    exact hr.tracks.synced ho2 t
  · intro hcon
    have hc2 : w.server.pumpPortalWs = some ReadyState.CONNECTING :=
      hr.tracks.same.symm.trans hcon
    have hq := hr.tracks.quiet (by rw [hc2]; simp)
    have hnil : r.2.filter Effect.isUpstream = [] := by
      rw [List.filter_eq_nil_iff]
      intro e he
      simp [hq e he]
    simp only [hnil, List.append_nil]
    exact hu hc2

theorem inv_init : Inv init := by
  constructor
  · constructor
    · simp [init, TradesWebSocketServer.init, connectToPumpPortal, JSMap.keys]
    · simp [init, TradesWebSocketServer.init, connectToPumpPortal, JSMap.keys]
    · intro c ts h
      simp [init, TradesWebSocketServer.init, connectToPumpPortal, JSMap.get] at h
    · intro t cs h
      simp [init, TradesWebSocketServer.init, connectToPumpPortal, JSMap.get] at h
    · intro c t
      simp [init, TradesWebSocketServer.init, connectToPumpPortal, topicsOf, subscribersOf,
        JSMap.get]
  · intro c hc
    simp [init, TradesWebSocketServer.init, connectToPumpPortal, JSMap.keys] at hc
  · intro h
    simp [init, TradesWebSocketServer.init, connectToPumpPortal] at h
  · intro _
    rfl

theorem inv_step (w : World) (e : Event) (h : Inv w) : Inv (w.step e).1 := by
  cases e with
  | connection token thr =>
    simp only [step]
    have h0 : Sound (activeSubscriptions w.upstreamLog) w.server.pumpPortalWs w.nextWs
        ({ w.server with wssClients := w.server.wssClients
            ++ [{ ws := w.nextWs, isAlive := none, handlers := false }] }, []) :=
      sound_of_fields h.sound rfl rfl rfl
    have hrej : ∀ s1 : TradesWebSocketServer × List Effect,
        rejectConnection { w.server with wssClients := w.server.wssClients
            ++ [{ ws := w.nextWs, isAlive := none, handlers := false }] } w.nextWs thr = .ok s1 →
        Sound (activeSubscriptions w.upstreamLog) w.server.pumpPortalWs (w.nextWs + 1) s1 := by
      intro s1 hs1
      unfold rejectConnection at hs1
      split at hs1
      · simp at hs1
      · injection hs1 with hs1
        subst hs1
        have := sound_note h0 _ [Effect.send w.nextWs Envelope.error,
          Effect.close w.nextWs 1008] rfl rfl rfl
          (by intro e he; simp at he; rcases he with he | he <;> subst he <;> rfl)
        exact sound_weaken (by simpa using this)
    have hinv0 : Inv { w with
        server := { w.server with wssClients := w.server.wssClients
            ++ [{ ws := w.nextWs, isAlive := none, handlers := false }] },
        nextWs := w.nextWs + 1 } := by
      have := inv_of_sound w _ (w.nextWs + 1) w.timer (sound_weaken h0) h.unused
      simpa using this
    cases hres : onConnection { w.server with wssClients := w.server.wssClients
            ++ [{ ws := w.nextWs, isAlive := none, handlers := false }] } w.nextWs token thr with
    | error err => exact hinv0
    | ok r =>
      simp only [commit]
      have hsound : Sound (activeSubscriptions w.upstreamLog) w.server.pumpPortalWs
          (w.nextWs + 1) r := by
        unfold onConnection at hres
        cases token with
        | none => exact hrej r hres
        | some t =>
          simp only at hres
          split at hres
          · injection hres with hres
            subst hres
            exact acceptConnection_sound _ _ _ _ h0
          · exact hrej r hres
      exact inv_of_sound w r (w.nextWs + 1) w.timer hsound h.unused
  | clientClose ws =>
    simp only [step]
    cases w.socket ws with
    | none => exact h
    | some c =>
      simp only
      have h0 : Sound (activeSubscriptions w.upstreamLog) w.server.pumpPortalWs w.nextWs
          ({ w.server with wssClients :=
              w.server.wssClients.filter (fun d => decide (d.ws ≠ ws)) }, []) :=
        sound_of_fields h.sound rfl rfl rfl
      split
      · exact inv_of_sound w _ w.nextWs w.timer (removeClient_sound _ ws h0) h.unused
      · have := inv_of_sound w _ w.nextWs w.timer h0 h.unused
        simpa using this
  | clientError ws =>
    simp only [step]
    cases w.socket ws with
    | none => exact h
    | some c =>
      simp only
      split
      · exact inv_of_sound w _ w.nextWs w.timer (removeClient_sound _ ws h.sound) h.unused
      · exact h
  | pong ws =>
    simp only [step]
    cases w.socket ws with
    | none => exact h
    | some c =>
      simp only
      split
      · have h0 : Sound (activeSubscriptions w.upstreamLog) w.server.pumpPortalWs w.nextWs
            ({ w.server with wssClients := setIsAlive w.server.wssClients ws true }, []) :=
          sound_of_fields h.sound rfl rfl rfl
        have := inv_of_sound w _ w.nextWs w.timer h0 h.unused
        simpa using this
      · exact h
  | sweep =>
    exact inv_of_sound w _ w.nextWs w.timer (sweep_sound _ h.sound) h.unused
  | upstreamOpen =>
    simp only [step]
    split
    · rename_i hcon
      have hlog := h.unused hcon
      simp only [commit, onPumpPortalOpen, hlog, List.nil_append]
      constructor
      · split <;> exact h.consistent.of_eq rfl rfl
      · intro c hc
        split at hc <;> exact h.fresh c hc
      · intro _ t
        by_cases hk : (JSMap.keys w.server.tokenSubscriptions).length > 0
        · simp [hk, subscribeToTokens, upstreamOpen, Effect.isUpstream, activeSubscriptions,
            applyCommand, mem_foldl_add]
        · have hnil : JSMap.keys w.server.tokenSubscriptions = [] := by
            cases hl : JSMap.keys w.server.tokenSubscriptions with
            | nil => rfl
            | cons a l => rw [hl] at hk; simp at hk
          simp [hnil, activeSubscriptions]
      · intro hc
        split at hc <;> simp at hc
    · exact h
  | upstreamMessage data env =>
    simp only [step]
    obtain ⟨r, hr⟩ := onPumpPortalMessage_ok w.server env data
    rw [hr]
    exact inv_of_sound w r w.nextWs w.timer
      (onPumpPortalMessage_sound w.server env data h.sound r hr) h.unused
  | upstreamError => exact h
  | upstreamClosing =>
    simp only [step]
    split
    · exact ⟨h.consistent.of_eq rfl rfl, h.fresh, fun ho => by simp at ho,
        fun ho => by simp at ho⟩
    · exact h
  | upstreamClose =>
    simp only [step]
    split
    · exact h
    · simp only [onPumpPortalClose]
      split
      · exact ⟨h.consistent.of_eq rfl rfl, h.fresh, fun ho => by simp at ho,
          fun ho => by simp at ho⟩
      · exact ⟨h.consistent.of_eq rfl rfl, h.fresh, fun ho => by simp at ho,
          fun ho => by simp at ho⟩
  | reconnectTimer =>
    simp only [step]
    cases w.timer with
    | none => exact h
    | some d =>
      exact ⟨h.consistent.of_eq rfl rfl, h.fresh,
        fun ho => by simp [connectToPumpPortal] at ho, fun _ => rfl⟩

theorem run_append (w : World) (es fs : List Event) :
    run w (es ++ fs) = run (run w es) fs := by
  induction es generalizing w with
  | nil => rfl
  | cons e es ih => exact ih (w.step e).1

theorem Reachable.after_step {w : World} (h : Reachable w) (e : Event) : Reachable (w.step e).1 := by
  obtain ⟨es, hes⟩ := h
  exact ⟨es ++ [e], by rw [run_append, hes]; rfl⟩

theorem reachable_init : Reachable init := ⟨[], rfl⟩

/-- Induction over the reachable states. -/
theorem Reachable.induction {P : World → Prop} (h0 : P init)
    (hstep : ∀ w e, Reachable w → P w → P (w.step e).1) :
    ∀ w, Reachable w → P w := by
  have key : ∀ (es : List Event) (w0 : World), Reachable w0 → P w0 → P (run w0 es) := by
    intro es
    induction es with
    | nil => intro w0 _ hp; exact hp
    | cons e es ih =>
      intro w0 hr hp
      exact ih _ (hr.after_step e) (hstep w0 e hr hp)
  intro w hw
  obtain ⟨es, hes⟩ := hw
  rw [← hes]
  exact key es init reachable_init h0

theorem Reachable.inv {w : World} (h : Reachable w) : Inv w :=
  Reachable.induction inv_init (fun w e _ hw => inv_step w e hw) w h

end World
end GrokTrader

/-! ## The claims about the trades relay and the reconnect policy -/

namespace GrokTrader
open TradesWebSocketServer World

/-- C1, as amended: in every reachable state in which the upstream socket is OPEN, the
topics with an active upstream subscription on the current connection (keys subscribed
minus keys unsubscribed) are exactly the keys of `tokenSubscriptions`. -/
theorem C1_subscriptions_match_while_open (w : World) (hw : Reachable w)
    (hopen : w.server.pumpPortalWs = some ReadyState.OPEN) (t : Topic) :
    t ∈ activeSubscriptions w.upstreamLog ↔ t ∈ JSMap.keys w.server.tokenSubscriptions :=
  hw.inv.synced hopen t

/-- Witness for C1 as amended: after the upstream opened and a client bound to "MINT1",
the feed is subscribed to "MINT1". -/
theorem C1_subscriptions_match_while_open_witness :
    "MINT1" ∈ activeSubscriptions
        (run init [Event.upstreamOpen, Event.connection (some "MINT1") false]).upstreamLog
      ↔ "MINT1" ∈ JSMap.keys
        (run init [Event.upstreamOpen, Event.connection (some "MINT1") false]).server.tokenSubscriptions :=
  C1_subscriptions_match_while_open _ ⟨_, rfl⟩ (by decide) "MINT1"

/-- C1 as stated fails: a client that binds to "MINT1" while the upstream socket is still
connecting leaves a reachable state in which "MINT1" has a bound client but no
subscription is active upstream (nothing was written to the upstream socket). -/
theorem C1_counterexample :
    Reachable (run init [Event.connection (some "MINT1") false])
      ∧ (run init [Event.connection (some "MINT1") false]).server.pumpPortalWs
          = some ReadyState.CONNECTING
      ∧ JSMap.keys (run init [Event.connection (some "MINT1") false]).server.tokenSubscriptions
          = ["MINT1"]
      ∧ activeSubscriptions (run init [Event.connection (some "MINT1") false]).upstreamLog = []
      ∧ ¬ (∀ t, t ∈ activeSubscriptions
              (run init [Event.connection (some "MINT1") false]).upstreamLog
            ↔ t ∈ JSMap.keys
              (run init [Event.connection (some "MINT1") false]).server.tokenSubscriptions) := by
  refine ⟨⟨_, rfl⟩, by decide, by decide, by decide, ?_⟩
  intro h
  have h1 := (h "MINT1").mpr (by decide)
  revert h1
  decide

namespace TradesWebSocketServer

theorem Consistent.mem_keys_iff_subscribers {s : TradesWebSocketServer} (h : s.Consistent)
    (t : Topic) : t ∈ JSMap.keys s.tokenSubscriptions ↔ s.subscribersOf t ≠ [] := by
  rw [JSMap.mem_keys_iff]
  unfold subscribersOf
  constructor
  · rintro ⟨cs, hcs⟩
    rw [hcs]
    exact (h.members t cs hcs).2
  · intro hne
    cases hg : JSMap.get s.tokenSubscriptions t with
    | none => rw [hg] at hne; simp at hne
    | some cs => exact ⟨cs, rfl⟩

theorem Consistent.topicsOf_eq {s : TradesWebSocketServer} (h : s.Consistent) {c : Client}
    {t : Topic} (ht : t ∈ s.topicsOf c) : JSMap.get s.clients c = some [t] := by
  unfold topicsOf at ht
  cases hg : JSMap.get s.clients c with
  | none => rw [hg] at ht; simp at ht
  | some ts =>
    obtain ⟨t1, rfl⟩ := h.single c ts hg
    rw [hg] at ht
    simp at ht
    rw [ht]

theorem delete_eq_nil_iff (subs : JSSet Client) (ws : Client) (hn : subs.Nodup)
    (hm : ws ∈ subs) : JSSet.delete subs ws = [] ↔ subs = [ws] := by
  constructor
  · intro hd
    have hall : ∀ x ∈ subs, x = ws := by
      intro x hx
      by_contra hne
      have : x ∈ JSSet.delete subs ws := (JSSet.mem_delete subs ws x).mpr ⟨hx, hne⟩
      rw [hd] at this
      simp at this
    cases subs with
    | nil => simp at hm
    | cons a rest =>
      have ha : a = ws := hall a (List.mem_cons_self _ _)
      subst ha
      have hnot : a ∉ rest := (List.nodup_cons.mp hn).1
      cases rest with
      | nil => rfl
      | cons b rest2 =>
        have hb : b = a := hall b (by simp)
        subst hb
        simp at hnot
  · intro hs
    subst hs
    simp [JSSet.delete]

/-- The frames `removeClient` writes upstream, for a client bound to `t`. -/
theorem removeClient_effects {s : TradesWebSocketServer} (h : s.Consistent) {ws : Client}
    {t : Topic} (ht : t ∈ s.topicsOf ws) :
    (removeClient s ws).2
      = if s.subscribersOf t = [ws] then unsubscribeFromToken s t else [] := by
  have hget := h.topicsOf_eq ht
  have hin : ws ∈ s.subscribersOf t := (h.bound ws t).mp ht
  unfold subscribersOf at hin ⊢
  unfold removeClient
  simp only [hget, List.foldl_cons, List.foldl_nil, removeInterest]
  cases hg : JSMap.get s.tokenSubscriptions t with
  | none => rw [hg] at hin; simp at hin
  | some subs =>
    rw [hg] at hin
    simp only [Option.getD_some] at hin ⊢
    have hiff := delete_eq_nil_iff subs ws (h.members t subs hg).1 hin
    by_cases hs : subs = [ws]
    · subst hs
      simp [JSSet.delete, JSSet.size, unsubscribeFromToken, upstreamOpen]
    · have hz : ¬ JSSet.size (JSSet.delete subs ws) = 0 := by
        intro hz
        exact hs (hiff.mp (List.length_eq_zero.mp hz))
      simp [hz, hs]

theorem removeClient_effects_unbound (s : TradesWebSocketServer) (ws : Client)
    (h : JSMap.get s.clients ws = none) : (removeClient s ws).2 = [] := by
  unfold removeClient
  simp [h]

end TradesWebSocketServer

/-- C2: in every reachable state of the trades relay (the state after any sequence of
connects with or without token, client closes and errors, pongs, sweeps and upstream
open, message, error and close events), no entry of `tokenSubscriptions` holds an empty
set, a topic has an entry exactly when its subscriber set is non-empty, and exactly
when some client is bound to it. -/
theorem C2_no_empty_topic_entry (w : World) (hw : Reachable w) :
    (∀ t cs, (t, cs) ∈ w.server.tokenSubscriptions → cs ≠ [])
      ∧ (∀ t, t ∈ JSMap.keys w.server.tokenSubscriptions ↔ w.server.subscribersOf t ≠ [])
      ∧ (∀ t, t ∈ JSMap.keys w.server.tokenSubscriptions ↔ ∃ c, t ∈ w.server.topicsOf c) := by
  have h := hw.inv.consistent
  refine ⟨?_, h.mem_keys_iff_subscribers, ?_⟩
  · intro t cs hmem
    exact (h.members t cs (JSMap.get_eq_some_of_mem _ h.topicKeys t cs hmem)).2
  · intro t
    rw [h.mem_keys_iff_subscribers]
    constructor
    · intro hne
      obtain ⟨c, hc⟩ := List.exists_mem_of_ne_nil _ hne
      exact ⟨c, (h.bound c t).mpr hc⟩
    · rintro ⟨c, hc⟩
      exact List.ne_nil_of_mem ((h.bound c t).mp hc)

/-- Witness for C2: the state after two clients bound to "MINT1", one of them closed, a
token-less connect and a sweep. -/
theorem C2_no_empty_topic_entry_witness :
    (∀ t cs, (t, cs) ∈ (run init [Event.connection (some "MINT1") false,
          Event.connection (some "MINT1") false, Event.clientClose 0,
          Event.connection none false, Event.sweep]).server.tokenSubscriptions → cs ≠ [])
      ∧ (∀ t, t ∈ JSMap.keys (run init [Event.connection (some "MINT1") false,
          Event.connection (some "MINT1") false, Event.clientClose 0,
          Event.connection none false, Event.sweep]).server.tokenSubscriptions
        ↔ (run init [Event.connection (some "MINT1") false,
          Event.connection (some "MINT1") false, Event.clientClose 0,
          Event.connection none false, Event.sweep]).server.subscribersOf t ≠ [])
      ∧ (∀ t, t ∈ JSMap.keys (run init [Event.connection (some "MINT1") false,
          Event.connection (some "MINT1") false, Event.clientClose 0,
          Event.connection none false, Event.sweep]).server.tokenSubscriptions
        ↔ ∃ c, t ∈ (run init [Event.connection (some "MINT1") false,
          Event.connection (some "MINT1") false, Event.clientClose 0,
          Event.connection none false, Event.sweep]).server.topicsOf c) :=
  C2_no_empty_topic_entry _ ⟨_, rfl⟩

/-- C3: in every reachable state of the trades relay, `t` is in `clients.get(c)` exactly
when `c` is in `tokenSubscriptions.get(t)`; every member of a topic set is a key of
`clients`, and every key of `clients` is bound to one topic and listed in that topic's
set. -/
theorem C3_registries_agree (w : World) (hw : Reachable w) :
    (∀ c t, t ∈ w.server.topicsOf c ↔ c ∈ w.server.subscribersOf t)
      ∧ (∀ t c, c ∈ w.server.subscribersOf t → c ∈ JSMap.keys w.server.clients)
      ∧ (∀ c, c ∈ JSMap.keys w.server.clients →
          ∃ t, w.server.topicsOf c = [t] ∧ c ∈ w.server.subscribersOf t) := by
  have h := hw.inv.consistent
  refine ⟨h.bound, ?_, ?_⟩
  · intro t c hc
    have ht := (h.bound c t).mpr hc
    exact (JSMap.mem_keys_iff _ _).mpr ⟨[t], h.topicsOf_eq ht⟩
  · intro c hc
    obtain ⟨ts, hts⟩ := (JSMap.mem_keys_iff _ _).mp hc
    obtain ⟨t, rfl⟩ := h.single c ts hts
    have htop : w.server.topicsOf c = [t] := by unfold topicsOf; rw [hts]; rfl
    exact ⟨t, htop, (h.bound c t).mp (by rw [htop]; simp)⟩

/-- Witness for C3: the state after three clients bound to two topics and one of them
closed. -/
theorem C3_registries_agree_witness :
    (∀ c t, t ∈ (run init [Event.connection (some "MINT1") false,
          Event.connection (some "MINT2") false, Event.connection (some "MINT1") false,
          Event.clientClose 0]).server.topicsOf c
        ↔ c ∈ (run init [Event.connection (some "MINT1") false,
          Event.connection (some "MINT2") false, Event.connection (some "MINT1") false,
          Event.clientClose 0]).server.subscribersOf t)
      ∧ (∀ t c, c ∈ (run init [Event.connection (some "MINT1") false,
          Event.connection (some "MINT2") false, Event.connection (some "MINT1") false,
          Event.clientClose 0]).server.subscribersOf t
        → c ∈ JSMap.keys (run init [Event.connection (some "MINT1") false,
          Event.connection (some "MINT2") false, Event.connection (some "MINT1") false,
          Event.clientClose 0]).server.clients)
      ∧ (∀ c, c ∈ JSMap.keys (run init [Event.connection (some "MINT1") false,
          Event.connection (some "MINT2") false, Event.connection (some "MINT1") false,
          Event.clientClose 0]).server.clients →
          ∃ t, (run init [Event.connection (some "MINT1") false,
            Event.connection (some "MINT2") false, Event.connection (some "MINT1") false,
            Event.clientClose 0]).server.topicsOf c = [t]
            ∧ c ∈ (run init [Event.connection (some "MINT1") false,
              Event.connection (some "MINT2") false, Event.connection (some "MINT1") false,
              Event.clientClose 0]).server.subscribersOf t) :=
  C3_registries_agree _ ⟨_, rfl⟩

namespace TradesWebSocketServer

theorem removeInterest_effects_upstream (ws : Client) (token : Topic)
    (acc : TradesWebSocketServer × List Effect)
    (h : ∀ e ∈ acc.2, ∃ t, e = Effect.upstreamSend "unsubscribeTokenTrade" [t]) :
    ∀ e ∈ (removeInterest ws acc token).2,
      ∃ t, e = Effect.upstreamSend "unsubscribeTokenTrade" [t] := by
  unfold removeInterest
  cases JSMap.get acc.1.tokenSubscriptions token with
  | none => exact h
  | some subs =>
    simp only
    split
    · intro e he
      rcases List.mem_append.mp he with h1 | h1
      · exact h e h1
      · unfold unsubscribeFromToken at h1
        split at h1
        · simp at h1; exact ⟨token, h1⟩
        · simp at h1
    · exact h

theorem removeClient_effects_upstream (s : TradesWebSocketServer) (ws : Client) :
    ∀ e ∈ (removeClient s ws).2, ∃ t, e = Effect.upstreamSend "unsubscribeTokenTrade" [t] := by
  unfold removeClient
  simp only
  cases JSMap.get s.clients ws with
  | none => intro e he; simp at he
  | some tokens =>
    simp only
    generalize hacc : (s, ([] : List Effect)) = acc
    have h0 : ∀ e ∈ acc.2, ∃ t, e = Effect.upstreamSend "unsubscribeTokenTrade" [t] := by
      subst hacc; intro e he; simp at he
    clear hacc
    induction tokens generalizing acc with
    | nil => exact h0
    | cons token tokens ih => exact ih _ (removeInterest_effects_upstream ws token acc h0)

theorem removeClients_effects_upstream (s : TradesWebSocketServer) (dead : List Client) :
    ∀ e ∈ (removeClients s dead).2,
      ∃ t, e = Effect.upstreamSend "unsubscribeTokenTrade" [t] := by
  unfold removeClients
  generalize hacc : (s, ([] : List Effect)) = acc
  have h0 : ∀ e ∈ acc.2, ∃ t, e = Effect.upstreamSend "unsubscribeTokenTrade" [t] := by
    subst hacc; intro e he; simp at he
  clear hacc
  induction dead generalizing acc with
  | nil => exact h0
  | cons c dead ih =>
    apply ih
    intro e he
    rcases List.mem_append.mp he with h1 | h1
    · exact h0 e h1
    · exact removeClient_effects_upstream acc.1 c e h1

/-- The envelopes `broadcastToToken` writes: one to each subscriber of the topic whose
socket is open and whose `send` returns, and no other. -/
theorem mem_broadcastToToken_send (s : TradesWebSocketServer) (env : ClientEnv)
    (tokenAddress : JSValue) (message : Envelope) (c : Client) (m : Envelope) :
    Effect.send c m ∈ (broadcastToToken s env tokenAddress message).2
      ↔ m = message ∧ c ∈ (getSubscribers s tokenAddress).getD [] ∧ env.delivers c = true := by
  unfold broadcastToToken
  cases hg : getSubscribers s tokenAddress with
  | none => simp
  | some subscribers =>
    simp only [Option.getD_some]
    split
    · rename_i hz
      have hnil : subscribers = [] := List.length_eq_zero.mp hz
      simp [hnil]
    · simp only [List.mem_append, List.mem_map, List.mem_filter]
      constructor
      · rintro (⟨d, ⟨hd, hdel⟩, heq⟩ | hrem)
        · injection heq with h1 h2
          subst h1; subst h2
          exact ⟨rfl, hd, hdel⟩
        · obtain ⟨t, ht⟩ := removeClients_effects_upstream s _ _ hrem
          cases ht
      · rintro ⟨rfl, hc, hdel⟩
        exact Or.inl ⟨c, ⟨hc, hdel⟩, rfl⟩

end TradesWebSocketServer

/-- C4, as amended: for a parseable upstream message whose resolved topic is `T`, the
message handler returns normally and writes the trade envelope to exactly the clients
that are bound to `T`, whose socket is OPEN and whose `send` does not throw; no other
client, in particular none bound only to other topics, is written to. -/
theorem C4_fanout_to_open_subscribers (w : World) (hw : Reachable w) (env : ClientEnv)
    (message : Message) (T : JSValue) (hT : tokenAddressOf message = .ok T)
    (htruthy : T.truthy = true) :
    ∃ r, onPumpPortalMessage w.server env (Frame.json message) = .ok r
      ∧ ∀ c m, Effect.send c m ∈ r.2
          ↔ m = Envelope.trade T message
            ∧ (∃ t, T = JSValue.string t ∧ t ∈ w.server.topicsOf c)
            ∧ env.delivers c = true := by
  refine ⟨broadcastToToken w.server env T (Envelope.trade T message), ?_, ?_⟩
  · simp [onPumpPortalMessage, onPumpPortalMessageTry, JSONparse, hT, htruthy]
  · intro c m
    rw [mem_broadcastToToken_send]
    have hb := hw.inv.consistent.bound c
    have hbound : c ∈ (getSubscribers w.server T).getD []
        ↔ ∃ t, T = JSValue.string t ∧ t ∈ w.server.topicsOf c := by
      cases T with
      | string t =>
        simp only [getSubscribers, JSValue.string.injEq, exists_eq_left']
        exact (hb t).symm
      | undefined => simp [getSubscribers]
      | null => simp [getSubscribers]
      | bool b => simp [getSubscribers]
      | number n => simp [getSubscribers]
      | object r => simp [getSubscribers]
    rw [hbound]

/-- Witness for C4 as amended: clients 0 and 1 are bound to "MINT1", client 2 to "MINT2";
a "MINT1" trade arrives while the socket of client 1 is not open. -/
theorem C4_fanout_to_open_subscribers_witness :
    ∃ r, onPumpPortalMessage
        (run init [Event.connection (some "MINT1") false, Event.connection (some "MINT1") false,
          Event.connection (some "MINT2") false]).server
        { notOpen := [1], sendThrows := [] }
        (Frame.json (Message.object (JSValue.string "MINT1") JSValue.undefined
          JSValue.undefined 0)) = .ok r
      ∧ ∀ c m, Effect.send c m ∈ r.2
          ↔ m = Envelope.trade (JSValue.string "MINT1")
                (Message.object (JSValue.string "MINT1") JSValue.undefined JSValue.undefined 0)
            ∧ (∃ t, JSValue.string "MINT1" = JSValue.string t
                ∧ t ∈ (run init [Event.connection (some "MINT1") false,
                    Event.connection (some "MINT1") false,
                    Event.connection (some "MINT2") false]).server.topicsOf c)
            ∧ ClientEnv.delivers { notOpen := [1], sendThrows := [] } c = true :=
  C4_fanout_to_open_subscribers _ ⟨_, rfl⟩ _ _ _ rfl rfl

/-- C4 as stated fails: client 0 is bound to "MINT1", yet a "MINT1" message that arrives
while its socket is not OPEN is written to no client at all. -/
theorem C4_counterexample :
    Reachable (run init [Event.connection (some "MINT1") false])
      ∧ "MINT1" ∈ (run init [Event.connection (some "MINT1") false]).server.topicsOf 0
      ∧ 0 ∈ (run init [Event.connection (some "MINT1") false]).server.subscribersOf "MINT1"
      ∧ tokenAddressOf (Message.object (JSValue.string "MINT1") JSValue.undefined
          JSValue.undefined 0) = .ok (JSValue.string "MINT1")
      ∧ ((run init [Event.connection (some "MINT1") false]).step
          (Event.upstreamMessage
            (Frame.json (Message.object (JSValue.string "MINT1") JSValue.undefined
              JSValue.undefined 0))
            { notOpen := [0], sendThrows := [] })).2 = [] := by
  refine ⟨⟨_, rfl⟩, by decide, by decide, rfl, by decide⟩

/-- C5: on every upstream `open` event in a reachable state, if `tokenSubscriptions` is
non-empty exactly one frame is written upstream, a `subscribeTokenTrade` whose keys are
the keys of `tokenSubscriptions`, each once; if it is empty nothing is written.  The
frame is the only one on the new connection, and the registries are unchanged. -/
theorem C5_replay_on_open (w : World) (hw : Reachable w)
    (hcon : w.server.pumpPortalWs = some ReadyState.CONNECTING) :
    (w.step Event.upstreamOpen).2
        = (if JSMap.keys w.server.tokenSubscriptions = [] then []
           else [Effect.upstreamSend "subscribeTokenTrade"
                  (JSMap.keys w.server.tokenSubscriptions)])
      ∧ (JSMap.keys w.server.tokenSubscriptions).Nodup
      ∧ (w.step Event.upstreamOpen).1.upstreamLog = (w.step Event.upstreamOpen).2
      ∧ (w.step Event.upstreamOpen).1.server.tokenSubscriptions = w.server.tokenSubscriptions
      ∧ (w.step Event.upstreamOpen).1.server.clients = w.server.clients := by
  have hlog := hw.inv.unused hcon
  refine ⟨?_, hw.inv.consistent.topicKeys, ?_, ?_, ?_⟩
  · simp only [step, hcon, if_true, commit, onPumpPortalOpen]
    cases hk : JSMap.keys w.server.tokenSubscriptions with
    | nil => simp
    | cons a l => simp [subscribeToTokens, upstreamOpen]
  · simp only [step, hcon, if_true, commit, onPumpPortalOpen, hlog]
    cases hk : JSMap.keys w.server.tokenSubscriptions with
    | nil => simp
    | cons a l => simp [subscribeToTokens, upstreamOpen, Effect.isUpstream]
  · simp only [step, hcon, if_true, commit, onPumpPortalOpen]
    split <;> rfl
  · simp only [step, hcon, if_true, commit, onPumpPortalOpen]
    split <;> rfl

/-- Witness for C5: "MINT1" and "MINT2" are active, the upstream drops and reconnects
twice; the second `open` replays both keys in one frame. -/
theorem C5_replay_on_open_witness :
    (run init [Event.upstreamOpen, Event.connection (some "MINT1") false,
        Event.connection (some "MINT2") false, Event.upstreamClose, Event.reconnectTimer,
        Event.upstreamOpen, Event.upstreamClose, Event.reconnectTimer]).server.pumpPortalWs
        = some ReadyState.CONNECTING
      ∧ ((run init [Event.upstreamOpen, Event.connection (some "MINT1") false,
        Event.connection (some "MINT2") false, Event.upstreamClose, Event.reconnectTimer,
        Event.upstreamOpen, Event.upstreamClose, Event.reconnectTimer]).step
          Event.upstreamOpen).2
        = [Effect.upstreamSend "subscribeTokenTrade" ["MINT1", "MINT2"]] :=
  ⟨by decide, (C5_replay_on_open _ ⟨_, rfl⟩ (by decide)).1⟩

/-- C6: in a state with consistent registries (every reachable state is one, as are the
states between the removals of a sweep or a broadcast), a bind to a topic that already
has an entry writes nothing upstream, and any frame a bind writes upstream is the
subscribe for its topic `T`, sent when `T` had no subscriber; any frame `removeClient`
writes upstream is the unsubscribe for a topic whose only subscriber was the removed
client, and removing a client from a topic that has another subscriber writes nothing
upstream. -/
theorem C6_upstream_only_on_transitions (s : TradesWebSocketServer) (h : s.Consistent)
    (ws : Client) (T : Topic) (thr : Bool) :
    (T ∈ JSMap.keys s.tokenSubscriptions →
        ∀ e ∈ (acceptConnection s ws T thr).2, Effect.isUpstream e = false)
      ∧ (∀ e ∈ (acceptConnection s ws T thr).2, Effect.isUpstream e = true →
          e = Effect.upstreamSend "subscribeTokenTrade" [T] ∧ s.subscribersOf T = []
            ∧ T ∉ JSMap.keys s.tokenSubscriptions)
      ∧ (∀ e ∈ (removeClient s ws).2,
          ∃ t, e = Effect.upstreamSend "unsubscribeTokenTrade" [t] ∧ s.subscribersOf t = [ws])
      ∧ (T ∈ s.topicsOf ws → (∃ c ∈ s.subscribersOf T, c ≠ ws) →
          (removeClient s ws).2 = []) := by
  have hsend : ∀ e ∈ (if thr then [] else [Effect.send ws (Envelope.connection T)]),
      Effect.isUpstream e = false := by
    intro e he
    split at he
    · simp at he
    · simp at he; subst he; rfl
  refine ⟨?_, ?_, ?_, ?_⟩
  · intro hk e he
    have hh : JSMap.has s.tokenSubscriptions T = true := (JSMap.has_iff _ _).mpr hk
    unfold acceptConnection at he
    simp only [hh, if_true, List.nil_append] at he
    exact hsend e he
  · intro e he hup
    unfold acceptConnection at he
    simp only [List.mem_append] at he
    rcases he with he | he
    · split at he
      · simp at he
      · rename_i hh
        have hk : T ∉ JSMap.keys s.tokenSubscriptions := fun hk => hh ((JSMap.has_iff _ _).mpr hk)
        unfold subscribeToToken at he
        split at he
        · simp at he
          refine ⟨he, ?_, hk⟩
          by_contra hne
          exact hk ((h.mem_keys_iff_subscribers T).mpr hne)
        · simp at he
    · rw [hsend e he] at hup
      simp at hup
  · intro e he
    cases hg : JSMap.get s.clients ws with
    | none =>
      rw [removeClient_effects_unbound s ws hg] at he
      simp at he
    | some ts =>
      obtain ⟨t, rfl⟩ := h.single ws ts hg
      have ht : t ∈ s.topicsOf ws := by unfold topicsOf; rw [hg]; simp
      rw [removeClient_effects h ht] at he
      split at he
      · rename_i hs
        unfold unsubscribeFromToken at he
        split at he
        · simp at he; exact ⟨t, he, hs⟩
        · simp at he
      · simp at he
  · intro ht hother
    rw [removeClient_effects h ht]
    obtain ⟨c, hc, hne⟩ := hother
    have hs : ¬ s.subscribersOf T = [ws] := by
      intro hs
      rw [hs] at hc
      simp at hc
      exact hne hc
    simp [hs]

/-- Witness for C6: the upstream is open, clients 0 and 1 are bound to "MINT1". -/
theorem C6_upstream_only_on_transitions_witness :
    (run init [Event.upstreamOpen, Event.connection (some "MINT1") false,
        Event.connection (some "MINT1") false]).server.Consistent
      ∧ (acceptConnection (run init [Event.upstreamOpen, Event.connection (some "MINT1") false,
          Event.connection (some "MINT1") false]).server 2 "MINT1" false).2
          = [Effect.send 2 (Envelope.connection "MINT1")]
      ∧ (removeClient (run init [Event.upstreamOpen, Event.connection (some "MINT1") false,
          Event.connection (some "MINT1") false]).server 0).2 = [] :=
  ⟨(Reachable.inv ⟨_, rfl⟩).consistent, by decide,
    (C6_upstream_only_on_transitions _ (Reachable.inv ⟨_, rfl⟩).consistent 0 "MINT1" false).2.2.2
      (by decide) ⟨1, by decide, by decide⟩⟩

/-- C7, as amended: when a client connects with a non-empty token `T` that has no entry in
`tokenSubscriptions`, the handler returns normally; an entry for `T` is created, and in
the state where that entry is still empty the subscribe for `T` is issued, which is the
frame `subscribeTokenTrade [T]` if the upstream socket is OPEN and nothing otherwise;
it comes before the `connection` envelope, and afterwards the set of `T` holds `ws` alone. -/
theorem C7_first_bind (s : TradesWebSocketServer) (ws : Client) (T : Topic) (thr : Bool)
    (hT : T ≠ "") (hnew : JSMap.has s.tokenSubscriptions T = false) :
    onConnection s ws (some T) thr = .ok (acceptConnection s ws T thr)
      ∧ T ∈ JSMap.keys (bindClient s ws T).tokenSubscriptions
      ∧ (bindClient s ws T).subscribersOf T = []
      ∧ (acceptConnection s ws T thr).2
          = subscribeToToken (bindClient s ws T) T
            ++ (if thr then [] else [Effect.send ws (Envelope.connection T)])
      ∧ (s.pumpPortalWs = some ReadyState.OPEN →
          subscribeToToken (bindClient s ws T) T
            = [Effect.upstreamSend "subscribeTokenTrade" [T]])
      ∧ (s.pumpPortalWs ≠ some ReadyState.OPEN → subscribeToToken (bindClient s ws T) T = [])
      ∧ (acceptConnection s ws T thr).1.subscribersOf T = [ws] := by
  have hnone : JSMap.get s.tokenSubscriptions T = none := by
    unfold JSMap.has at hnew
    cases hg : JSMap.get s.tokenSubscriptions T with
    | none => rfl
    | some v => rw [hg] at hnew; simp at hnew
  have hsub : s.subscribersOf T = [] := by unfold subscribersOf; rw [hnone]; rfl
  have hb := bindClient_fields s ws T
  refine ⟨?_, mem_keys_bindClient s ws T, ?_, ?_, ?_, ?_, ?_⟩
  · simp [onConnection, JSValue.truthy, hT]
  · unfold subscribersOf
    rw [bindClient_get_subs]
    simp [hsub]
  · unfold acceptConnection
    simp [hnew]
  · intro ho
    simp [subscribeToToken, upstreamOpen, hb.2.1, ho]
  · intro ho
    simp [subscribeToToken, upstreamOpen, hb.2.1, ho]
  · unfold subscribersOf
    rw [acceptConnection_get_subs]
    simp [hsub, JSSet.add]

/-- Witness for C7 as amended: the first client for "MINT1" after the upstream opened. -/
theorem C7_first_bind_witness :
    (acceptConnection (run init [Event.upstreamOpen]).server 0 "MINT1" false).2
        = subscribeToToken (bindClient (run init [Event.upstreamOpen]).server 0 "MINT1") "MINT1"
          ++ (if false then [] else [Effect.send 0 (Envelope.connection "MINT1")])
      ∧ subscribeToToken (bindClient (run init [Event.upstreamOpen]).server 0 "MINT1") "MINT1"
        = [Effect.upstreamSend "subscribeTokenTrade" ["MINT1"]]
      ∧ (acceptConnection (run init [Event.upstreamOpen]).server 0 "MINT1" false).1.subscribersOf
          "MINT1" = [0] :=
  ⟨(C7_first_bind (run init [Event.upstreamOpen]).server 0 "MINT1" false
      (by decide) (by decide)).2.2.2.1,
    (C7_first_bind (run init [Event.upstreamOpen]).server 0 "MINT1" false
      (by decide) (by decide)).2.2.2.2.1 (by decide),
    (C7_first_bind (run init [Event.upstreamOpen]).server 0 "MINT1" false
      (by decide) (by decide)).2.2.2.2.2.2⟩

/-- C7 as stated fails: right after start the upstream socket is still connecting; the
first client for "MINT1" gets its entry and its `connection` envelope, but no
`subscribeTokenTrade` frame is issued. -/
theorem C7_counterexample :
    JSMap.has init.server.tokenSubscriptions "MINT1" = false
      ∧ (init.step (Event.connection (some "MINT1") false)).2
          = [Effect.send 0 (Envelope.connection "MINT1")]
      ∧ (init.step (Event.connection (some "MINT1") false)).1.server.tokenSubscriptions
          = [("MINT1", [0])]
      ∧ Effect.upstreamSend "subscribeTokenTrade" ["MINT1"]
          ∉ (init.step (Event.connection (some "MINT1") false)).2 := by
  refine ⟨by decide, by decide, by decide, by decide⟩

/-- C8, as amended: in a state with consistent registries, when `removeClient` removes the
only subscriber of `T`, the entry of `T` is deleted and the unsubscribe for `T` is issued:
exactly the one frame `unsubscribeTokenTrade [T]` if the upstream socket is OPEN, and
nothing if it is not. -/
theorem C8_last_unbind (s : TradesWebSocketServer) (h : s.Consistent) (ws : Client) (T : Topic)
    (honly : s.subscribersOf T = [ws]) :
    T ∉ JSMap.keys (removeClient s ws).1.tokenSubscriptions
      ∧ (removeClient s ws).2 = unsubscribeFromToken s T
      ∧ (s.pumpPortalWs = some ReadyState.OPEN →
          (removeClient s ws).2 = [Effect.upstreamSend "unsubscribeTokenTrade" [T]])
      ∧ (s.pumpPortalWs ≠ some ReadyState.OPEN → (removeClient s ws).2 = []) := by
  have hin : ws ∈ s.subscribersOf T := by rw [honly]; simp
  have ht : T ∈ s.topicsOf ws := (h.bound ws T).mpr hin
  have heff : (removeClient s ws).2 = unsubscribeFromToken s T := by
    rw [removeClient_effects h ht]
    simp [honly]
  refine ⟨?_, heff, ?_, ?_⟩
  · rw [JSMap.not_mem_keys_iff, removeClient_get_subs]
    simp only [ht, if_true]
    unfold subscribersOf at honly
    cases hg : JSMap.get s.tokenSubscriptions T with
    | none => rfl
    | some subs =>
      rw [hg] at honly
      simp only [Option.getD_some] at honly
      subst honly
      simp [prune, JSSet.delete, JSSet.size]
  · intro ho
    rw [heff]
    simp [unsubscribeFromToken, upstreamOpen, ho]
  · intro ho
    rw [heff]
    simp [unsubscribeFromToken, upstreamOpen, ho]

/-- Witness for C8 as amended: the upstream is open and client 0 is the only subscriber of
"MINT1". -/
theorem C8_last_unbind_witness :
    (run init [Event.upstreamOpen, Event.connection (some "MINT1") false]).server.subscribersOf
        "MINT1" = [0]
      ∧ (removeClient
          (run init [Event.upstreamOpen, Event.connection (some "MINT1") false]).server 0).2
        = [Effect.upstreamSend "unsubscribeTokenTrade" ["MINT1"]] :=
  ⟨by decide,
    (C8_last_unbind _ (Reachable.inv ⟨_, rfl⟩).consistent 0 "MINT1" (by decide)).2.2.1
      (by decide)⟩

/-- C8 as stated fails: client 0 bound to "MINT1" while the upstream socket was still
connecting; when it closes, the entry is deleted but no `unsubscribeTokenTrade` frame is
issued. -/
theorem C8_counterexample :
    (run init [Event.connection (some "MINT1") false]).server.subscribersOf "MINT1" = [0]
      ∧ (removeClient (run init [Event.connection (some "MINT1") false]).server 0).2 = []
      ∧ (removeClient
          (run init [Event.connection (some "MINT1") false]).server 0).1.tokenSubscriptions = []
      ∧ ((run init [Event.connection (some "MINT1") false]).step (Event.clientClose 0)).2 = [] := by
  refine ⟨by decide, by decide, by decide, by decide⟩

/-- C9: for every parsed upstream message the handler returns normally; it broadcasts
under the resolved topic, the first non-empty value among `mint`, `token`, `address` in
that order, and when no candidate is non-empty it sends nothing and leaves the state as
it was.  Non-empty is JavaScript truthiness: a string counts unless it is `""`, and an
absent field (`undefined`) or `null` does not. -/
theorem C9_topic_extraction (s : TradesWebSocketServer) (env : ClientEnv) (message : Message) :
    onPumpPortalMessage s env (Frame.json message)
        = .ok (match resolvedTopic message with
            | some T => broadcastToToken s env T (Envelope.trade T message)
            | none => (s, []))
      ∧ (∀ mint token address payload,
          resolvedTopic (Message.object mint token address payload)
            = if mint.truthy then some mint
              else if token.truthy then some token
              else if address.truthy then some address
              else none)
      ∧ (∀ payload, resolvedTopic (Message.scalar payload) = none)
      ∧ resolvedTopic Message.null = none
      ∧ (∀ t : String, (JSValue.string t).truthy = true ↔ t ≠ "")
      ∧ JSValue.undefined.truthy = false
      ∧ JSValue.null.truthy = false := by
  refine ⟨?_, ?_, fun _ => rfl, rfl, ?_, rfl, rfl⟩
  · cases message with
    | null => rfl
    | scalar payload => rfl
    | object mint token address payload =>
      simp only [onPumpPortalMessage, onPumpPortalMessageTry, JSONparse, tokenAddressOf,
        resolvedTopic, Message.candidates, JSValue.or]
      by_cases hm : mint.truthy = true
      · simp [hm]
      · by_cases ht : token.truthy = true
        · simp [hm, ht]
        · by_cases ha : address.truthy = true
          · simp [hm, ht, ha]
          · simp [hm, ht, ha]
  · intro mint token address payload
    simp only [resolvedTopic, Message.candidates]
    by_cases hm : mint.truthy = true
    · simp [hm]
    · by_cases ht : token.truthy = true
      · simp [hm, ht]
      · by_cases ha : address.truthy = true
        · simp [hm, ht, ha]
        · simp [hm, ht, ha]
  · intro t
    simp [JSValue.truthy]

theorem reconnectDelay_mono {i j : Nat} (h : i ≤ j) : reconnectDelay i ≤ reconnectDelay j := by
  unfold reconnectDelay
  exact min_le_min (Nat.mul_le_mul_left _ (Nat.pow_le_pow_right (by norm_num) h)) le_rfl

theorem closeDelays_eq (maxReconnectAttempts attempts n : Nat) :
    closeDelays maxReconnectAttempts attempts n
      = (List.range' (attempts + 1) (min n (maxReconnectAttempts - attempts))).map
          reconnectDelay := by
  induction n generalizing attempts with
  | zero => simp [closeDelays]
  | succ n ih =>
    by_cases hlt : attempts < maxReconnectAttempts
    · have hmin : min (n + 1) (maxReconnectAttempts - attempts)
          = min n (maxReconnectAttempts - (attempts + 1)) + 1 := by omega
      simp only [closeDelays, closeHandler, hlt, if_true, ih, hmin, List.range'_succ,
        List.map_cons]
    · have hzero : maxReconnectAttempts - attempts = 0 := by omega
      simp only [closeDelays, closeHandler, hlt, if_false, ih, hzero, Nat.min_zero,
        List.range'_zero, List.map_nil]

/-- C10: over any run of `n` consecutive upstream closes without an `open` in between, from
any value of the attempt counter, the delays scheduled by the close handler shared by
the relays are `min(1000 * 2^k, 30000)` for the successive values `k` of
`reconnectAttempts` (read after its increment), they are non-decreasing, and none
exceeds 30000 ms.  The close handler of the trades relay schedules exactly these. -/
theorem C10_backoff_monotone_capped (maxReconnectAttempts attempts n : Nat) :
    closeDelays maxReconnectAttempts attempts n
        = (List.range' (attempts + 1) (min n (maxReconnectAttempts - attempts))).map
            (fun k => min (1000 * 2 ^ k) 30000)
      ∧ (closeDelays maxReconnectAttempts attempts n).Pairwise (fun a b => a ≤ b)
      ∧ (∀ d ∈ closeDelays maxReconnectAttempts attempts n, d ≤ 30000)
      ∧ (∀ s : TradesWebSocketServer,
          (onPumpPortalClose s).2
              = (closeDelays s.maxReconnectAttempts s.reconnectAttempts 1).map Effect.setTimeout
            ∧ (onPumpPortalClose s).1.reconnectAttempts
              = (closeHandler s.reconnectAttempts s.maxReconnectAttempts).1) := by
  refine ⟨closeDelays_eq _ _ _, ?_, ?_, ?_⟩
  · rw [closeDelays_eq, List.pairwise_map]
    exact (List.pairwise_lt_range' (attempts + 1) _).imp
      (fun hab => reconnectDelay_mono (Nat.le_of_lt hab))
  · intro d hd
    rw [closeDelays_eq] at hd
    obtain ⟨k, _, rfl⟩ := List.mem_map.mp hd
    exact min_le_right _ _
  · intro s
    by_cases hlt : s.reconnectAttempts < s.maxReconnectAttempts
    · simp [onPumpPortalClose, closeDelays, closeHandler, hlt]
    · simp [onPumpPortalClose, closeDelays, closeHandler, hlt]

end GrokTrader

/-! ## The attempt counter, the liveness sweep, batching and the validation of amounts -/

namespace GrokTrader
open TradesWebSocketServer World

namespace TradesWebSocketServer

/-- What the handlers that only remove clients leave alone. -/
theorem removeClients_fields (s : TradesWebSocketServer) (dead : List Client) :
    (removeClients s dead).1.wssClients = s.wssClients
      ∧ (removeClients s dead).1.pumpPortalWs = s.pumpPortalWs
      ∧ (removeClients s dead).1.reconnectAttempts = s.reconnectAttempts
      ∧ (removeClients s dead).1.maxReconnectAttempts = s.maxReconnectAttempts
      ∧ ∀ c ∈ JSMap.keys (removeClients s dead).1.clients, c ∈ JSMap.keys s.clients := by
  unfold removeClients
  generalize hacc : (s, ([] : List Effect)) = acc
  have hs : s = acc.1 := by rw [← hacc]
  rw [hs]
  clear hacc hs
  induction dead generalizing acc with
  | nil => simp
  | cons c dead ih =>
    simp only [List.foldl_cons]
    have h1 := ih ((removeClient acc.1 c).1, acc.2 ++ (removeClient acc.1 c).2)
    have h2 := removeClient_fields acc.1 c
    refine ⟨h1.1.trans h2.1, h1.2.1.trans h2.2.1, h1.2.2.1.trans h2.2.2.1,
      h1.2.2.2.1.trans h2.2.2.2, ?_⟩
    intro x hx
    have hx2 := h1.2.2.2.2 x hx
    simp only [removeClient_keys] at hx2
    exact (List.mem_filter.mp hx2).1

theorem broadcastToToken_fields (s : TradesWebSocketServer) (env : ClientEnv)
    (tokenAddress : JSValue) (message : Envelope) :
    (broadcastToToken s env tokenAddress message).1.wssClients = s.wssClients
      ∧ (broadcastToToken s env tokenAddress message).1.pumpPortalWs = s.pumpPortalWs
      ∧ (broadcastToToken s env tokenAddress message).1.reconnectAttempts = s.reconnectAttempts
      ∧ (broadcastToToken s env tokenAddress message).1.maxReconnectAttempts
          = s.maxReconnectAttempts
      ∧ ∀ c ∈ JSMap.keys (broadcastToToken s env tokenAddress message).1.clients,
          c ∈ JSMap.keys s.clients := by
  unfold broadcastToToken
  cases getSubscribers s tokenAddress with
  | none => simp
  | some subscribers =>
    simp only
    split
    · simp
    · exact removeClients_fields s _

theorem onPumpPortalMessage_fields (s : TradesWebSocketServer) (env : ClientEnv) (data : Frame)
    (r : TradesWebSocketServer × List Effect) (hr : onPumpPortalMessage s env data = .ok r) :
    r.1.wssClients = s.wssClients
      ∧ r.1.pumpPortalWs = s.pumpPortalWs
      ∧ r.1.reconnectAttempts = s.reconnectAttempts
      ∧ r.1.maxReconnectAttempts = s.maxReconnectAttempts
      ∧ ∀ c ∈ JSMap.keys r.1.clients, c ∈ JSMap.keys s.clients := by
  unfold onPumpPortalMessage at hr
  cases ht : onPumpPortalMessageTry s env data with
  | error e =>
    rw [ht] at hr
    injection hr with hr
    subst hr
    simp
  | ok r1 =>
    rw [ht] at hr
    injection hr with hr
    subst hr
    unfold onPumpPortalMessageTry at ht
    cases hp : JSONparse data with
    | error e => rw [hp] at ht; simp at ht
    | ok message =>
      rw [hp] at ht
      simp only at ht
      cases hta : tokenAddressOf message with
      | error e => rw [hta] at ht; simp at ht
      | ok tokenAddress =>
        rw [hta] at ht
        simp only at ht
        split at ht
        · injection ht with ht; subst ht
          exact broadcastToToken_fields s env _ _
        · injection ht with ht; subst ht; simp

theorem sweepOne_fields (acc : TradesWebSocketServer × List Effect) (c : Socket) :
    (sweepOne acc c).1.pumpPortalWs = acc.1.pumpPortalWs
      ∧ (sweepOne acc c).1.reconnectAttempts = acc.1.reconnectAttempts
      ∧ (sweepOne acc c).1.maxReconnectAttempts = acc.1.maxReconnectAttempts
      ∧ ∀ x ∈ JSMap.keys (sweepOne acc c).1.clients, x ∈ JSMap.keys acc.1.clients := by
  unfold sweepOne
  split
  · have h := removeClient_fields acc.1 c.ws
    refine ⟨h.2.1, h.2.2.1, h.2.2.2, ?_⟩
    intro x hx
    simp only [removeClient_keys] at hx
    exact (List.mem_filter.mp hx).1
  · simp

theorem sweep_fields (s : TradesWebSocketServer) :
    (sweep s).1.pumpPortalWs = s.pumpPortalWs
      ∧ (sweep s).1.reconnectAttempts = s.reconnectAttempts
      ∧ (sweep s).1.maxReconnectAttempts = s.maxReconnectAttempts
      ∧ ∀ x ∈ JSMap.keys (sweep s).1.clients, x ∈ JSMap.keys s.clients := by
  unfold sweep
  generalize s.wssClients = cs
  generalize hacc : (s, ([] : List Effect)) = acc
  have hs : s = acc.1 := by rw [← hacc]
  rw [hs]
  clear hacc hs
  induction cs generalizing acc with
  | nil => simp
  | cons c cs ih =>
    simp only [List.foldl_cons]
    have h1 := ih (sweepOne acc c)
    have h2 := sweepOne_fields acc c
    exact ⟨h1.1.trans h2.1, h1.2.1.trans h2.2.1, h1.2.2.1.trans h2.2.2.1,
      fun x hx => h2.2.2.2 x (h1.2.2.2 x hx)⟩

theorem onPumpPortalClose_fields (s : TradesWebSocketServer) :
    (onPumpPortalClose s).1.maxReconnectAttempts = s.maxReconnectAttempts
      ∧ (onPumpPortalClose s).1.pumpPortalWs = s.pumpPortalWs
      ∧ (onPumpPortalClose s).1.reconnectAttempts
          = (closeHandler s.reconnectAttempts s.maxReconnectAttempts).1
      ∧ (onPumpPortalClose s).2
          = (match (closeHandler s.reconnectAttempts s.maxReconnectAttempts).2 with
             | some delay => [Effect.setTimeout delay]
             | none => [])
      ∧ (onPumpPortalClose s).1.clients = s.clients
      ∧ (onPumpPortalClose s).1.tokenSubscriptions = s.tokenSubscriptions
      ∧ (onPumpPortalClose s).1.wssClients = s.wssClients := by
  by_cases hlt : s.reconnectAttempts < s.maxReconnectAttempts
  · simp [onPumpPortalClose, closeHandler, hlt]
  · simp [onPumpPortalClose, closeHandler, hlt]

end TradesWebSocketServer

namespace World

/-- Every event other than the four of the upstream socket's life cycle leaves the
upstream socket, the attempt counter, its bound and the timer as they were. -/
theorem step_link (w : World) (e : Event) (h1 : e ≠ Event.upstreamOpen)
    (h2 : e ≠ Event.upstreamClosing) (h3 : e ≠ Event.upstreamClose)
    (h4 : e ≠ Event.reconnectTimer) :
    (w.step e).1.server.pumpPortalWs = w.server.pumpPortalWs
      ∧ (w.step e).1.server.reconnectAttempts = w.server.reconnectAttempts
      ∧ (w.step e).1.server.maxReconnectAttempts = w.server.maxReconnectAttempts
      ∧ (w.step e).1.timer = w.timer := by
  cases e with
  | connection token thr =>
    simp only [step]
    cases hres : onConnection { w.server with wssClients := w.server.wssClients
        ++ [{ ws := w.nextWs, isAlive := none, handlers := false }] } w.nextWs token thr with
    | error err => simp
    | ok r =>
      simp only [commit]
      have hrej : ∀ s1 : TradesWebSocketServer × List Effect,
          rejectConnection { w.server with wssClients := w.server.wssClients
            ++ [{ ws := w.nextWs, isAlive := none, handlers := false }] } w.nextWs thr
            = .ok s1 →
          s1.1.pumpPortalWs = w.server.pumpPortalWs
            ∧ s1.1.reconnectAttempts = w.server.reconnectAttempts
            ∧ s1.1.maxReconnectAttempts = w.server.maxReconnectAttempts := by
        intro s1 hs1
        unfold rejectConnection at hs1
        split at hs1
        · simp at hs1
        · injection hs1 with hs1; subst hs1; simp
      unfold onConnection at hres
      cases token with
      | none => have := hrej r hres; exact ⟨this.1, this.2.1, this.2.2, trivial⟩
      | some t =>
        simp only at hres
        split at hres
        · injection hres with hres
          subst hres
          exact ⟨(acceptConnection_fields _ w.nextWs t thr).2.1,
            (acceptConnection_fields _ w.nextWs t thr).2.2.1,
            (acceptConnection_fields _ w.nextWs t thr).2.2.2, trivial⟩
        · have := hrej r hres; exact ⟨this.1, this.2.1, this.2.2, trivial⟩
  | clientClose ws =>
    simp only [step]
    cases w.socket ws with
    | none => simp
    | some c =>
      simp only
      split
      · exact ⟨(removeClient_fields _ ws).2.1, (removeClient_fields _ ws).2.2.1,
          (removeClient_fields _ ws).2.2.2, rfl⟩
      · simp
  | clientError ws =>
    simp only [step]
    cases w.socket ws with
    | none => simp
    | some c =>
      simp only
      split
      · exact ⟨(removeClient_fields _ ws).2.1, (removeClient_fields _ ws).2.2.1,
          (removeClient_fields _ ws).2.2.2, rfl⟩
      · simp
  | pong ws =>
    simp only [step]
    cases w.socket ws with
    | none => simp
    | some c =>
      simp only
      split <;> simp
  | sweep =>
    have hf := sweep_fields w.server
    exact ⟨hf.1, hf.2.1, hf.2.2.1, rfl⟩
  | upstreamOpen => exact absurd rfl h1
  | upstreamMessage data env =>
    simp only [step]
    obtain ⟨r, hr⟩ := onPumpPortalMessage_ok w.server env data
    rw [hr]
    have hf := onPumpPortalMessage_fields w.server env data r hr
    exact ⟨hf.2.1, hf.2.2.1, hf.2.2.2.1, rfl⟩
  | upstreamError => simp [step]
  | upstreamClosing => exact absurd rfl h2
  | upstreamClose => exact absurd rfl h3
  | reconnectTimer => exact absurd rfl h4

theorem bounded_init : Bounded init :=
  ⟨rfl, by decide, fun _ => rfl⟩

theorem bounded_step (w : World) (e : Event) (h : Bounded w) : Bounded (w.step e).1 := by
  by_cases h1 : e = Event.upstreamOpen
  · subst h1
    simp only [step]
    split
    · simp only [commit, onPumpPortalOpen]
      split
      · exact ⟨h.bound, by simp, fun _ => h.idle (by simp [*])⟩
      · exact ⟨h.bound, by simp, fun _ => h.idle (by simp [*])⟩
    · exact h
  by_cases h2 : e = Event.upstreamClosing
  · subst h2
    simp only [step]
    split
    · rename_i hc
      refine ⟨h.bound, h.counter, fun _ => h.idle ?_⟩
      rcases hc with hc | hc <;> simp [hc]
    · exact h
  by_cases h3 : e = Event.upstreamClose
  · subst h3
    simp only [step]
    split
    · exact h
    · have hf := onPumpPortalClose_fields { w.server with pumpPortalWs := some ReadyState.CLOSED }
      refine ⟨hf.1.trans h.bound, ?_, ?_⟩
      · rw [hf.2.2.1]
        have hc := h.counter
        have hb := h.bound
        simp only [closeHandler]
        split
        · rename_i hlt
          have : w.server.reconnectAttempts < 10 := hb ▸ hlt
          exact this
        · exact hc
      · intro hne
        exact absurd hf.2.1 hne
  by_cases h4 : e = Event.reconnectTimer
  · subst h4
    simp only [step]
    cases w.timer with
    | none => exact h
    | some d => exact ⟨h.bound, h.counter, fun _ => rfl⟩
  have hl := step_link w e h1 h2 h3 h4
  exact ⟨hl.2.2.1.trans h.bound, hl.2.1 ▸ h.counter, fun hne => by
    rw [hl.2.2.2]
    exact h.idle (by rw [← hl.1]; exact hne)⟩

theorem Reachable.bounded {w : World} (h : Reachable w) : Bounded w :=
  Reachable.induction bounded_init (fun w e _ hw => bounded_step w e hw) w h

/-- After an `open`, and until the next `close`, the counter stays at 0, the upstream
socket stays open or closing, and no timer is pending. -/
theorem rested_step (w : World) (e : Event) (he : e ≠ Event.upstreamClose)
    (h : w.server.reconnectAttempts = 0 ∧ w.server.maxReconnectAttempts = 10
      ∧ (w.server.pumpPortalWs = some ReadyState.OPEN
          ∨ w.server.pumpPortalWs = some ReadyState.CLOSING)
      ∧ w.timer = none) :
    (w.step e).1.server.reconnectAttempts = 0 ∧ (w.step e).1.server.maxReconnectAttempts = 10
      ∧ ((w.step e).1.server.pumpPortalWs = some ReadyState.OPEN
          ∨ (w.step e).1.server.pumpPortalWs = some ReadyState.CLOSING)
      ∧ (w.step e).1.timer = none := by
  obtain ⟨h0, hm, hp, ht⟩ := h
  by_cases h1 : e = Event.upstreamOpen
  · subst h1
    have hn : ¬ w.server.pumpPortalWs = some ReadyState.CONNECTING := by
      rcases hp with hp | hp <;> simp [hp]
    simp only [step, hn, if_false]
    exact ⟨h0, hm, hp, ht⟩
  by_cases h2 : e = Event.upstreamClosing
  · subst h2
    simp only [step]
    split
    · exact ⟨h0, hm, Or.inr rfl, ht⟩
    · exact ⟨h0, hm, hp, ht⟩
  by_cases h4 : e = Event.reconnectTimer
  · subst h4
    have hs : w.step Event.reconnectTimer = (w, []) := by simp [step, ht]
    rw [hs]
    exact ⟨h0, hm, hp, ht⟩
  have hl := step_link w e h1 h2 he h4
  exact ⟨hl.2.1.trans h0, hl.2.2.1.trans hm, by rw [hl.1]; exact hp, hl.2.2.2.trans ht⟩

theorem rested_run (es : List Event) (hes : ∀ e ∈ es, e ≠ Event.upstreamClose) (w : World)
    (h : w.server.reconnectAttempts = 0 ∧ w.server.maxReconnectAttempts = 10
      ∧ (w.server.pumpPortalWs = some ReadyState.OPEN
          ∨ w.server.pumpPortalWs = some ReadyState.CLOSING)
      ∧ w.timer = none) :
    (run w es).server.reconnectAttempts = 0 ∧ (run w es).server.maxReconnectAttempts = 10
      ∧ ((run w es).server.pumpPortalWs = some ReadyState.OPEN
          ∨ (run w es).server.pumpPortalWs = some ReadyState.CLOSING)
      ∧ (run w es).timer = none := by
  induction es generalizing w with
  | nil => exact h
  | cons e es ih =>
    exact ih (fun x hx => hes x (List.mem_cons_of_mem _ hx)) _
      (rested_step w e (hes e (List.mem_cons_self _ _)) h)

theorem rested_after_open (w : World) (hw : Reachable w)
    (hcon : w.server.pumpPortalWs = some ReadyState.CONNECTING) :
    (w.step Event.upstreamOpen).1.server.reconnectAttempts = 0
      ∧ (w.step Event.upstreamOpen).1.server.maxReconnectAttempts = 10
      ∧ ((w.step Event.upstreamOpen).1.server.pumpPortalWs = some ReadyState.OPEN
          ∨ (w.step Event.upstreamOpen).1.server.pumpPortalWs = some ReadyState.CLOSING)
      ∧ (w.step Event.upstreamOpen).1.timer = none := by
  have hb := hw.bounded
  have ht : w.timer = none := hb.idle (by rw [hcon]; simp)
  simp only [step, hcon, if_true, commit, onPumpPortalOpen]
  split
  · exact ⟨rfl, hb.bound, Or.inl rfl, ht⟩
  · exact ⟨rfl, hb.bound, Or.inl rfl, ht⟩

/-- The frames of a close in a state whose upstream socket has not closed yet. -/
theorem step_close_effects (w : World)
    (hp : w.server.pumpPortalWs ≠ none ∧ w.server.pumpPortalWs ≠ some ReadyState.CLOSED) :
    (w.step Event.upstreamClose).2
        = (closeDelays w.server.maxReconnectAttempts w.server.reconnectAttempts 1).map
            Effect.setTimeout
      ∧ (w.step Event.upstreamClose).1.server.reconnectAttempts
        = (closeHandler w.server.reconnectAttempts w.server.maxReconnectAttempts).1
      ∧ (w.step Event.upstreamClose).1.server.maxReconnectAttempts
        = w.server.maxReconnectAttempts
      ∧ (w.step Event.upstreamClose).1.server.pumpPortalWs = some ReadyState.CLOSED
      ∧ (w.step Event.upstreamClose).1.timer
        = (closeHandler w.server.reconnectAttempts w.server.maxReconnectAttempts).2 := by
  have hn : ¬ (w.server.pumpPortalWs = none ∨ w.server.pumpPortalWs = some ReadyState.CLOSED) :=
    fun h => h.elim hp.1 hp.2
  simp only [step, hn, if_false]
  by_cases hlt : w.server.reconnectAttempts < w.server.maxReconnectAttempts
  · simp [onPumpPortalClose, closeHandler, closeDelays, hlt, armedTimer]
  · simp [onPumpPortalClose, closeHandler, closeDelays, hlt, armedTimer]

theorem step_timer_some (v : World) (d : Nat) (h : v.timer = some d) :
    v.step Event.reconnectTimer
      = ({ v with server := connectToPumpPortal v.server, upstreamLog := [], timer := none },
          []) := by
  simp only [step, h]

theorem step_timer_none (v : World) (h : v.timer = none) :
    v.step Event.reconnectTimer = (v, []) := by
  simp only [step, h]

theorem effects_cycles_closed (n : Nat) (w : World)
    (hc : w.server.pumpPortalWs = some ReadyState.CLOSED) (ht : w.timer = none) :
    effects w (reconnectCycles n) = [] := by
  induction n with
  | zero => rfl
  | succ n ih =>
    have h1 : w.step Event.upstreamClose = (w, []) := by simp [step, hc]
    have h2 : w.step Event.reconnectTimer = (w, []) := step_timer_none w ht
    simp only [reconnectCycles, effects, h1, h2, List.nil_append]
    exact ih

/-- The timers armed over a run of `n` closes are those of `closeDelays`. -/
theorem effects_cycles (n : Nat) (w : World)
    (hp : w.server.pumpPortalWs ≠ none ∧ w.server.pumpPortalWs ≠ some ReadyState.CLOSED)
    (ht : w.timer = none) :
    effects w (reconnectCycles n)
      = (closeDelays w.server.maxReconnectAttempts w.server.reconnectAttempts n).map
          Effect.setTimeout := by
  induction n generalizing w with
  | zero => simp [reconnectCycles, effects, closeDelays]
  | succ n ih =>
    have hs := step_close_effects w hp
    simp only [reconnectCycles, effects]
    by_cases hlt : w.server.reconnectAttempts < w.server.maxReconnectAttempts
    · have htimer : (w.step Event.upstreamClose).1.timer
          = some (reconnectDelay (w.server.reconnectAttempts + 1)) := by
        rw [hs.2.2.2.2]; simp [closeHandler, hlt]
      rw [step_timer_some _ _ htimer]
      have hih := ih { (w.step Event.upstreamClose).1 with
                server := connectToPumpPortal (w.step Event.upstreamClose).1.server,
                upstreamLog := [], timer := none }
        (by simp [connectToPumpPortal]) rfl
      rw [hih, hs.1]
      simp only [connectToPumpPortal, hs.2.1, hs.2.2.1]
      simp [closeDelays, closeHandler, hlt]
    · have htimer : (w.step Event.upstreamClose).1.timer = none := by
        rw [hs.2.2.2.2]; simp [closeHandler, hlt]
      rw [step_timer_none _ htimer, effects_cycles_closed n _ hs.2.2.2.1 htimer, hs.1, closeDelays_eq,
        closeDelays_eq]
      have hz : w.server.maxReconnectAttempts - w.server.reconnectAttempts = 0 := by omega
      simp [hz]

end World

/-- C11, as amended: after any successful upstream connection (`open` event), whatever
happens until the upstream closes, the delay scheduled by the next upstream close is
2000 ms: the counter is back at 0, and the close handler increments it before it
computes `min(1000 * 2^attempts, 30000)`. -/
theorem C11_first_delay_after_open (w : World) (hw : Reachable w)
    (hcon : w.server.pumpPortalWs = some ReadyState.CONNECTING) (es : List Event)
    (hes : ∀ e ∈ es, e ≠ Event.upstreamClose) :
    (w.step Event.upstreamOpen).1.server.reconnectAttempts = 0
      ∧ ((run (w.step Event.upstreamOpen).1 es).step Event.upstreamClose).2
          = [Effect.setTimeout 2000]
      ∧ reconnectDelay 1 = 2000 := by
  have h0 := rested_after_open w hw hcon
  have h1 := rested_run es hes _ h0
  refine ⟨h0.1, ?_, by decide⟩
  have hp : (run (w.step Event.upstreamOpen).1 es).server.pumpPortalWs ≠ none
      ∧ (run (w.step Event.upstreamOpen).1 es).server.pumpPortalWs
          ≠ some ReadyState.CLOSED := by
    rcases h1.2.2.1 with hp | hp <;> simp [hp]
  rw [(step_close_effects _ hp).1, h1.1, h1.2.1]
  decide

/-- Witness for C11 as amended: the upstream opens, a client binds, the upstream closes. -/
theorem C11_first_delay_after_open_witness :
    ((run (init.step Event.upstreamOpen).1 [Event.connection (some "MINT1") false]).step
        Event.upstreamClose).2 = [Effect.setTimeout 2000] :=
  (C11_first_delay_after_open init ⟨[], rfl⟩ (by decide)
    [Event.connection (some "MINT1") false] (by decide)).2.1

/-- C11 as stated fails: the first close after an `open` schedules the reconnect after
2000 ms, not after the base delay of 1000 ms. -/
theorem C11_counterexample :
    (run init [Event.upstreamOpen]).server.reconnectAttempts = 0
      ∧ ((run init [Event.upstreamOpen]).step Event.upstreamClose).2 = [Effect.setTimeout 2000]
      ∧ ((run init [Event.upstreamOpen]).step Event.upstreamClose).2
          ≠ [Effect.setTimeout 1000] := by
  refine ⟨by decide, by decide, by decide⟩

/-- C12: in every reachable state of the trades relay the bound is 10 and
`reconnectAttempts` lies within 0..10; an `open` event resets it to 0; over a run of `n`
closes in a row after an `open`, with no `open` in between, the reconnects scheduled
are those of the shared close handler, `min n 10` in number, so exactly 10 are
scheduled and every later close schedules none. -/
theorem C12_bounded_reconnection (w : World) (hw : Reachable w) :
    w.server.maxReconnectAttempts = 10
      ∧ w.server.reconnectAttempts ≤ 10
      ∧ (w.server.pumpPortalWs = some ReadyState.CONNECTING →
          (w.step Event.upstreamOpen).1.server.reconnectAttempts = 0
            ∧ ∀ n, effects (w.step Event.upstreamOpen).1 (reconnectCycles n)
                    = (closeDelays 10 0 n).map Effect.setTimeout)
      ∧ (∀ n, (closeDelays 10 0 n).length = min n 10)
      ∧ (∀ attempts, 10 ≤ attempts → closeHandler attempts 10 = (attempts, none)) := by
  have hb := hw.bounded
  refine ⟨hb.bound, hb.counter, ?_, ?_, ?_⟩
  · intro hcon
    have h0 := rested_after_open w hw hcon
    refine ⟨h0.1, fun n => ?_⟩
    have hp : (w.step Event.upstreamOpen).1.server.pumpPortalWs ≠ none
        ∧ (w.step Event.upstreamOpen).1.server.pumpPortalWs ≠ some ReadyState.CLOSED := by
      rcases h0.2.2.1 with hp | hp <;> simp [hp]
    rw [effects_cycles n _ hp h0.2.2.2, h0.1, h0.2.1]
  · intro n
    rw [closeDelays_eq]
    simp
  · intro attempts ha
    have : ¬ attempts < 10 := by omega
    simp [closeHandler, this]

/-- Witness for C12: after start and an `open`, twelve closes in a row schedule ten
reconnects. -/
theorem C12_bounded_reconnection_witness :
    (run init [Event.upstreamOpen, Event.upstreamClose, Event.reconnectTimer,
        Event.upstreamClose]).server.reconnectAttempts ≤ 10
      ∧ (effects (init.step Event.upstreamOpen).1 (reconnectCycles 12)).length = 10 := by
  have h := C12_bounded_reconnection (run init [Event.upstreamOpen, Event.upstreamClose,
    Event.reconnectTimer, Event.upstreamClose]) ⟨_, rfl⟩
  have h2 := C12_bounded_reconnection init ⟨[], rfl⟩
  refine ⟨h.2.1, ?_⟩
  rw [(h2.2.2.1 (by decide)).2 12, List.length_map, h2.2.2.2.1 12]
  decide

/-- A connection whose URL has no `token` parameter, or a single empty one, and whose
socket takes the `send` of line 33, is answered with exactly one `error` envelope and
then closed with code 1008; the instance is left as it was, so `clients` and
`tokenSubscriptions` are unchanged, and nothing is written upstream.  A connection
with a non-empty token is accepted and the handler closes no socket. -/
theorem onConnection_without_token (s : TradesWebSocketServer) (ws : Client) (w : World) :
    onConnection s ws none false
        = .ok (s, [Effect.send ws Envelope.error, Effect.close ws 1008])
      ∧ onConnection s ws (some "") false
        = .ok (s, [Effect.send ws Envelope.error, Effect.close ws 1008])
      ∧ (∀ token, token = none ∨ token = some "" →
          (w.step (Event.connection token false)).2
              = [Effect.send w.nextWs Envelope.error, Effect.close w.nextWs 1008]
            ∧ (w.step (Event.connection token false)).1.server.clients = w.server.clients
            ∧ (w.step (Event.connection token false)).1.server.tokenSubscriptions
                = w.server.tokenSubscriptions
            ∧ (w.step (Event.connection token false)).1.upstreamLog = w.upstreamLog)
      ∧ (∀ (t : String) (thr : Bool), t ≠ "" →
          onConnection s ws (some t) thr = .ok (acceptConnection s ws t thr)
            ∧ ∀ c code, Effect.close c code ∉ (acceptConnection s ws t thr).2) := by
  refine ⟨rfl, rfl, ?_, ?_⟩
  · intro token htoken
    rcases htoken with h | h <;> subst h <;>
      simp [step, onConnection, rejectConnection, commit, JSValue.truthy, Effect.isUpstream]
  · intro t thr ht
    refine ⟨by simp [onConnection, JSValue.truthy, ht], ?_⟩
    intro c code hmem
    unfold acceptConnection at hmem
    simp only [List.mem_append] at hmem
    rcases hmem with hmem | hmem
    · split at hmem
      · simp at hmem
      · unfold subscribeToToken at hmem
        split at hmem <;> simp at hmem
    · split at hmem <;> simp at hmem


/-- C14 fails on the code.  First, the `send` of line 33 is outside any `try`, unlike the
`send` of the acceptance (lines 67-77): when it throws for a connection without a token,
or with an empty one, the handler throws, line 38 is not reached, and neither an
`error` envelope nor a close with code 1008 is issued.  Second, a URL that repeats the
parameter, as in `/?token=&token=`, gives an array for `params.token`, which is truthy
although every token in it is empty: the test of line 32 fails and the connection is
not rejected. -/
theorem C14_rejection_skipped (s : TradesWebSocketServer) (ws : Client) (w : World) :
    onConnection s ws none true = .error "send"
      ∧ onConnection s ws (some "") true = .error "send"
      ∧ (∀ token, token = none ∨ token = some "" →
          (w.step (Event.connection token true)).2 = []
            ∧ ∀ code, Effect.close w.nextWs code ∉ (w.step (Event.connection token true)).2)
      ∧ (∀ (t : String) (thr : Bool), t ≠ "" →
          onConnection s ws (some t) thr = .ok (acceptConnection s ws t thr))
      ∧ TokenParam.ofValues ["", ""] = TokenParam.array ["", ""]
      ∧ TokenParam.rejected (TokenParam.ofValues ["", ""]) = false
      ∧ TokenParam.rejected (TokenParam.ofValues []) = true
      ∧ TokenParam.rejected (TokenParam.ofValues [""]) = true := by
  refine ⟨rfl, rfl, ?_, ?_, rfl, rfl, rfl, rfl⟩
  · intro token htoken
    rcases htoken with h | h <;> subst h <;>
      simp [step, onConnection, rejectConnection, JSValue.truthy]
  · intro t thr ht
    simp [onConnection, JSValue.truthy, ht]

/-- C18: an upstream frame that is not parseable JSON makes the message handler return
normally with the instance exactly as it was (so `clients`, `tokenSubscriptions`,
`reconnectAttempts` and the upstream socket are unchanged) and with no effect at all;
the world is left as it was. -/
theorem C18_malformed_frame_dropped (s : TradesWebSocketServer) (env : ClientEnv) (w : World) :
    onPumpPortalMessage s env Frame.malformed = .ok (s, [])
      ∧ w.step (Event.upstreamMessage Frame.malformed env) = (w, []) := by
  refine ⟨rfl, ?_⟩
  simp [step, onPumpPortalMessage, onPumpPortalMessageTry, JSONparse, commit]

/-- C19: the scenario on the trades relay with the upstream open.  Clients 0 (A) and 1 (B)
bind to "MINT1" and client 2 (C) to "MINT2"; a "MINT1" event is written to A and B and
not to C.  When A disconnects nothing is written upstream and "MINT1" keeps its entry,
holding B.  When B disconnects exactly one `unsubscribeTokenTrade` for "MINT1" is
written, the entry is gone, and a further "MINT1" event reaches no client. -/
theorem C19_scenario :
    (run init [Event.upstreamOpen, Event.connection (some "MINT1") false,
        Event.connection (some "MINT1") false,
        Event.connection (some "MINT2") false]).server.tokenSubscriptions
        = [("MINT1", [0, 1]), ("MINT2", [2])]
      ∧ ((run init [Event.upstreamOpen, Event.connection (some "MINT1") false,
          Event.connection (some "MINT1") false, Event.connection (some "MINT2") false]).step
          (Event.upstreamMessage
            (Frame.json (Message.object (JSValue.string "MINT1") JSValue.undefined
              JSValue.undefined 0)) { notOpen := [], sendThrows := [] })).2
        = [Effect.send 0 (Envelope.trade (JSValue.string "MINT1")
              (Message.object (JSValue.string "MINT1") JSValue.undefined JSValue.undefined 0)),
           Effect.send 1 (Envelope.trade (JSValue.string "MINT1")
              (Message.object (JSValue.string "MINT1") JSValue.undefined JSValue.undefined 0))]
      ∧ ((run init [Event.upstreamOpen, Event.connection (some "MINT1") false,
          Event.connection (some "MINT1") false, Event.connection (some "MINT2") false]).step
          (Event.clientClose 0)).2 = []
      ∧ (run init [Event.upstreamOpen, Event.connection (some "MINT1") false,
          Event.connection (some "MINT1") false, Event.connection (some "MINT2") false,
          Event.clientClose 0]).server.tokenSubscriptions = [("MINT1", [1]), ("MINT2", [2])]
      ∧ ((run init [Event.upstreamOpen, Event.connection (some "MINT1") false,
          Event.connection (some "MINT1") false, Event.connection (some "MINT2") false,
          Event.clientClose 0]).step (Event.clientClose 1)).2
        = [Effect.upstreamSend "unsubscribeTokenTrade" ["MINT1"]]
      ∧ (run init [Event.upstreamOpen, Event.connection (some "MINT1") false,
          Event.connection (some "MINT1") false, Event.connection (some "MINT2") false,
          Event.clientClose 0, Event.clientClose 1]).server.tokenSubscriptions
        = [("MINT2", [2])]
      ∧ ((run init [Event.upstreamOpen, Event.connection (some "MINT1") false,
          Event.connection (some "MINT1") false, Event.connection (some "MINT2") false,
          Event.clientClose 0, Event.clientClose 1]).step
          (Event.upstreamMessage
            (Frame.json (Message.object (JSValue.string "MINT1") JSValue.undefined
              JSValue.undefined 1)) { notOpen := [], sendThrows := [] })).2 = [] := by
  refine ⟨by decide, by decide, by decide, by decide, by decide, by decide, by decide⟩

/-- C20: for every amount of type number that a request can carry (the body of a request
is JSON, which has no `NaN`), `validateAmount` returns `isValid = true` exactly when
the amount is greater than 0, and for every such amount that is not greater than 0 it
returns `isValid = false` with the error 'Amount must be greater than 0'. -/
theorem C20_validateAmount_number (parseFloat : String → JSNumber) (amount : JSNumber)
    (h : amount ≠ JSNumber.nan) :
    ((validateAmount parseFloat (Amount.number amount)).isValid = true
        ↔ amount.gt 0 = true)
      ∧ (amount.gt 0 = false →
          validateAmount parseFloat (Amount.number amount)
            = { isValid := false, error := some "Amount must be greater than 0" })
      ∧ (amount.le 0 = true ↔ amount.gt 0 = false) := by
  cases amount with
  | nan => exact absurd rfl h
  | negInfinity => simp [validateAmount, JSNumber.le, JSNumber.gt]
  | posInfinity => simp [validateAmount, JSNumber.le, JSNumber.gt]
  | finite q =>
    by_cases hq : q ≤ 0
    · have hq2 : ¬ 0 < q := not_lt.mpr hq
      simp [validateAmount, JSNumber.le, JSNumber.gt, hq, hq2]
    · have hq2 : 0 < q := not_le.mp hq
      simp [validateAmount, JSNumber.le, JSNumber.gt, hq, hq2]

/-- Witness for C20: the amounts 1000 and -5. -/
theorem C20_validateAmount_number_witness :
    ((validateAmount parseFloat (Amount.number (JSNumber.finite 1000))).isValid = true
        ↔ (JSNumber.finite 1000).gt 0 = true)
      ∧ validateAmount parseFloat (Amount.number (JSNumber.finite (-5)))
          = { isValid := false, error := some "Amount must be greater than 0" } :=
  ⟨(C20_validateAmount_number parseFloat (JSNumber.finite 1000)
      (fun h => JSNumber.noConfusion h)).1,
    (C20_validateAmount_number parseFloat (JSNumber.finite (-5))
      (fun h => JSNumber.noConfusion h)).2.1 (by decide)⟩

/-- The function as written lets `NaN` through, since `NaN <= 0` is false; no request
reaches it with `NaN`. -/
theorem validateAmount_nan (parseFloat : String → JSNumber) :
    validateAmount parseFloat (Amount.number JSNumber.nan) = { isValid := true, error := none }
      ∧ JSNumber.nan.gt 0 = false
      ∧ JSNumber.nan.le 0 = false := by
  refine ⟨rfl, rfl, rfl⟩

set_option maxRecDepth 100000 in
/-- C15 fails on the code: with 101 topics active, each bound by one client, the replay
at the upstream `open` is a single `subscribeTokenTrade` frame that carries all 101
keys. -/
theorem C15_replay_exceeds_batch_limit :
    Reachable (run init (manyConnections 101))
      ∧ ((run init (manyConnections 101)).step Event.upstreamOpen).2
          = [Effect.upstreamSend "subscribeTokenTrade" (manyTokens 101)]
      ∧ (manyTokens 101).length = 101 := by
  refine ⟨⟨_, rfl⟩, by decide, by decide⟩

namespace WalletTrackerWebSocketServer

theorem subscribeLoop_spec (walletAddresses : List String) (i : Nat) :
    ((subscribeLoop walletAddresses i).map keysOf).flatten = walletAddresses.drop i
      ∧ (subscribeLoop walletAddresses i).length = (walletAddresses.length - i + 99) / 100
      ∧ ∀ e ∈ subscribeLoop walletAddresses i,
          ∃ keys, e = Effect.upstreamSend "subscribeAccountTrade" keys
            ∧ 1 ≤ keys.length ∧ keys.length ≤ 100 := by
  generalize hm : walletAddresses.length - i = m
  induction m using Nat.strong_induction_on generalizing i with
  | _ m ih =>
    rw [subscribeLoop]
    by_cases hlt : i < walletAddresses.length
    · have hdec : walletAddresses.length - (i + batchSize) < m := by
        simp only [batchSize]; omega
      have hrec := ih _ hdec (i + batchSize) rfl
      simp only [hlt, if_true, List.map_cons, List.flatten_cons, List.length_cons, List.mem_cons,
        keysOf]
      refine ⟨?_, ?_, ?_⟩
      · rw [hrec.1]
        have : List.drop (i + batchSize) walletAddresses
            = List.drop batchSize (List.drop i walletAddresses) := by
          rw [List.drop_drop, Nat.add_comm]
        rw [this, List.take_append_drop]
      · rw [hrec.2.1]
        simp only [batchSize]
        omega
      · intro e he
        rcases he with he | he
        · refine ⟨_, he, ?_, ?_⟩
          · simp only [List.length_take, List.length_drop, batchSize]; omega
          · simp only [List.length_take, List.length_drop, batchSize]; omega
        · exact hrec.2.2 e he
    · have hge : walletAddresses.length ≤ i := Nat.le_of_not_lt hlt
      simp only [hlt, if_false, List.map_nil, List.flatten_nil, List.length_nil]
      refine ⟨(List.drop_eq_nil_of_le hge).symm, by omega, ?_⟩
      intro e he
      simp at he

end WalletTrackerWebSocketServer

/-- C16: for every loaded wallet list of length `n`, the `open` handler of the wallet
tracker writes exactly `ceil(n / 100)` frames, each a `subscribeAccountTrade` with
between 1 and 100 keys, and the keys of these frames, taken in the order they are
sent, are the wallet list. -/
theorem C16_wallet_batches (s : WalletTrackerWebSocketServer) :
    (WalletTrackerWebSocketServer.onPumpPortalOpen s).2.length = (s.kols.length + 99) / 100
      ∧ (∀ e ∈ (WalletTrackerWebSocketServer.onPumpPortalOpen s).2,
          ∃ keys, e = Effect.upstreamSend "subscribeAccountTrade" keys
            ∧ 1 ≤ keys.length ∧ keys.length ≤ 100)
      ∧ ((WalletTrackerWebSocketServer.onPumpPortalOpen s).2.map
            WalletTrackerWebSocketServer.keysOf).flatten = s.kols.map Kol.wallet
      ∧ (WalletTrackerWebSocketServer.onPumpPortalOpen s).1.reconnectAttempts = 0 := by
  have h := WalletTrackerWebSocketServer.subscribeLoop_spec (s.kols.map Kol.wallet) 0
  simp only [List.length_map, Nat.sub_zero, List.drop_zero] at h
  exact ⟨h.2.1, h.2.2, h.1, rfl⟩

namespace TradesWebSocketServer

theorem removeClients_consistent (dead : List Client) (s : TradesWebSocketServer)
    (h : s.Consistent) : (removeClients s dead).1.Consistent := by
  unfold removeClients
  generalize hacc : (s, ([] : List Effect)) = acc
  have hs : acc.1.Consistent := by rw [← hacc]; exact h
  clear hacc h
  induction dead generalizing acc with
  | nil => exact hs
  | cons c dead ih =>
    simp only [List.foldl_cons]
    exact ih _ (removeClient_consistent acc.1 c hs)

theorem removeClients_removed (dead : List Client) (s : TradesWebSocketServer) (c : Client)
    (h : c ∈ dead ∨ c ∉ JSMap.keys s.clients) :
    c ∉ JSMap.keys (removeClients s dead).1.clients := by
  unfold removeClients
  generalize hacc : (s, ([] : List Effect)) = acc
  have hs : c ∈ dead ∨ c ∉ JSMap.keys acc.1.clients := by rw [← hacc]; exact h
  clear hacc h
  induction dead generalizing acc with
  | nil =>
    rcases hs with hs | hs
    · simp at hs
    · exact hs
  | cons d dead ih =>
    simp only [List.foldl_cons]
    apply ih
    by_cases hcd : c = d
    · right
      subst hcd
      simp [removeClient_keys]
    · rcases hs with hs | hs
      · left
        rcases List.mem_cons.mp hs with h1 | h1
        · exact absurd h1 hcd
        · exact h1
      · right
        simp only [removeClient_keys]
        intro hmem
        exact hs (List.mem_filter.mp hmem).1

/-- A client that is not a key of `clients` is in no topic set. -/
theorem Consistent.not_subscribed {s : TradesWebSocketServer} (h : s.Consistent) {c : Client}
    (hc : c ∉ JSMap.keys s.clients) (t : Topic) : c ∉ s.subscribersOf t := by
  intro hin
  have ht := (h.bound c t).mpr hin
  exact hc ((JSMap.mem_keys_iff _ _).mpr ⟨[t], h.topicsOf_eq ht⟩)

theorem broadcastToToken_effects (s : TradesWebSocketServer) (env : ClientEnv) (T : Topic)
    (message : Envelope) :
    (broadcastToToken s env (JSValue.string T) message).2
        = ((s.subscribersOf T).filter (fun c => env.delivers c)).map
            (fun c => Effect.send c message)
          ++ (removeClients s ((s.subscribersOf T).filter (fun c => !env.delivers c))).2
      ∧ (broadcastToToken s env (JSValue.string T) message).1
        = (removeClients s ((s.subscribersOf T).filter (fun c => !env.delivers c))).1 := by
  have hsub : s.subscribersOf T = (getSubscribers s (JSValue.string T)).getD [] := rfl
  rw [hsub]
  unfold broadcastToToken
  cases hg : getSubscribers s (JSValue.string T) with
  | none => simp [removeClients]
  | some subscribers =>
    simp only [Option.getD_some]
    by_cases hz : JSSet.size subscribers = 0
    · have hnil : subscribers = [] := List.length_eq_zero.mp hz
      subst hnil
      simp [removeClients, JSSet.size]
    · simp [hz]

end TradesWebSocketServer

/-- C17: in a state with consistent registries, `broadcastToToken` for the topic `T` first
writes the message once to each subscriber of `T` that is OPEN and whose `send` does
not throw, whatever the other subscribers do, and only then removes, by `removeClient`,
every subscriber that is not OPEN or whose `send` throws: such a client is afterwards
in neither registry.  No client is written to more than once. -/
theorem C17_send_failure_isolation (s : TradesWebSocketServer) (h : s.Consistent)
    (env : ClientEnv) (T : Topic) (message : Envelope) :
    (∀ c ∈ s.subscribersOf T, env.delivers c = true →
        (broadcastToToken s env (JSValue.string T) message).2.count (Effect.send c message) = 1)
      ∧ (∀ c m, (broadcastToToken s env (JSValue.string T) message).2.count (Effect.send c m) ≤ 1)
      ∧ (∀ c ∈ s.subscribersOf T, env.delivers c = false →
          c ∉ JSMap.keys (broadcastToToken s env (JSValue.string T) message).1.clients
            ∧ ∀ t, c ∉ (broadcastToToken s env (JSValue.string T) message).1.subscribersOf t)
      ∧ (∃ removals, (broadcastToToken s env (JSValue.string T) message).2
            = ((s.subscribersOf T).filter (fun c => env.delivers c)).map
                (fun c => Effect.send c message) ++ removals
          ∧ removals
            = (removeClients s ((s.subscribersOf T).filter (fun c => !env.delivers c))).2
          ∧ ∀ e ∈ removals, ∃ t, e = Effect.upstreamSend "unsubscribeTokenTrade" [t]) := by
  have he := broadcastToToken_effects s env T message
  have hnd : (s.subscribersOf T).Nodup := by
    unfold subscribersOf
    cases hg : JSMap.get s.tokenSubscriptions T with
    | none => simp
    | some subs => exact (h.members T subs hg).1
  have hrest : ∀ c m, (removeClients s
      ((s.subscribersOf T).filter (fun c => !env.delivers c))).2.count (Effect.send c m) = 0 := by
    intro c m
    rw [List.count_eq_zero]
    intro hmem
    obtain ⟨t, ht⟩ := removeClients_effects_upstream s _ _ hmem
    cases ht
  have hinj : Function.Injective (fun c => Effect.send c message) := by
    intro a b hab
    injection hab
  have hsent : ∀ c, (((s.subscribersOf T).filter (fun c => env.delivers c)).map
      (fun c => Effect.send c message)).count (Effect.send c message)
        = ((s.subscribersOf T).filter (fun c => env.delivers c)).count c :=
    fun c => List.count_map_of_injective _ _ hinj c
  refine ⟨?_, ?_, ?_, ?_⟩
  · intro c hc hdel
    rw [he.1, List.count_append, hrest, hsent, Nat.add_zero]
    have hmem : c ∈ (s.subscribersOf T).filter (fun c => env.delivers c) :=
      List.mem_filter.mpr ⟨hc, hdel⟩
    exact List.count_eq_one_of_mem (hnd.filter _) hmem
  · intro c m
    rw [he.1, List.count_append, hrest, Nat.add_zero]
    by_cases hm : m = message
    · subst hm
      rw [hsent]
      exact List.nodup_iff_count_le_one.mp (hnd.filter _) c
    · have : (((s.subscribersOf T).filter (fun c => env.delivers c)).map
          (fun c => Effect.send c message)).count (Effect.send c m) = 0 := by
        rw [List.count_eq_zero]
        intro hmem
        obtain ⟨d, _, hd⟩ := List.mem_map.mp hmem
        injection hd with h1 h2
        exact hm h2.symm
      rw [this]
      exact Nat.zero_le 1
  · intro c hc hdel
    have hdead : c ∈ (s.subscribersOf T).filter (fun c => !env.delivers c) :=
      List.mem_filter.mpr ⟨hc, by simp [hdel]⟩
    have hgone : c ∉ JSMap.keys (broadcastToToken s env (JSValue.string T) message).1.clients := by
      rw [he.2]
      exact removeClients_removed _ s c (Or.inl hdead)
    have hcons : (broadcastToToken s env (JSValue.string T) message).1.Consistent := by
      rw [he.2]
      exact removeClients_consistent _ s h
    exact ⟨hgone, hcons.not_subscribed hgone⟩
  · exact ⟨_, he.1, rfl, removeClients_effects_upstream s _⟩

/-- Witness for C17: clients 0, 1, 2 are bound to "MINT1"; the socket of client 1 is not
open and the `send` of client 2 throws. -/
theorem C17_send_failure_isolation_witness :
    (broadcastToToken (run init [Event.connection (some "MINT1") false,
        Event.connection (some "MINT1") false, Event.connection (some "MINT1") false]).server
        { notOpen := [1], sendThrows := [2] } (JSValue.string "MINT1")
        Envelope.error).2.count (Effect.send 0 Envelope.error) = 1
      ∧ 1 ∉ JSMap.keys (broadcastToToken (run init [Event.connection (some "MINT1") false,
        Event.connection (some "MINT1") false, Event.connection (some "MINT1") false]).server
        { notOpen := [1], sendThrows := [2] } (JSValue.string "MINT1")
        Envelope.error).1.clients :=
  ⟨(C17_send_failure_isolation _ (Reachable.inv ⟨_, rfl⟩).consistent
      { notOpen := [1], sendThrows := [2] } "MINT1" Envelope.error).1 0 (by decide) (by decide),
    ((C17_send_failure_isolation _ (Reachable.inv ⟨_, rfl⟩).consistent
      { notOpen := [1], sendThrows := [2] } "MINT1" Envelope.error).2.2.1 1
        (by decide) (by decide)).1⟩

namespace TradesWebSocketServer

theorem map_ws_setIsAlive (cs : List Socket) (x : Client) (b : Bool) :
    (setIsAlive cs x b).map Socket.ws = cs.map Socket.ws := by
  unfold setIsAlive
  rw [List.map_map]
  apply List.map_congr_left
  intro d _
  simp only [Function.comp]
  split <;> rfl

theorem map_ws_attachHandlers (cs : List Socket) (x : Client) :
    (attachHandlers cs x).map Socket.ws = cs.map Socket.ws := by
  unfold attachHandlers
  rw [List.map_map]
  apply List.map_congr_left
  intro d _
  simp only [Function.comp]
  split <;> rfl

/-- An entry of another socket is left as it is by `setIsAlive`. -/
theorem mem_setIsAlive_of_ne (cs : List Socket) (x : Client) (b : Bool) (d : Socket)
    (hd : d.ws ≠ x) : d ∈ setIsAlive cs x b ↔ d ∈ cs := by
  unfold setIsAlive
  simp only [List.mem_map]
  constructor
  · rintro ⟨a, ha, hda⟩
    by_cases hax : a.ws = x
    · simp only [hax, if_true] at hda
      subst hda
      exact absurd rfl hd
    · simp only [hax, if_false] at hda
      subst hda
      exact ha
  · intro hin
    exact ⟨d, hin, by simp [hd]⟩

theorem mem_attachHandlers_of_ne (cs : List Socket) (x : Client) (d : Socket)
    (hd : d.ws ≠ x) : d ∈ attachHandlers cs x ↔ d ∈ cs := by
  unfold attachHandlers
  simp only [List.mem_map]
  constructor
  · rintro ⟨a, ha, hda⟩
    by_cases hax : a.ws = x
    · simp only [hax, if_true] at hda
      subst hda
      exact absurd rfl hd
    · simp only [hax, if_false] at hda
      subst hda
      exact ha
  · intro hin
    exact ⟨d, hin, by simp [hd]⟩

/-- Every entry keeps its socket and its handlers under `setIsAlive`. -/
theorem exists_mem_setIsAlive (cs : List Socket) (x : Client) (b : Bool) (d : Socket)
    (hd : d ∈ cs) : ∃ d1 ∈ setIsAlive cs x b, d1.ws = d.ws ∧ d1.handlers = d.handlers := by
  unfold setIsAlive
  refine ⟨_, List.mem_map_of_mem _ hd, ?_⟩
  split <;> exact ⟨rfl, rfl⟩

theorem acceptConnection_wss (s : TradesWebSocketServer) (ws : Client) (t : Topic)
    (thr : Bool) :
    (acceptConnection s ws t thr).1.wssClients
      = attachHandlers (setIsAlive s.wssClients ws true) ws := by
  unfold acceptConnection bindClient
  simp only
  split <;> rfl

/-- The sockets after the first turns of a sweep: the flag of every socket met with a flag
other than `false` is now `false`; nothing else changed. -/
theorem foldl_sweepOne_wss (cs : List Socket) (acc : TradesWebSocketServer × List Effect) :
    (cs.foldl sweepOne acc).1.wssClients
      = acc.1.wssClients.map (fun d =>
          if d.ws ∈ (cs.filter (fun c => decide (c.isAlive ≠ some false))).map Socket.ws
          then { d with isAlive := some false } else d) := by
  induction cs generalizing acc with
  | nil => simp
  | cons c cs ih =>
    simp only [List.foldl_cons]
    rw [ih]
    by_cases hc : c.isAlive = some false
    · have hw : (sweepOne acc c).1.wssClients = acc.1.wssClients := by
        unfold sweepOne
        simp only [hc, if_true]
        exact (removeClient_fields acc.1 c.ws).1
      have hfil : (c :: cs).filter (fun c => decide (c.isAlive ≠ some false))
          = cs.filter (fun c => decide (c.isAlive ≠ some false)) := by
        simp [List.filter_cons, hc]
      rw [hw, hfil]
    · have hw : (sweepOne acc c).1.wssClients = setIsAlive acc.1.wssClients c.ws false := by
        unfold sweepOne
        simp only [hc, if_false]
      have hfil : (c :: cs).filter (fun c => decide (c.isAlive ≠ some false))
          = c :: cs.filter (fun c => decide (c.isAlive ≠ some false)) := by
        simp [List.filter_cons, hc]
      rw [hw, hfil]
      unfold setIsAlive
      rw [List.map_map]
      apply List.map_congr_left
      intro d _
      simp only [Function.comp, List.map_cons, List.mem_cons]
      by_cases hd : d.ws = c.ws
      · simp only [hd, if_true, true_or]
        split <;> rfl
      · simp only [hd, if_false, false_or]

/-- After a sweep every socket of `wss.clients` has its flag at `false`; the sockets and
their handlers are the same. -/
theorem sweep_wss (s : TradesWebSocketServer) :
    (sweep s).1.wssClients = s.wssClients.map (fun d => { d with isAlive := some false }) := by
  unfold sweep
  rw [foldl_sweepOne_wss]
  apply List.map_congr_left
  intro d hd
  by_cases hf : d.isAlive = some false
  · have : ({ d with isAlive := some false } : Socket) = d := by
      cases d
      simp only at hf
      subst hf
      rfl
    split
    · rfl
    · exact this.symm
  · have hmem : d.ws ∈ (s.wssClients.filter
        (fun c => decide (c.isAlive ≠ some false))).map Socket.ws :=
      List.mem_map_of_mem _ (List.mem_filter.mpr ⟨hd, by simp [hf]⟩)
    simp only [hmem, if_true]

/-- A sweep removes the client of every socket it meets with the flag at `false`, and
terminates that socket. -/
theorem foldl_sweepOne_removes (c : Client) (cs : List Socket)
    (acc : TradesWebSocketServer × List Effect)
    (h : (∃ d ∈ cs, d.ws = c ∧ d.isAlive = some false)
      ∨ (c ∉ JSMap.keys acc.1.clients ∧ Effect.terminate c ∈ acc.2)) :
    c ∉ JSMap.keys (cs.foldl sweepOne acc).1.clients
      ∧ Effect.terminate c ∈ (cs.foldl sweepOne acc).2 := by
  induction cs generalizing acc with
  | nil =>
    rcases h with ⟨d, hd, _⟩ | h
    · simp at hd
    · exact h
  | cons a cs ih =>
    simp only [List.foldl_cons]
    apply ih
    have hkeep : (c ∉ JSMap.keys acc.1.clients ∧ Effect.terminate c ∈ acc.2) →
        (c ∉ JSMap.keys (sweepOne acc a).1.clients ∧ Effect.terminate c ∈ (sweepOne acc a).2) := by
      rintro ⟨h1, h2⟩
      refine ⟨fun hm => h1 ((sweepOne_fields acc a).2.2.2 c hm), ?_⟩
      unfold sweepOne
      split
      · exact List.mem_append_left _ h2
      · exact List.mem_append_left _ h2
    rcases h with ⟨d, hd, hdc, hdf⟩ | h
    · rcases List.mem_cons.mp hd with hda | hdcs
      · subst hda
        right
        unfold sweepOne
        simp only [hdf, if_true, hdc]
        refine ⟨by simp [removeClient_keys], ?_⟩
        simp
      · exact Or.inl ⟨d, hdcs, hdc, hdf⟩
    · exact Or.inr (hkeep h)

theorem sweep_removes (s : TradesWebSocketServer) (c : Client)
    (h : ∃ d ∈ s.wssClients, d.ws = c ∧ d.isAlive = some false) :
    c ∉ JSMap.keys (sweep s).1.clients ∧ Effect.terminate c ∈ (sweep s).2 :=
  foldl_sweepOne_removes c s.wssClients (s, []) (Or.inl h)

end TradesWebSocketServer
namespace World

theorem sockets_of_kept (w v : World) (h : Sockets w) (hn : w.nextWs ≤ v.nextWs)
    (hws : v.server.wssClients.map Socket.ws = w.server.wssClients.map Socket.ws)
    (hh : ∀ d ∈ w.server.wssClients, d.handlers = true →
      ∃ d1 ∈ v.server.wssClients, d1.ws = d.ws ∧ d1.handlers = true)
    (hk : ∀ c ∈ JSMap.keys v.server.clients, c ∈ JSMap.keys w.server.clients
      ∨ ∃ d1 ∈ v.server.wssClients, d1.ws = c ∧ d1.handlers = true) : Sockets v := by
  refine ⟨by rw [hws]; exact h.unique, ?_, ?_⟩
  · intro d hd
    have hm : d.ws ∈ v.server.wssClients.map Socket.ws := List.mem_map_of_mem _ hd
    rw [hws] at hm
    obtain ⟨d0, hd0, he⟩ := List.mem_map.mp hm
    rw [← he]
    exact Nat.lt_of_lt_of_le (h.below d0 hd0) hn
  · intro c hc
    rcases hk c hc with hold | hnew
    · obtain ⟨d, hd, hdc, hdh⟩ := h.live c hold
      obtain ⟨d1, hd1, h1, h2⟩ := hh d hd hdh
      exact ⟨d1, hd1, h1.trans hdc, h2⟩
    · exact hnew

theorem sockets_same (w v : World) (h : Sockets w) (hn : w.nextWs ≤ v.nextWs)
    (hws : v.server.wssClients = w.server.wssClients)
    (hk : ∀ c ∈ JSMap.keys v.server.clients, c ∈ JSMap.keys w.server.clients) : Sockets v :=
  sockets_of_kept w v h hn (by rw [hws]) (fun d hd hdh => ⟨d, by rw [hws]; exact hd, rfl, hdh⟩)
    (fun c hc => Or.inl (hk c hc))

theorem sockets_init : Sockets init :=
  ⟨by simp [init, TradesWebSocketServer.init, connectToPumpPortal],
    by intro d hd; simp [init, TradesWebSocketServer.init, connectToPumpPortal] at hd,
    by intro c hc; simp [init, TradesWebSocketServer.init, connectToPumpPortal, JSMap.keys] at hc⟩

/-- The world in which the library has put the new socket into `wss.clients`. -/
theorem sockets_accepting (w : World) (h : Sockets w) :
    Sockets { w with
      server := { w.server with wssClients := w.server.wssClients
        ++ [{ ws := w.nextWs, isAlive := none, handlers := false }] },
      nextWs := w.nextWs + 1 } := by
  refine ⟨?_, ?_, ?_⟩
  · simp only [List.map_append, List.map_cons, List.map_nil]
    have hnot : w.nextWs ∉ w.server.wssClients.map Socket.ws := by
      intro hm
      obtain ⟨d, hd, he⟩ := List.mem_map.mp hm
      have hlt := h.below d hd
      rw [he] at hlt
      exact Nat.lt_irrefl _ hlt
    exact List.Nodup.append h.unique (List.nodup_singleton _) (by simpa using hnot)
  · intro d hd
    simp only [List.mem_append, List.mem_singleton] at hd
    rcases hd with hd | hd
    · exact Nat.lt_succ_of_lt (h.below d hd)
    · subst hd
      exact Nat.lt_succ_self _
  · intro c hc
    obtain ⟨d, hd, h1, h2⟩ := h.live c hc
    exact ⟨d, List.mem_append_left _ hd, h1, h2⟩

theorem sockets_step (w : World) (e : Event) (h : Sockets w) : Sockets (w.step e).1 := by
  cases e with
  | connection token thr =>
    simp only [step]
    have h0 := sockets_accepting w h
    have hrej : ∀ r : TradesWebSocketServer × List Effect,
        rejectConnection { w.server with wssClients := w.server.wssClients
          ++ [{ ws := w.nextWs, isAlive := none, handlers := false }] } w.nextWs thr = .ok r →
        r.1 = { w.server with wssClients := w.server.wssClients
          ++ [{ ws := w.nextWs, isAlive := none, handlers := false }] } := by
      intro r hr
      unfold rejectConnection at hr
      split at hr
      · simp at hr
      · injection hr with hr; subst hr; rfl
    cases hres : onConnection { w.server with wssClients := w.server.wssClients
        ++ [{ ws := w.nextWs, isAlive := none, handlers := false }] } w.nextWs token thr with
    | error err => exact h0
    | ok r =>
      simp only [commit]
      unfold onConnection at hres
      have hrejected : rejectConnection { w.server with wssClients := w.server.wssClients
          ++ [{ ws := w.nextWs, isAlive := none, handlers := false }] } w.nextWs thr = .ok r →
          ∀ v : World, v.server = r.1 → v.nextWs = w.nextWs + 1 → Sockets v := by
        intro hr v hv hn
        exact sockets_same _ v h0 (Nat.le_of_eq hn.symm) (by rw [hv, hrej r hr])
          (by rw [hv, hrej r hr]; intro c hc; exact hc)
      cases token with
      | none => exact hrejected hres _ rfl rfl
      | some t =>
        simp only at hres
        split at hres
        · injection hres with hres
          subst hres
          refine sockets_of_kept _ _ h0 (Nat.le_refl _) ?_ ?_ ?_
          · simp only [acceptConnection_wss, map_ws_attachHandlers, map_ws_setIsAlive]
          · intro d hd hdh
            simp only [acceptConnection_wss]
            refine ⟨_, List.mem_map_of_mem _ (List.mem_map_of_mem _ hd), ?_⟩
            by_cases hx : d.ws = w.nextWs
            · simp [hx]
            · simp [hx, hdh]
          · intro c hc
            rw [(acceptConnection_fields _ _ _ _).1] at hc
            by_cases hcn : c = w.nextWs
            · right
              subst hcn
              simp only [acceptConnection_wss]
              refine ⟨_, List.mem_map_of_mem _ (List.mem_map_of_mem _
                (List.mem_append_right _ (List.mem_singleton.mpr rfl))), ?_⟩
              simp
            · left
              have hc2 := (JSMap.mem_keys_iff _ _).mp hc
              obtain ⟨v, hv⟩ := hc2
              rw [JSMap.get_set] at hv
              have hne : ¬ w.nextWs = c := fun hh => hcn hh.symm
              simp only [hne, if_false] at hv
              exact (JSMap.mem_keys_iff _ _).mpr ⟨v, hv⟩
        · exact hrejected hres _ rfl rfl
  | clientClose x =>
    simp only [step]
    cases hsock : w.socket x with
    | none => exact h
    | some c0 =>
      simp only
      have hc0 : c0 ∈ w.server.wssClients := List.mem_of_find?_eq_some hsock
      have hc0x : c0.ws = x := by
        have := List.find?_some hsock
        simpa using this
      have hfilter : ∀ (v : World),
          v.server.wssClients = w.server.wssClients.filter (fun d => decide (d.ws ≠ x)) →
          v.nextWs = w.nextWs →
          (∀ c ∈ JSMap.keys v.server.clients, c ∈ JSMap.keys w.server.clients ∧ c ≠ x) →
          Sockets v := by
        intro v hv hn hk
        refine ⟨?_, ?_, ?_⟩
        · rw [hv]
          exact List.Nodup.sublist (List.Sublist.map _ (List.filter_sublist _)) h.unique
        · intro d hd
          rw [hv] at hd
          rw [hn]
          exact h.below d (List.mem_filter.mp hd).1
        · intro c hc
          obtain ⟨hc1, hc2⟩ := hk c hc
          obtain ⟨d, hd, hdc, hdh⟩ := h.live c hc1
          refine ⟨d, ?_, hdc, hdh⟩
          rw [hv]
          exact List.mem_filter.mpr ⟨hd, by simp [hdc, hc2]⟩
      split
      · apply hfilter
        · exact (removeClient_fields _ x).1
        · rfl
        · intro c hc
          simp only [commit, removeClient_keys] at hc
          have := List.mem_filter.mp hc
          exact ⟨this.1, by simpa using this.2⟩
      · rename_i hno
        apply hfilter
        · rfl
        · rfl
        · intro c hc
          refine ⟨hc, ?_⟩
          intro hcx
          subst hcx
          obtain ⟨d, hd, hdc, hdh⟩ := h.live c hc
          have heq : d = c0 :=
            List.inj_on_of_nodup_map h.unique hd hc0 (hdc.trans hc0x.symm)
          rw [heq] at hdh
          exact hno hdh
  | clientError x =>
    simp only [step]
    cases w.socket x with
    | none => exact h
    | some c0 =>
      simp only
      split
      · refine sockets_same w _ h (Nat.le_refl _) (removeClient_fields _ x).1 ?_
        intro c hc
        simp only [commit, removeClient_keys] at hc
        exact (List.mem_filter.mp hc).1
      · exact h
  | pong x =>
    simp only [step]
    cases w.socket x with
    | none => exact h
    | some c0 =>
      simp only
      split
      · refine sockets_of_kept w _ h (Nat.le_refl _) (map_ws_setIsAlive _ _ _) ?_
          (fun c hc => Or.inl hc)
        intro d hd hdh
        obtain ⟨d1, hd1, h1, h2⟩ := exists_mem_setIsAlive w.server.wssClients x true d hd
        exact ⟨d1, hd1, h1, h2.trans hdh⟩
      · exact h
  | sweep =>
    simp only [step, commit]
    refine sockets_of_kept w _ h (Nat.le_refl _) ?_ ?_
      (fun c hc => Or.inl ((sweep_fields w.server).2.2.2 c hc))
    · simp only [sweep_wss, List.map_map]
      apply List.map_congr_left
      intro d _
      rfl
    · intro d hd hdh
      simp only [sweep_wss]
      exact ⟨_, List.mem_map_of_mem _ hd, rfl, hdh⟩
  | upstreamOpen =>
    simp only [step]
    split
    · simp only [commit, onPumpPortalOpen]
      split
      · exact sockets_same w _ h (Nat.le_refl _) rfl (fun c hc => hc)
      · exact sockets_same w _ h (Nat.le_refl _) rfl (fun c hc => hc)
    · exact h
  | upstreamMessage data env =>
    simp only [step]
    obtain ⟨r, hr⟩ := onPumpPortalMessage_ok w.server env data
    rw [hr]
    have hf := onPumpPortalMessage_fields w.server env data r hr
    exact sockets_same w _ h (Nat.le_refl _) hf.1 hf.2.2.2.2
  | upstreamError => exact h
  | upstreamClosing =>
    simp only [step]
    split
    · exact sockets_same w _ h (Nat.le_refl _) rfl (fun c hc => hc)
    · exact h
  | upstreamClose =>
    simp only [step]
    split
    · exact h
    · have hf := onPumpPortalClose_fields { w.server with pumpPortalWs := some ReadyState.CLOSED }
      refine sockets_same w _ h (Nat.le_refl _) hf.2.2.2.2.2.2 ?_
      intro c hc
      have hc2 : c ∈ JSMap.keys (onPumpPortalClose
          { w.server with pumpPortalWs := some ReadyState.CLOSED }).1.clients := hc
      rw [hf.2.2.2.2.1] at hc2
      exact hc2
  | reconnectTimer =>
    simp only [step]
    cases w.timer with
    | none => exact h
    | some d => exact sockets_same w _ h (Nat.le_refl _) rfl (fun c hc => hc)

theorem Reachable.sockets {w : World} (h : Reachable w) : Sockets w :=
  Reachable.induction sockets_init (fun w e _ hw => sockets_step w e hw) w h

/-- An event that is neither a `pong` of the client `c` nor a sweep creates no entry for
the socket `c` and changes none: the entries of `c` afterwards were there before. -/
theorem step_sockets_from (w : World) (e : Event) (c : Client) (hc : c < w.nextWs)
    (he1 : e ≠ Event.pong c) (he2 : e ≠ Event.sweep) :
    w.nextWs ≤ (w.step e).1.nextWs
      ∧ ∀ d ∈ (w.step e).1.server.wssClients, d.ws = c → d ∈ w.server.wssClients := by
  have hne : c ≠ w.nextWs := Nat.ne_of_lt hc
  have hold : ∀ d ∈ w.server.wssClients
      ++ [({ ws := w.nextWs, isAlive := none, handlers := false } : Socket)],
      d.ws = c → d ∈ w.server.wssClients := by
    intro d hd hdc
    rcases List.mem_append.mp hd with h1 | h1
    · exact h1
    · simp at h1
      subst h1
      exact absurd hdc.symm hne
  cases e with
  | connection token thr =>
    simp only [step]
    have hrej : ∀ r : TradesWebSocketServer × List Effect,
        rejectConnection { w.server with wssClients := w.server.wssClients
          ++ [{ ws := w.nextWs, isAlive := none, handlers := false }] } w.nextWs thr = .ok r →
        r.1.wssClients = w.server.wssClients
          ++ [{ ws := w.nextWs, isAlive := none, handlers := false }] := by
      intro r hr
      unfold rejectConnection at hr
      split at hr
      · simp at hr
      · injection hr with hr; subst hr; rfl
    cases hres : onConnection { w.server with wssClients := w.server.wssClients
        ++ [{ ws := w.nextWs, isAlive := none, handlers := false }] } w.nextWs token thr with
    | error err => exact ⟨Nat.le_succ _, hold⟩
    | ok r =>
      simp only [commit]
      refine ⟨Nat.le_succ _, ?_⟩
      unfold onConnection at hres
      cases token with
      | none =>
        intro d hd hdc
        rw [hrej r hres] at hd
        exact hold d hd hdc
      | some t =>
        simp only at hres
        split at hres
        · injection hres with hres
          subst hres
          intro d hd hdc
          have hdn : d.ws ≠ w.nextWs := by rw [hdc]; exact hne
          rw [acceptConnection_wss, mem_attachHandlers_of_ne _ _ _ hdn,
            mem_setIsAlive_of_ne _ _ _ _ hdn] at hd
          exact hold d hd hdc
        · intro d hd hdc
          rw [hrej r hres] at hd
          exact hold d hd hdc
  | clientClose x =>
    simp only [step]
    cases w.socket x with
    | none => exact ⟨Nat.le_refl _, fun d hd _ => hd⟩
    | some c0 =>
      simp only
      split
      · refine ⟨Nat.le_refl _, fun d hd _ => ?_⟩
        simp only [commit, (removeClient_fields _ x).1] at hd
        exact (List.mem_filter.mp hd).1
      · exact ⟨Nat.le_refl _, fun d hd _ => (List.mem_filter.mp hd).1⟩
  | clientError x =>
    simp only [step]
    cases w.socket x with
    | none => exact ⟨Nat.le_refl _, fun d hd _ => hd⟩
    | some c0 =>
      simp only
      split
      · refine ⟨Nat.le_refl _, fun d hd _ => ?_⟩
        simp only [commit, (removeClient_fields _ x).1] at hd
        exact hd
      · exact ⟨Nat.le_refl _, fun d hd _ => hd⟩
  | pong x =>
    have hxc : x ≠ c := fun h => he1 (by rw [h])
    simp only [step]
    cases w.socket x with
    | none => exact ⟨Nat.le_refl _, fun d hd _ => hd⟩
    | some c0 =>
      simp only
      split
      · refine ⟨Nat.le_refl _, fun d hd hdc => ?_⟩
        have hdx : d.ws ≠ x := by rw [hdc]; exact fun h => hxc h.symm
        exact (mem_setIsAlive_of_ne _ _ _ _ hdx).mp hd
      · exact ⟨Nat.le_refl _, fun d hd _ => hd⟩
  | sweep => exact absurd rfl he2
  | upstreamOpen =>
    simp only [step]
    split
    · simp only [commit, onPumpPortalOpen]
      split
      · exact ⟨Nat.le_refl _, fun d hd _ => hd⟩
      · exact ⟨Nat.le_refl _, fun d hd _ => hd⟩
    · exact ⟨Nat.le_refl _, fun d hd _ => hd⟩
  | upstreamMessage data env =>
    simp only [step]
    obtain ⟨r, hr⟩ := onPumpPortalMessage_ok w.server env data
    rw [hr]
    have hf := onPumpPortalMessage_fields w.server env data r hr
    refine ⟨Nat.le_refl _, fun d hd _ => ?_⟩
    simp only [commit, hf.1] at hd
    exact hd
  | upstreamError => exact ⟨Nat.le_refl _, fun d hd _ => hd⟩
  | upstreamClosing =>
    simp only [step]
    split
    · exact ⟨Nat.le_refl _, fun d hd _ => hd⟩
    · exact ⟨Nat.le_refl _, fun d hd _ => hd⟩
  | upstreamClose =>
    simp only [step]
    split
    · exact ⟨Nat.le_refl _, fun d hd _ => hd⟩
    · have hf := onPumpPortalClose_fields { w.server with pumpPortalWs := some ReadyState.CLOSED }
      refine ⟨Nat.le_refl _, fun d hd _ => ?_⟩
      have hd2 : d ∈ (onPumpPortalClose
          { w.server with pumpPortalWs := some ReadyState.CLOSED }).1.wssClients := hd
      rw [hf.2.2.2.2.2.2] at hd2
      exact hd2
  | reconnectTimer =>
    simp only [step]
    cases w.timer with
    | none => exact ⟨Nat.le_refl _, fun d hd _ => hd⟩
    | some t => exact ⟨Nat.le_refl _, fun d hd _ => hd⟩

/-- While no `pong` of `c` arrives and no sweep runs, a flag of `c` that is `false` stays
`false`. -/
theorem run_keeps_flag (es : List Event) (c : Client)
    (hes : ∀ e ∈ es, e ≠ Event.pong c ∧ e ≠ Event.sweep) (w : World) (hc : c < w.nextWs)
    (hflag : ∀ d ∈ w.server.wssClients, d.ws = c → d.isAlive = some false) :
    ∀ d ∈ (run w es).server.wssClients, d.ws = c → d.isAlive = some false := by
  induction es generalizing w with
  | nil => exact hflag
  | cons e es ih =>
    have he := hes e (List.mem_cons_self _ _)
    have hs := step_sockets_from w e c hc he.1 he.2
    exact ih (fun x hx => hes x (List.mem_cons_of_mem _ hx)) (w.step e).1
      (Nat.lt_of_lt_of_le hc hs.1)
      (fun d hd hdc => hflag d (hs.2 d hd hdc) hdc)

theorem Reachable.after_run {w : World} (h : Reachable w) (es : List Event) :
    Reachable (World.run w es) := by
  obtain ⟨es0, h0⟩ := h
  exact ⟨es0 ++ es, by rw [run_append, h0]⟩

end World

/-- C13, as amended: let a client `c` be bound, and let no `pong` of `c` arrive between a
liveness sweep and the next one.  After the second sweep `c` is in neither registry,
every topic that still has an entry has a subscriber other than `c` (so a topic of
which `c` was the last subscriber is deleted), and `c` was terminated by the second
sweep if its socket had not closed by itself before.  If the upstream socket is then
OPEN, every topic still subscribed upstream has a subscriber other than `c`. -/
theorem C13_liveness_eviction (w : World) (hw : Reachable w) (c : Client)
    (hbound : c ∈ JSMap.keys w.server.clients) (es : List Event)
    (hes : ∀ e ∈ es, e ≠ Event.pong c ∧ e ≠ Event.sweep) :
    c ∉ JSMap.keys ((run (w.step Event.sweep).1 es).step Event.sweep).1.server.clients
      ∧ (∀ t, c ∉ ((run (w.step Event.sweep).1 es).step Event.sweep).1.server.subscribersOf t)
      ∧ (∀ t, t ∈ JSMap.keys
            ((run (w.step Event.sweep).1 es).step Event.sweep).1.server.tokenSubscriptions →
          ∃ c1, c1 ≠ c
            ∧ c1 ∈ ((run (w.step Event.sweep).1 es).step Event.sweep).1.server.subscribersOf t)
      ∧ ((∃ d ∈ (run (w.step Event.sweep).1 es).server.wssClients, d.ws = c) →
          Effect.terminate c ∈ ((run (w.step Event.sweep).1 es).step Event.sweep).2)
      ∧ (((run (w.step Event.sweep).1 es).step Event.sweep).1.server.pumpPortalWs
            = some ReadyState.OPEN →
          ∀ t, t ∈ activeSubscriptions
              ((run (w.step Event.sweep).1 es).step Event.sweep).1.upstreamLog →
            ∃ c1, c1 ≠ c
              ∧ c1 ∈ ((run (w.step Event.sweep).1 es).step Event.sweep).1.server.subscribersOf t) := by
  have hw1 : Reachable (w.step Event.sweep).1 := hw.after_step _
  have hw2 : Reachable (run (w.step Event.sweep).1 es) := hw1.after_run es
  have hw3 : Reachable ((run (w.step Event.sweep).1 es).step Event.sweep).1 := hw2.after_step _
  have hc0 : c < w.nextWs := hw.inv.fresh c hbound
  have hc1 : c < (w.step Event.sweep).1.nextWs := hc0
  have hflag1 : ∀ d ∈ (w.step Event.sweep).1.server.wssClients, d.ws = c →
      d.isAlive = some false := by
    intro d hd _
    have hd2 : d ∈ (sweep w.server).1.wssClients := hd
    rw [sweep_wss] at hd2
    obtain ⟨d0, _, rfl⟩ := List.mem_map.mp hd2
    rfl
  have hflag2 := run_keeps_flag es c hes _ hc1 hflag1
  have hterm : (∃ d ∈ (run (w.step Event.sweep).1 es).server.wssClients, d.ws = c) →
      c ∉ JSMap.keys ((run (w.step Event.sweep).1 es).step Event.sweep).1.server.clients
        ∧ Effect.terminate c ∈ ((run (w.step Event.sweep).1 es).step Event.sweep).2 := by
    rintro ⟨d, hd, hdc⟩
    exact sweep_removes _ c ⟨d, hd, hdc, hflag2 d hd hdc⟩
  have hgone : c ∉ JSMap.keys
      ((run (w.step Event.sweep).1 es).step Event.sweep).1.server.clients := by
    by_cases hin : c ∈ JSMap.keys (run (w.step Event.sweep).1 es).server.clients
    · obtain ⟨d, hd, hdc, _⟩ := hw2.sockets.live c hin
      exact (hterm ⟨d, hd, hdc⟩).1
    · intro hmem
      exact hin ((sweep_fields _).2.2.2 c hmem)
  have hcons := hw3.inv.consistent
  have hnot := hcons.not_subscribed hgone
  have hother : ∀ t, t ∈ JSMap.keys
      ((run (w.step Event.sweep).1 es).step Event.sweep).1.server.tokenSubscriptions →
      ∃ c1, c1 ≠ c
        ∧ c1 ∈ ((run (w.step Event.sweep).1 es).step Event.sweep).1.server.subscribersOf t := by
    intro t ht
    obtain ⟨c1, hc1⟩ := List.exists_mem_of_ne_nil _ ((hcons.mem_keys_iff_subscribers t).mp ht)
    exact ⟨c1, fun h => hnot t (h ▸ hc1), hc1⟩
  exact ⟨hgone, hnot, hother, fun h => (hterm h).2,
    fun ho t ht => hother t ((hw3.inv.synced ho t).mp ht)⟩

/-- Witness for C13 as amended: client 0 binds "MINT1" with the upstream open and never
answers a ping; another client connects between the two sweeps. -/
theorem C13_liveness_eviction_witness :
    0 ∉ JSMap.keys ((run ((run init [Event.upstreamOpen,
        Event.connection (some "MINT1") false]).step Event.sweep).1
        [Event.connection (some "MINT2") false]).step Event.sweep).1.server.clients
      ∧ Effect.terminate 0 ∈ ((run ((run init [Event.upstreamOpen,
        Event.connection (some "MINT1") false]).step Event.sweep).1
        [Event.connection (some "MINT2") false]).step Event.sweep).2 :=
  ⟨(C13_liveness_eviction (run init [Event.upstreamOpen,
      Event.connection (some "MINT1") false]) ⟨_, rfl⟩ 0 (by decide)
      [Event.connection (some "MINT2") false] (by decide)).1,
    (C13_liveness_eviction (run init [Event.upstreamOpen,
      Event.connection (some "MINT1") false]) ⟨_, rfl⟩ 0 (by decide)
      [Event.connection (some "MINT2") false] (by decide)).2.2.2.1
      ⟨{ ws := 0, isAlive := some false, handlers := true }, by decide, rfl⟩⟩

/-- C13 as stated fails: client 0 is the only subscriber of "MINT1", subscribed upstream;
the upstream socket then starts closing.  Client 0 answers no ping and the second sweep
terminates it and deletes "MINT1", but no `unsubscribeTokenTrade` is written.  And a
client whose socket closes by itself between the sweeps is never terminated. -/
theorem C13_counterexample :
    (run init [Event.upstreamOpen, Event.connection (some "MINT1") false,
        Event.upstreamClosing, Event.sweep]).server.tokenSubscriptions = [("MINT1", [0])]
      ∧ ((run init [Event.upstreamOpen, Event.connection (some "MINT1") false,
          Event.upstreamClosing, Event.sweep]).step Event.sweep).2 = [Effect.terminate 0]
      ∧ ((run init [Event.upstreamOpen, Event.connection (some "MINT1") false,
          Event.upstreamClosing, Event.sweep]).step Event.sweep).1.server.tokenSubscriptions = []
      ∧ activeSubscriptions ((run init [Event.upstreamOpen,
          Event.connection (some "MINT1") false, Event.upstreamClosing,
          Event.sweep]).step Event.sweep).1.upstreamLog = ["MINT1"]
      ∧ effects init [Event.upstreamOpen, Event.connection (some "MINT1") false, Event.sweep,
          Event.clientClose 0, Event.sweep]
        = [Effect.upstreamSend "subscribeTokenTrade" ["MINT1"],
           Effect.send 0 (Envelope.connection "MINT1"), Effect.ping 0,
           Effect.upstreamSend "unsubscribeTokenTrade" ["MINT1"]] := by
  refine ⟨by decide, by decide, by decide, by decide, by decide⟩

end GrokTrader

/-! ## Removal of a client, the responsive client, minimality, and the other relays -/

namespace GrokTrader
open TradesWebSocketServer World

namespace JSMap
variable {κ ν : Type} [DecidableEq κ]

theorem delete_of_get_none (m : JSMap κ ν) (x : κ) (h : get m x = none) : delete m x = m := by
  have hx := (not_mem_keys_iff m x).mpr h
  unfold delete
  rw [List.filter_eq_self]
  intro e he
  have : e.1 ≠ x := by
    intro hex
    apply hx
    rw [← hex]
    exact List.mem_map.mpr ⟨e, he, rfl⟩
  simpa using this

end JSMap

namespace TradesWebSocketServer

theorem removeClient_of_unbound (s : TradesWebSocketServer) (ws : Client)
    (h : JSMap.get s.clients ws = none) : removeClient s ws = (s, []) := by
  unfold removeClient
  simp only [h]
  rw [JSMap.delete_of_get_none _ _ h]

theorem removeClient_other (s : TradesWebSocketServer) (c c1 : Client) (hc1 : c1 ≠ c) :
    (removeClient s c).1.topicsOf c1 = s.topicsOf c1
      ∧ (c1 ∈ JSMap.keys (removeClient s c).1.clients ↔ c1 ∈ JSMap.keys s.clients)
      ∧ ∀ t, c1 ∈ (removeClient s c).1.subscribersOf t ↔ c1 ∈ s.subscribersOf t := by
  refine ⟨?_, ?_, ?_⟩
  · unfold topicsOf
    rw [removeClient_get_clients, if_neg (fun h => hc1 h.symm)]
  · rw [removeClient_keys]
    simp [hc1]
  · intro t
    unfold subscribersOf
    rw [removeClient_get_subs]
    split
    · rw [mem_prune]
      simp [hc1]
    · rfl

theorem removeClient_twice (s : TradesWebSocketServer) (ws : Client) :
    removeClient (removeClient s ws).1 ws = ((removeClient s ws).1, []) := by
  apply removeClient_of_unbound
  rw [removeClient_get_clients]
  simp

end TradesWebSocketServer

namespace World

theorem step_close_unbound (w : World) (c : Client)
    (h : JSMap.get w.server.clients c = none) :
    (w.step (Event.clientClose c)).2 = []
      ∧ (w.step (Event.clientClose c)).1.server.clients = w.server.clients
      ∧ (w.step (Event.clientClose c)).1.server.tokenSubscriptions
          = w.server.tokenSubscriptions
      ∧ (w.step (Event.clientClose c)).1.upstreamLog = w.upstreamLog := by
  simp only [step]
  cases w.socket c with
  | none => simp
  | some d =>
    simp only
    by_cases hh : d.handlers = true
    · rw [if_pos hh, commit]
      rw [removeClient_of_unbound _ _ (by exact h)]
      simp
    · rw [if_neg hh]
      simp

theorem step_error_unbinds (w : World) (c : Client) :
    JSMap.get (w.step (Event.clientError c)).1.server.clients c = none
      ∨ (w.step (Event.clientError c)).1 = w ∧ (w.step (Event.clientClose c)).2 = [] := by
  simp only [step]
  cases w.socket c with
  | none => right; simp
  | some d =>
    simp only
    by_cases hh : d.handlers = true
    · left
      rw [if_pos hh, commit]
      simp only
      rw [removeClient_get_clients]
      simp
    · right
      rw [if_neg hh, if_neg hh]
      simp

end World

/-- C22: in every state of the relay (the registries agreeing with each other, as they do
in every reachable state), after `removeClient(c)` the client `c` is absent from
`clients` and from the set of every topic, and for every other client the topics it is
bound to, its being a key of `clients` and its membership in every topic set are what
they were. -/
theorem C22_removeClient_frame (s : TradesWebSocketServer) (hs : s.Consistent) (c : Client) :
    c ∉ JSMap.keys (removeClient s c).1.clients
      ∧ (∀ t, c ∉ (removeClient s c).1.subscribersOf t)
      ∧ ∀ c1, c1 ≠ c →
          (removeClient s c).1.topicsOf c1 = s.topicsOf c1
          ∧ (c1 ∈ JSMap.keys (removeClient s c).1.clients ↔ c1 ∈ JSMap.keys s.clients)
          ∧ ∀ t, c1 ∈ (removeClient s c).1.subscribersOf t ↔ c1 ∈ s.subscribersOf t := by
  have hgone : c ∉ JSMap.keys (removeClient s c).1.clients := by
    rw [removeClient_keys]
    simp
  exact ⟨hgone, (removeClient_consistent s c hs).not_subscribed hgone,
    fun c1 hc1 => removeClient_other s c c1 hc1⟩

/-- Witness for C22: clients 0 and 1 are bound to "MINT1"; client 0 is removed. -/
theorem C22_removeClient_frame_witness :
    0 ∉ JSMap.keys (removeClient (run init [Event.upstreamOpen,
        Event.connection (some "MINT1") false,
        Event.connection (some "MINT1") false]).server 0).1.clients
      ∧ (removeClient (run init [Event.upstreamOpen,
        Event.connection (some "MINT1") false,
        Event.connection (some "MINT1") false]).server 0).1.topicsOf 1
        = (run init [Event.upstreamOpen, Event.connection (some "MINT1") false,
            Event.connection (some "MINT1") false]).server.topicsOf 1 :=
  ⟨(C22_removeClient_frame _ (Reachable.inv ⟨_, rfl⟩).consistent 0).1,
    ((C22_removeClient_frame _ (Reachable.inv ⟨_, rfl⟩).consistent 0).2.2 1 (by decide)).1⟩

/-- C25: `removeClient` is idempotent.  For every state and client, a second call in
succession leaves the state of the first call and sends nothing; a call for a client
that is not bound changes nothing and sends nothing.  Hence a close event for a client
that is no longer in `clients` sends nothing upstream and leaves the registries as they
are, so that neither the close after an error event nor the close after a sweep
eviction issues a second unsubscribe. -/
theorem C25_removeClient_idempotent (s : TradesWebSocketServer) (c : Client) :
    removeClient (removeClient s c).1 c = ((removeClient s c).1, [])
      ∧ (JSMap.get s.clients c = none → removeClient s c = (s, []))
      ∧ (∀ w : World, JSMap.get w.server.clients c = none →
          (w.step (Event.clientClose c)).2 = []
          ∧ (w.step (Event.clientClose c)).1.server.clients = w.server.clients
          ∧ (w.step (Event.clientClose c)).1.server.tokenSubscriptions
              = w.server.tokenSubscriptions
          ∧ (w.step (Event.clientClose c)).1.upstreamLog = w.upstreamLog)
      ∧ (∀ w : World, ((w.step (Event.clientError c)).1.step (Event.clientClose c)).2 = [])
      ∧ (∀ w : World, (∃ d ∈ w.server.wssClients, d.ws = c ∧ d.isAlive = some false) →
          ((w.step Event.sweep).1.step (Event.clientClose c)).2 = []) := by
  refine ⟨removeClient_twice s c, removeClient_of_unbound s c,
    fun w h => step_close_unbound w c h, ?_, ?_⟩
  · intro w
    rcases step_error_unbinds w c with h | ⟨h1, h2⟩
    · exact (step_close_unbound _ c h).1
    · rw [h1]; exact h2
  · intro w hd
    have h := (sweep_removes w.server c hd).1
    exact (step_close_unbound _ c ((JSMap.not_mem_keys_iff _ _).mp h)).1

namespace TradesWebSocketServer

theorem sweepOne_keys (acc : TradesWebSocketServer × List Effect) (a : Socket) (c : Client) :
    c ∈ JSMap.keys (sweepOne acc a).1.clients
      ↔ c ∈ JSMap.keys acc.1.clients ∧ ¬ (a.ws = c ∧ a.isAlive = some false) := by
  unfold sweepOne
  by_cases h : a.isAlive = some false
  · rw [if_pos h]
    simp only [removeClient_keys, List.mem_filter, decide_eq_true_eq]
    constructor
    · rintro ⟨h1, h2⟩
      exact ⟨h1, fun h3 => h2 h3.1.symm⟩
    · rintro ⟨h1, h2⟩
      exact ⟨h1, fun h3 => h2 ⟨h3.symm, h⟩⟩
  · rw [if_neg h]
    simp [h]

theorem sweepOne_terminate (acc : TradesWebSocketServer × List Effect) (a : Socket)
    (c : Client) :
    Effect.terminate c ∈ (sweepOne acc a).2
      ↔ Effect.terminate c ∈ acc.2 ∨ (a.ws = c ∧ a.isAlive = some false) := by
  unfold sweepOne
  by_cases h : a.isAlive = some false
  · rw [if_pos h]
    have hno : Effect.terminate c ∉ (removeClient acc.1 a.ws).2 := by
      intro hm
      obtain ⟨t, ht⟩ := removeClient_effects_upstream _ _ _ hm
      cases ht
    simp only [List.mem_append, List.mem_cons, Effect.terminate.injEq]
    constructor
    · rintro (h1 | h1 | h1)
      · exact Or.inl h1
      · exact Or.inr ⟨h1.symm, h⟩
      · exact absurd h1 hno
    · rintro (h1 | h1)
      · exact Or.inl h1
      · exact Or.inr (Or.inl h1.1.symm)
  · rw [if_neg h]
    simp [h]

theorem sweepOne_ping (acc : TradesWebSocketServer × List Effect) (a : Socket) (c : Client) :
    Effect.ping c ∈ (sweepOne acc a).2
      ↔ Effect.ping c ∈ acc.2 ∨ (a.ws = c ∧ a.isAlive ≠ some false) := by
  unfold sweepOne
  by_cases h : a.isAlive = some false
  · rw [if_pos h]
    have hno : Effect.ping c ∉ (removeClient acc.1 a.ws).2 := by
      intro hm
      obtain ⟨t, ht⟩ := removeClient_effects_upstream _ _ _ hm
      cases ht
    simp only [List.mem_append, List.mem_cons]
    constructor
    · rintro (h1 | h1 | h1)
      · exact Or.inl h1
      · cases h1
      · exact absurd h1 hno
    · rintro (h1 | h1)
      · exact Or.inl h1
      · exact absurd h h1.2
  · rw [if_neg h]
    simp only [List.mem_append, List.mem_singleton, Effect.ping.injEq]
    constructor
    · rintro (h1 | h1)
      · exact Or.inl h1
      · exact Or.inr ⟨h1.symm, h⟩
    · rintro (h1 | h1)
      · exact Or.inl h1
      · exact Or.inr h1.1.symm

theorem sweepOne_registries (acc : TradesWebSocketServer × List Effect) (a : Socket)
    (c : Client) (h : ¬ (a.ws = c ∧ a.isAlive = some false)) :
    (sweepOne acc a).1.topicsOf c = acc.1.topicsOf c
      ∧ ∀ t, c ∈ (sweepOne acc a).1.subscribersOf t ↔ c ∈ acc.1.subscribersOf t := by
  unfold sweepOne
  by_cases hf : a.isAlive = some false
  · rw [if_pos hf]
    have hne : c ≠ a.ws := fun hc => h ⟨hc.symm, hf⟩
    exact ⟨(removeClient_other acc.1 a.ws c hne).1, (removeClient_other acc.1 a.ws c hne).2.2⟩
  · rw [if_neg hf]
    exact ⟨rfl, fun t => Iff.rfl⟩

theorem foldl_sweepOne_keys (c : Client) (cs : List Socket)
    (acc : TradesWebSocketServer × List Effect) :
    c ∈ JSMap.keys (cs.foldl sweepOne acc).1.clients
      ↔ c ∈ JSMap.keys acc.1.clients ∧ ¬ ∃ d ∈ cs, d.ws = c ∧ d.isAlive = some false := by
  induction cs generalizing acc with
  | nil => simp
  | cons a cs ih =>
    rw [List.foldl_cons, ih, sweepOne_keys]
    simp only [List.mem_cons, exists_eq_or_imp, not_or]
    tauto

theorem foldl_sweepOne_terminate (c : Client) (cs : List Socket)
    (acc : TradesWebSocketServer × List Effect) :
    Effect.terminate c ∈ (cs.foldl sweepOne acc).2
      ↔ Effect.terminate c ∈ acc.2 ∨ ∃ d ∈ cs, d.ws = c ∧ d.isAlive = some false := by
  induction cs generalizing acc with
  | nil => simp
  | cons a cs ih =>
    rw [List.foldl_cons, ih, sweepOne_terminate]
    simp only [List.mem_cons, exists_eq_or_imp]
    tauto

theorem foldl_sweepOne_ping (c : Client) (cs : List Socket)
    (acc : TradesWebSocketServer × List Effect) :
    Effect.ping c ∈ (cs.foldl sweepOne acc).2
      ↔ Effect.ping c ∈ acc.2 ∨ ∃ d ∈ cs, d.ws = c ∧ d.isAlive ≠ some false := by
  induction cs generalizing acc with
  | nil => simp
  | cons a cs ih =>
    rw [List.foldl_cons, ih, sweepOne_ping]
    simp only [List.mem_cons, exists_eq_or_imp]
    tauto

theorem foldl_sweepOne_registries (c : Client) (cs : List Socket)
    (acc : TradesWebSocketServer × List Effect)
    (h : ¬ ∃ d ∈ cs, d.ws = c ∧ d.isAlive = some false) :
    (cs.foldl sweepOne acc).1.topicsOf c = acc.1.topicsOf c
      ∧ ∀ t, c ∈ (cs.foldl sweepOne acc).1.subscribersOf t ↔ c ∈ acc.1.subscribersOf t := by
  induction cs generalizing acc with
  | nil => exact ⟨rfl, fun t => Iff.rfl⟩
  | cons a cs ih =>
    rw [List.foldl_cons]
    have h1 : ¬ (a.ws = c ∧ a.isAlive = some false) :=
      fun hh => h ⟨a, List.mem_cons_self _ _, hh⟩
    have h2 : ¬ ∃ d ∈ cs, d.ws = c ∧ d.isAlive = some false :=
      fun ⟨d, hd, hh⟩ => h ⟨d, List.mem_cons_of_mem _ hd, hh⟩
    have hstep := sweepOne_registries acc a c h1
    have hrest := ih (sweepOne acc a) h2
    exact ⟨hrest.1.trans hstep.1, fun t => (hrest.2 t).trans (hstep.2 t)⟩

theorem alive_setIsAlive (cs : List Socket) (c : Client) :
    ∀ d ∈ setIsAlive cs c true, d.ws = c → d.isAlive = some true := by
  intro d hd hdc
  unfold setIsAlive at hd
  obtain ⟨a, _, rfl⟩ := List.mem_map.mp hd
  by_cases ha : a.ws = c
  · simp [ha]
  · simp only [ha, if_false] at hdc

theorem alive_attachHandlers (cs : List Socket) (c x : Client)
    (h : ∀ d ∈ cs, d.ws = c → d.isAlive = some true) :
    ∀ d ∈ attachHandlers cs x, d.ws = c → d.isAlive = some true := by
  intro d hd hdc
  unfold attachHandlers at hd
  obtain ⟨a, ha, rfl⟩ := List.mem_map.mp hd
  by_cases hax : a.ws = x
  · simp only [hax, if_true] at hdc ⊢
    exact h a ha (hax.trans hdc)
  · simp only [hax, if_false] at hdc ⊢
    exact h a ha hdc

end TradesWebSocketServer

namespace World

theorem step_keeps_alive (w : World) (e : Event) (c : Client) (hc : c < w.nextWs)
    (he : e ≠ Event.sweep)
    (h : ∀ d ∈ w.server.wssClients, d.ws = c → d.isAlive = some true) :
    w.nextWs ≤ (w.step e).1.nextWs
      ∧ ∀ d ∈ (w.step e).1.server.wssClients, d.ws = c → d.isAlive = some true := by
  by_cases hp : e = Event.pong c
  · subst hp
    simp only [step]
    cases w.socket c with
    | none => exact ⟨Nat.le_refl _, h⟩
    | some d0 =>
      simp only
      split
      · exact ⟨Nat.le_refl _, alive_setIsAlive _ c⟩
      · exact ⟨Nat.le_refl _, h⟩
  · have hs := step_sockets_from w e c hc hp he
    exact ⟨hs.1, fun d hd hdc => h d (hs.2 d hd hdc) hdc⟩

theorem run_keeps_alive (es : List Event) (c : Client) (hes : ∀ e ∈ es, e ≠ Event.sweep)
    (w : World) (hc : c < w.nextWs)
    (h : ∀ d ∈ w.server.wssClients, d.ws = c → d.isAlive = some true) :
    ∀ d ∈ (run w es).server.wssClients, d.ws = c → d.isAlive = some true := by
  induction es generalizing w with
  | nil => exact h
  | cons e es ih =>
    have hs := step_keeps_alive w e c hc (hes e (List.mem_cons_self _ _)) h
    exact ih (fun x hx => hes x (List.mem_cons_of_mem _ hx)) (w.step e).1
      (Nat.lt_of_lt_of_le hc hs.1) hs.2

theorem step_pong_alive (w : World) (hs : Sockets w) (c : Client)
    (hb : c ∈ JSMap.keys w.server.clients) :
    ∀ d ∈ (w.step (Event.pong c)).1.server.wssClients, d.ws = c → d.isAlive = some true := by
  obtain ⟨d1, hd1, hd1c, hd1h⟩ := hs.live c hb
  simp only [step]
  cases hsock : w.socket c with
  | none =>
    unfold socket at hsock
    have := List.find?_eq_none.mp hsock d1 hd1
    simp [hd1c] at this
  | some d0 =>
    unfold socket at hsock
    have hd0 : d0 ∈ w.server.wssClients := List.mem_of_find?_eq_some hsock
    have hd0c : d0.ws = c := by simpa using List.find?_some hsock
    have heq : d0 = d1 :=
      List.inj_on_of_nodup_map hs.unique hd0 hd1 (hd0c.trans hd1c.symm)
    simp only
    rw [heq, if_pos hd1h]
    exact alive_setIsAlive _ c

theorem step_pong_nextWs (w : World) (c : Client) :
    (w.step (Event.pong c)).1.nextWs = w.nextWs := by
  simp only [step]
  cases w.socket c with
  | none => rfl
  | some d0 =>
    simp only
    split <;> rfl

theorem step_accept_alive (w : World) (t : String) (thr : Bool) (ht : t ≠ "") :
    w.nextWs < (w.step (Event.connection (some t) thr)).1.nextWs
      ∧ ∀ d ∈ (w.step (Event.connection (some t) thr)).1.server.wssClients,
          d.ws = w.nextWs → d.isAlive = some true := by
  have htruthy : (JSValue.string t).truthy = true := by simp [JSValue.truthy, ht]
  simp only [step, onConnection, htruthy, if_true, commit]
  refine ⟨Nat.lt_succ_self _, ?_⟩
  rw [acceptConnection_wss]
  exact alive_attachHandlers _ _ _ (alive_setIsAlive _ _)

theorem spared_of_alive (w : World) (hs : Sockets w) (c : Client)
    (h : ∀ d ∈ w.server.wssClients, d.ws = c → d.isAlive = some true) : Spared w c := by
  have hno : ¬ ∃ d ∈ w.server.wssClients, d.ws = c ∧ d.isAlive = some false := by
    rintro ⟨d, hd, hdc, hdf⟩
    have := h d hd hdc
    rw [hdf] at this
    cases this
  have hreg := foldl_sweepOne_registries c w.server.wssClients (w.server, []) hno
  refine ⟨?_, hreg.1, hreg.2, ?_, ?_⟩
  · show c ∈ JSMap.keys (sweep w.server).1.clients ↔ _
    unfold sweep
    rw [foldl_sweepOne_keys]
    simp [hno]
  · show Effect.terminate c ∉ (sweep w.server).2
    unfold sweep
    rw [foldl_sweepOne_terminate]
    simp [hno]
  · intro hb
    show Effect.ping c ∈ (sweep w.server).2
    unfold sweep
    rw [foldl_sweepOne_ping]
    obtain ⟨d, hd, hdc, _⟩ := hs.live c hb
    refine Or.inr ⟨d, hd, hdc, ?_⟩
    rw [h d hd hdc]
    simp

end World

/-- C23: the liveness sweep and the responsive client.  In every reachable state, the
sweep removes from `clients` exactly the clients whose socket has its alive flag
`false`, issues `terminate` exactly for the sockets with the flag `false` and `ping`
exactly for the others, and leaves every flag `false`.  A client whose pong arrives
after that, with no other sweep in between, and a client that is accepted, are neither
terminated nor unbound by the next sweep. -/
theorem C23_responsive_client_kept (w : World) (hw : Reachable w) :
    (∀ c, c ∈ JSMap.keys (w.step Event.sweep).1.server.clients
        ↔ c ∈ JSMap.keys w.server.clients
          ∧ ¬ ∃ d ∈ w.server.wssClients, d.ws = c ∧ d.isAlive = some false)
      ∧ (∀ c, Effect.terminate c ∈ (w.step Event.sweep).2
        ↔ ∃ d ∈ w.server.wssClients, d.ws = c ∧ d.isAlive = some false)
      ∧ (∀ c, Effect.ping c ∈ (w.step Event.sweep).2
        ↔ ∃ d ∈ w.server.wssClients, d.ws = c ∧ d.isAlive ≠ some false)
      ∧ (∀ d ∈ (w.step Event.sweep).1.server.wssClients, d.isAlive = some false)
      ∧ (∀ c es, c ∈ JSMap.keys w.server.clients → (∀ e ∈ es, e ≠ Event.sweep) →
          Spared (run (w.step (Event.pong c)).1 es) c)
      ∧ (∀ t thr es, t ≠ "" → (∀ e ∈ es, e ≠ Event.sweep) →
          Spared (run (w.step (Event.connection (some t) thr)).1 es) w.nextWs) := by
  refine ⟨?_, ?_, ?_, ?_, ?_, ?_⟩
  · intro c
    show c ∈ JSMap.keys (sweep w.server).1.clients ↔ _
    unfold sweep
    rw [foldl_sweepOne_keys]
  · intro c
    show Effect.terminate c ∈ (sweep w.server).2 ↔ _
    unfold sweep
    rw [foldl_sweepOne_terminate]
    simp
  · intro c
    show Effect.ping c ∈ (sweep w.server).2 ↔ _
    unfold sweep
    rw [foldl_sweepOne_ping]
    simp
  · intro d hd
    have hd2 : d ∈ (sweep w.server).1.wssClients := hd
    rw [sweep_wss] at hd2
    obtain ⟨d0, _, rfl⟩ := List.mem_map.mp hd2
    rfl
  · intro c es hb hes
    have h1 := step_pong_alive w hw.sockets c hb
    have hc : c < (w.step (Event.pong c)).1.nextWs := by
      rw [step_pong_nextWs]
      exact hw.inv.fresh c hb
    exact spared_of_alive _ ((hw.after_step _).after_run es).sockets c
      (run_keeps_alive es c hes _ hc h1)
  · intro t thr es ht hes
    have h1 := step_accept_alive w t thr ht
    exact spared_of_alive _ ((hw.after_step _).after_run es).sockets w.nextWs
      (run_keeps_alive es w.nextWs hes _ h1.1 h1.2)

/-- Witness for C23: client 0 is bound to "MINT1" and a sweep has set its flag to `false`;
its pong arrives, another client connects, and the next sweep spares client 0. -/
theorem C23_responsive_client_kept_witness :
    Spared (run ((run init [Event.upstreamOpen, Event.connection (some "MINT1") false,
        Event.sweep]).step (Event.pong 0)).1 [Event.connection (some "MINT2") false]) 0
      ∧ Effect.ping 0 ∈ ((run ((run init [Event.upstreamOpen,
          Event.connection (some "MINT1") false, Event.sweep]).step (Event.pong 0)).1
          [Event.connection (some "MINT2") false]).step Event.sweep).2 :=
  ⟨(C23_responsive_client_kept (run init [Event.upstreamOpen,
      Event.connection (some "MINT1") false, Event.sweep]) ⟨_, rfl⟩).2.2.2.2.1 0
      [Event.connection (some "MINT2") false] (by decide) (by decide),
    by decide⟩

namespace World

theorem step_quiet (w : World) (h : Inv w)
    (hno : w.server.pumpPortalWs ≠ some ReadyState.OPEN) (e : Event)
    (he : e ≠ Event.upstreamOpen) :
    ∀ x ∈ (w.step e).2, Effect.isUpstream x = false := by
  cases e with
  | connection token thr =>
    simp only [step]
    have h0 : Sound (activeSubscriptions w.upstreamLog) w.server.pumpPortalWs w.nextWs
        ({ w.server with wssClients := w.server.wssClients
            ++ [{ ws := w.nextWs, isAlive := none, handlers := false }] }, []) :=
      sound_of_fields h.sound rfl rfl rfl
    have hrej : ∀ s1 : TradesWebSocketServer × List Effect,
        rejectConnection { w.server with wssClients := w.server.wssClients
            ++ [{ ws := w.nextWs, isAlive := none, handlers := false }] } w.nextWs thr = .ok s1 →
        ∀ x ∈ s1.2, Effect.isUpstream x = false := by
      intro s1 hs1
      unfold rejectConnection at hs1
      split at hs1
      · simp at hs1
      · injection hs1 with hs1
        subst hs1
        intro x hx
        simp at hx
        rcases hx with hx | hx <;> subst hx <;> rfl
    cases hres : onConnection { w.server with wssClients := w.server.wssClients
            ++ [{ ws := w.nextWs, isAlive := none, handlers := false }] } w.nextWs token thr with
    | error err => intro x hx; simp at hx
    | ok r =>
      simp only [commit]
      unfold onConnection at hres
      cases token with
      | none => exact hrej r hres
      | some t =>
        simp only at hres
        split at hres
        · injection hres with hres
          subst hres
          exact (acceptConnection_sound _ _ _ _ h0).tracks.quiet hno
        · exact hrej r hres
  | clientClose ws =>
    simp only [step]
    cases w.socket ws with
    | none => intro x hx; simp at hx
    | some c =>
      simp only
      have h0 : Sound (activeSubscriptions w.upstreamLog) w.server.pumpPortalWs w.nextWs
          ({ w.server with wssClients :=
              w.server.wssClients.filter (fun d => decide (d.ws ≠ ws)) }, []) :=
        sound_of_fields h.sound rfl rfl rfl
      split
      · exact (removeClient_sound _ ws h0).tracks.quiet hno
      · intro x hx; simp at hx
  | clientError ws =>
    simp only [step]
    cases w.socket ws with
    | none => intro x hx; simp at hx
    | some c =>
      simp only
      split
      · exact (removeClient_sound _ ws h.sound).tracks.quiet hno
      · intro x hx; simp at hx
  | pong ws =>
    simp only [step]
    cases w.socket ws with
    | none => intro x hx; simp at hx
    | some c =>
      simp only
      split <;> (intro x hx; simp at hx)
  | sweep =>
    simp only [step, commit]
    exact (sweep_sound _ h.sound).tracks.quiet hno
  | upstreamOpen => exact absurd rfl he
  | upstreamMessage data env =>
    simp only [step]
    cases hres : onPumpPortalMessage w.server env data with
    | error err => intro x hx; simp at hx
    | ok r =>
      simp only [commit]
      exact (onPumpPortalMessage_sound _ env data h.sound r hres).tracks.quiet hno
  | upstreamError => intro x hx; simp [step] at hx
  | upstreamClosing =>
    simp only [step]
    split <;> (intro x hx; simp at hx)
  | upstreamClose =>
    simp only [step]
    split
    · intro x hx; simp at hx
    · simp only [onPumpPortalClose]
      intro x hx
      split at hx
      · simp at hx; subst hx; rfl
      · simp at hx
  | reconnectTimer =>
    simp only [step]
    cases w.timer with
    | none => intro x hx; simp at hx
    | some d => intro x hx; simp at hx

theorem step_open_fields (w : World)
    (hcon : w.server.pumpPortalWs = some ReadyState.CONNECTING) :
    (w.step Event.upstreamOpen).1.server.pumpPortalWs = some ReadyState.OPEN
      ∧ (w.step Event.upstreamOpen).1.server.tokenSubscriptions = w.server.tokenSubscriptions
      ∧ (w.step Event.upstreamOpen).1.server.clients = w.server.clients := by
  refine ⟨?_, ?_, ?_⟩ <;>
  · simp only [step, hcon, if_true, commit, onPumpPortalOpen]
    split <;> rfl

end World

/-- C26: subscription minimality while the upstream is open.  In every reachable state in
which the upstream socket is OPEN (its open handler then has run), the topics
subscribed on that connection, keys subscribed minus keys unsubscribed since it opened,
are the keys of `tokenSubscriptions`.  In a reachable state in which the upstream is not
OPEN no event other than the upstream `open`, so no bind and no removal, writes a frame
upstream; and the `open` that follows, through its replay, leaves the feed subscribed
to the keys of `tokenSubscriptions`, which it does not change. -/
theorem C26_subscription_minimality (w : World) (hw : Reachable w) :
    (w.server.pumpPortalWs = some ReadyState.OPEN →
        ∀ t, t ∈ activeSubscriptions w.upstreamLog
          ↔ t ∈ JSMap.keys w.server.tokenSubscriptions)
      ∧ (w.server.pumpPortalWs ≠ some ReadyState.OPEN →
          ∀ e, e ≠ Event.upstreamOpen →
            ∀ x ∈ (w.step e).2, Effect.isUpstream x = false)
      ∧ (w.server.pumpPortalWs = some ReadyState.CONNECTING →
          (w.step Event.upstreamOpen).1.server.pumpPortalWs = some ReadyState.OPEN
          ∧ (w.step Event.upstreamOpen).1.server.tokenSubscriptions
              = w.server.tokenSubscriptions
          ∧ ∀ t, t ∈ activeSubscriptions (w.step Event.upstreamOpen).1.upstreamLog
              ↔ t ∈ JSMap.keys w.server.tokenSubscriptions) := by
  refine ⟨fun ho t => hw.inv.synced ho t, fun hno e he => step_quiet w hw.inv hno e he, ?_⟩
  intro hcon
  have hf := step_open_fields w hcon
  refine ⟨hf.1, hf.2.1, fun t => ?_⟩
  have := (hw.after_step Event.upstreamOpen).inv.synced hf.1 t
  rw [hf.2.1] at this
  exact this

/-- Witness for C26: clients bind to "MINT1" and "MINT2" and the first one leaves, all
before the upstream socket has opened; nothing is written upstream, and the `open`
leaves the feed subscribed to "MINT2" only. -/
theorem C26_subscription_minimality_witness :
    effects init [Event.connection (some "MINT1") false,
        Event.connection (some "MINT2") false, Event.clientClose 0, Event.upstreamOpen]
        = [Effect.send 0 (Envelope.connection "MINT1"),
           Effect.send 1 (Envelope.connection "MINT2"),
           Effect.upstreamSend "subscribeTokenTrade" ["MINT2"]]
      ∧ ("MINT2" ∈ activeSubscriptions ((run init [Event.connection (some "MINT1") false,
          Event.connection (some "MINT2") false, Event.clientClose 0]).step
            Event.upstreamOpen).1.upstreamLog
        ↔ "MINT2" ∈ JSMap.keys (run init [Event.connection (some "MINT1") false,
          Event.connection (some "MINT2") false,
          Event.clientClose 0]).server.tokenSubscriptions) :=
  ⟨by decide, ((C26_subscription_minimality (run init [Event.connection (some "MINT1") false,
      Event.connection (some "MINT2") false, Event.clientClose 0]) ⟨_, rfl⟩).2.2
      (by decide)).2.2 "MINT2"⟩

theorem foldl_broadcastOne (env : ClientEnv) (messageStr : String) (cs : List Client)
    (acc : List (Client × String) × List Client) :
    cs.foldl (broadcastOne env messageStr) acc
      = (acc.1 ++ (cs.filter (fun c => env.delivers c)).map (fun c => (c, messageStr)),
         acc.2 ++ cs.filter (fun c => !env.delivers c)) := by
  induction cs generalizing acc with
  | nil => simp
  | cons a cs ih =>
    rw [List.foldl_cons, ih]
    unfold broadcastOne ClientEnv.delivers
    by_cases h1 : a ∈ env.notOpen
    · simp [h1]
    · by_cases h2 : a ∈ env.sendThrows
      · simp [h1, h2]
      · simp [h1, h2]

theorem foldl_delete (ds : List Client) (s : JSSet Client) :
    ds.foldl JSSet.delete s = s.filter (fun c => decide (c ∉ ds)) := by
  induction ds generalizing s with
  | nil => simp
  | cons d ds ih =>
    rw [List.foldl_cons, ih]
    unfold JSSet.delete
    rw [List.filter_filter]
    apply List.filter_congr
    intro c _
    simp only [List.mem_cons, not_or, Bool.decide_and, ne_eq]
    rw [Bool.and_comm]

theorem broadcast_eq (clients : JSSet Client) (env : ClientEnv) (messageStr : String) :
    broadcast clients env messageStr
      = (clients.filter (fun c => env.delivers c),
         (clients.filter (fun c => env.delivers c)).map (fun c => (c, messageStr))) := by
  unfold broadcast
  simp only [foldl_broadcastOne, List.nil_append, foldl_delete]
  congr 1
  apply List.filter_congr
  intro c hc
  simp [List.mem_filter, hc]

theorem sent_once (l : List Client) (hn : l.Nodup) (c : Client) (hc : c ∈ l)
    (m : String) :
    (l.map (fun c => (c, m))).filter (fun p => decide (p.1 = c)) = [(c, m)] := by
  induction l with
  | nil => simp at hc
  | cons a l ih =>
    have hal : a ∉ l := (List.nodup_cons.mp hn).1
    have hl : l.Nodup := (List.nodup_cons.mp hn).2
    by_cases hac : a = c
    · subst hac
      have hnone : (l.map (fun c => (c, m))).filter (fun p => decide (p.1 = a)) = [] := by
        rw [List.filter_eq_nil_iff]
        intro p hp
        obtain ⟨b, hb, rfl⟩ := List.mem_map.mp hp
        simp only [decide_eq_true_eq]
        intro hba
        exact hal (hba ▸ hb)
      simp [hnone]
    · have hcl : c ∈ l := by
        rcases List.mem_cons.mp hc with h | h
        · exact absurd h.symm hac
        · exact h
      simp [hac, ih hl hcl]

/-- C27: `broadcast` in the relays without topics.  For every set of clients and every
message, after `broadcast(message)` the set `clients` is the previous set, in its
order, without the clients that were not OPEN or whose `send` threw: a client is
retained exactly if it was in the set, was OPEN and its `send` returned.  The texts
sent to a retained client are the serialized message, once, and nothing was
sent to a client that is not retained. -/
theorem C27_broadcast_topicless (clients : JSSet Client) (hn : clients.Nodup)
    (env : ClientEnv) (messageStr : String) :
    (broadcast clients env messageStr).1 = clients.filter (fun c => env.delivers c)
      ∧ (∀ c, c ∈ (broadcast clients env messageStr).1
          ↔ c ∈ clients ∧ c ∉ env.notOpen ∧ c ∉ env.sendThrows)
      ∧ (broadcast clients env messageStr).1.Nodup
      ∧ (broadcast clients env messageStr).2
          = (broadcast clients env messageStr).1.map (fun c => (c, messageStr))
      ∧ (∀ c ∈ (broadcast clients env messageStr).1,
          (broadcast clients env messageStr).2.filter (fun p => decide (p.1 = c))
            = [(c, messageStr)])
      ∧ (∀ c, c ∉ (broadcast clients env messageStr).1 →
          ∀ m, (c, m) ∉ (broadcast clients env messageStr).2) := by
  rw [broadcast_eq]
  have hnf : (clients.filter (fun c => env.delivers c)).Nodup := hn.filter _
  refine ⟨rfl, ?_, hnf, rfl, ?_, ?_⟩
  · intro c
    simp [List.mem_filter, ClientEnv.delivers]
  · intro c hc
    exact sent_once _ hnf c hc messageStr
  · intro c hc m hm
    obtain ⟨a, ha, hab⟩ := List.mem_map.mp hm
    have : a = c := (Prod.mk.inj hab).1
    exact hc (this ▸ ha)

/-- Witness for C27: of the clients 0, 1, 2 and 3, client 1 is not OPEN and the `send` of
client 2 throws. -/
theorem C27_broadcast_topicless_witness :
    (broadcast [0, 1, 2, 3] { notOpen := [1], sendThrows := [2] } "msg").1 = [0, 3]
      ∧ (broadcast [0, 1, 2, 3] { notOpen := [1], sendThrows := [2] } "msg").2
          = [(0, "msg"), (3, "msg")] :=
  ⟨(C27_broadcast_topicless [0, 1, 2, 3] (by decide) { notOpen := [1], sendThrows := [2] }
      "msg").1.trans (by decide),
    by decide⟩

/-- C24, as amended: the buy/sell heuristic of `determineBuyAction` when the explicit
fields are absent.  For every message in which none of `txType`, `type`, `action` is
the text `buy` or `sell` and neither `isBuy` nor `is_buy` is a boolean, the result is
`true` (buy) exactly if `solAmount` is present and `parseFloat` reads a number below
zero from it; a `solAmount` it reads a positive number, zero or no number from, and an
absent one, give `false` (sell); and a `solAmount` whose conversion to a string throws
makes the method throw.  Of the built-in `parseFloat` it is used that it reads no
negative number from the empty text and from the texts `null` and `false`. -/
theorem C24_buy_heuristic (parseFloat : String → JSNumber) (message : WalletMessage)
    (hparse : (parseFloat "").lt 0 = false ∧ (parseFloat "null").lt 0 = false
      ∧ (parseFloat "false").lt 0 = false)
    (htx : message.txType ≠ .string "buy" ∧ message.txType ≠ .string "sell")
    (hty : message.type ≠ .string "buy" ∧ message.type ≠ .string "sell")
    (hac : message.action ≠ .string "buy" ∧ message.action ≠ .string "sell")
    (hb1 : ∀ b, message.isBuy ≠ .bool b) (hb2 : ∀ b, message.is_buy ≠ .bool b) :
    (WalletTrackerWebSocketServer.determineBuyAction parseFloat message = .ok true
        ↔ message.solAmount ≠ .undefined
          ∧ ∃ x, message.solAmount.parseFloatOf parseFloat = .ok x ∧ x.lt 0 = true)
      ∧ (∀ x, message.solAmount.parseFloatOf parseFloat = .ok x → x.lt 0 = false →
          WalletTrackerWebSocketServer.determineBuyAction parseFloat message = .ok false)
      ∧ (∀ e, message.solAmount.parseFloatOf parseFloat = .error e →
          WalletTrackerWebSocketServer.determineBuyAction parseFloat message = .error e) := by
  obtain ⟨hp0, hp2, hp3⟩ := hparse
  have hval : WalletTrackerWebSocketServer.determineBuyAction parseFloat message
      = if message.solAmount.truthy then
          (match message.solAmount.parseFloatOf parseFloat with
            | .error e => .error e
            | .ok x => .ok (x.lt 0))
        else .ok false := by
    unfold WalletTrackerWebSocketServer.determineBuyAction
    simp only [htx.1, htx.2, hty.1, hty.2, hac.1, hac.2, hb1 false, hb1 true, hb2 false,
      hb2 true, or_self, if_false]
    cases message.solAmount.truthy with
    | false => rfl
    | true =>
      simp only [if_true]
      cases message.solAmount.parseFloatOf parseFloat with
      | error e => rfl
      | ok x => cases h : x.lt 0 <;> simp [h]
  rw [hval]
  generalize message.solAmount = v
  cases v with
  | undefined => simp [JSField.truthy, JSField.parseFloatOf]
  | null => simp [JSField.truthy, JSField.parseFloatOf, hp2]
  | bool b =>
    cases b with
    | false => simp [JSField.truthy, JSField.parseFloatOf, hp3]
    | true => simp [JSField.truthy, JSField.parseFloatOf]
  | number x =>
    cases x with
    | nan => simp [JSField.truthy, JSField.parseFloatOf, JSNumber.truthy, JSNumber.lt]
    | negInfinity => simp [JSField.truthy, JSField.parseFloatOf, JSNumber.truthy, JSNumber.lt]
    | posInfinity => simp [JSField.truthy, JSField.parseFloatOf, JSNumber.truthy, JSNumber.lt]
    | finite q =>
      by_cases hq : q = 0
      · simp [JSField.truthy, JSField.parseFloatOf, JSNumber.truthy, JSNumber.lt, hq]
      · simp [JSField.truthy, JSField.parseFloatOf, JSNumber.truthy, JSNumber.lt, hq]
  | string s =>
    by_cases hs : s = ""
    · subst hs
      simp [JSField.truthy, JSField.parseFloatOf, hp0]
    · simp [JSField.truthy, JSField.parseFloatOf, hs]
  | object text =>
    cases text with
    | none => simp [JSField.truthy, JSField.parseFloatOf]
    | some t => simp [JSField.truthy, JSField.parseFloatOf]

/-- Witness for C24 as amended: a message whose only field is `solAmount`, the text
`-0.5`, is a buy. -/
theorem C24_buy_heuristic_witness :
    WalletTrackerWebSocketServer.determineBuyAction parseFloat
      { txType := .undefined, type := .undefined, action := .undefined, isBuy := .undefined,
        is_buy := .undefined, solAmount := .string "-0.5" } = .ok true :=
  (C24_buy_heuristic parseFloat
      { txType := .undefined, type := .undefined, action := .undefined, isBuy := .undefined,
        is_buy := .undefined, solAmount := .string "-0.5" }
      (by decide) (by decide) (by decide) (by decide)
      (fun _ h => JSField.noConfusion h) (fun _ h => JSField.noConfusion h)).1.mpr
    ⟨by decide, parseFloat "-0.5", rfl, by decide⟩

/-- C24 as stated fails: a message whose `solAmount` is an object with an own property
`toString` that is not a function has no explicit field and a `solAmount` no number can
be read from, yet `determineBuyAction` does not return `false`: the conversion inside
`parseFloat` throws a `TypeError`, and so does the method. -/
theorem C24_counterexample :
    WalletTrackerWebSocketServer.determineBuyAction parseFloat
        { txType := .undefined, type := .undefined, action := .undefined,
          isBuy := .undefined, is_buy := .undefined, solAmount := .object none }
        = .error "TypeError"
      ∧ JSField.parseFloatOf parseFloat (.object none) = .error "TypeError"
      ∧ JSField.truthy (.object none) = true := by
  refine ⟨rfl, rfl, rfl⟩

/-- What `validateAmount` does with a string, for any `parseFloat`: if the string ends
with `%` after trimming it is valid exactly if `parseFloat` of the text before the `%`
is a number `p` with `0 < p <= 100`, with the error `Invalid percentage format` for
`NaN` and `Percentage must be between 0 and 100` for a number outside `(0, 100]`; every
string that does not end with `%` is rejected. -/
theorem validateAmount_percentage (parseFloat : String → JSNumber) (amount : String) :
    (endsWithPercent (jsTrim amount) = true →
        ((validateAmount parseFloat (Amount.string amount)).isValid = true
          ↔ (parseFloat (sliceOffLast (jsTrim amount))).gt 0 = true
            ∧ (parseFloat (sliceOffLast (jsTrim amount))).le 100 = true)
        ∧ ((parseFloat (sliceOffLast (jsTrim amount))).isNaN = true →
            validateAmount parseFloat (Amount.string amount)
              = { isValid := false, error := some "Invalid percentage format" })
        ∧ ((parseFloat (sliceOffLast (jsTrim amount))).isNaN = false →
            ((parseFloat (sliceOffLast (jsTrim amount))).le 0 = true
              ∨ (parseFloat (sliceOffLast (jsTrim amount))).gt 100 = true) →
            validateAmount parseFloat (Amount.string amount)
              = { isValid := false, error := some "Percentage must be between 0 and 100" }))
      ∧ (endsWithPercent (jsTrim amount) = false →
          (validateAmount parseFloat (Amount.string amount)).isValid = false
          ∧ (validateAmount parseFloat (Amount.string amount)).error
            = some "Amount must be a number or percentage (e.g., 1000 or \"50%\")") := by
  constructor
  · intro hp
    simp only [validateAmount, hp, if_true]
    cases hv : parseFloat (sliceOffLast (jsTrim amount)) with
    | nan => simp [JSNumber.isNaN, JSNumber.gt, JSNumber.le]
    | negInfinity => simp [JSNumber.isNaN, JSNumber.gt, JSNumber.le]
    | posInfinity => simp [JSNumber.isNaN, JSNumber.gt, JSNumber.le]
    | finite q =>
      by_cases h1 : q ≤ 0
      · have h2 : ¬ 0 < q := not_lt.mpr h1
        have h3 : ¬ 100 < q := fun h => h2 (lt_trans (by norm_num) h)
        simp [JSNumber.isNaN, JSNumber.gt, JSNumber.le, h1, h2, h3]
      · have h2 : 0 < q := not_le.mp h1
        by_cases h3 : 100 < q
        · have h4 : ¬ q ≤ 100 := not_le.mpr h3
          simp [JSNumber.isNaN, JSNumber.gt, JSNumber.le, h1, h2, h3, h4]
        · have h4 : q ≤ 100 := not_lt.mp h3
          simp [JSNumber.isNaN, JSNumber.gt, JSNumber.le, h1, h2, h3, h4]
  · intro hp
    simp [validateAmount, hp]

/-- C21 fails on the code: in `50abc%` the text before the `%` is `50abc`, which is not a
number, so the amount is to be refused with `Invalid percentage format`; but
`parseFloat` reads 50 from the start of it and ignores the rest, and `validateAmount`
accepts the amount.  The text `50%` is accepted and `abc%` refused, as they should. -/
theorem C21_numeric_prefix_accepted :
    validateAmount parseFloat (Amount.string "50abc%") = { isValid := true, error := none }
      ∧ sliceOffLast (jsTrim "50abc%") = "50abc"
      ∧ isNumeral "50abc" = false
      ∧ parseFloat "50abc" = JSNumber.finite 50
      ∧ validateAmount parseFloat (Amount.string "50%") = { isValid := true, error := none }
      ∧ validateAmount parseFloat (Amount.string "abc%")
          = { isValid := false, error := some "Invalid percentage format" } := by
  refine ⟨by decide, by decide, by decide, by decide, by decide, by decide⟩

end GrokTrader
